import Mathlib

/-!
TaskFlow (`js/app.js`): sanitizing load, category operations, calendar grid.

A shallow embedding of the state core of `js/app.js`.

* JavaScript values are the type `JVal` (what `JSON.parse` can return, plus
  `undefined`, which property access produces).  Numbers are `JNum`: `NaN`, the two
  infinities, or a finite value; every finite double is a rational, so finite
  numbers are carried in `ℚ`.
* A thrown `TypeError` is the result `none`.
* `uid()`, `Date.now()` and `todayISO()` read the outside world.  They are oracles
  of the environment `Env`, indexed by a call counter that the sanitizer threads
  through, so two calls may return different values.
* `String(n)` on a finite number and `Number(s)` on a string are library routines
  whose text is not part of the program; they are fields of `Env`.
* Strings are Lean strings (sequences of Unicode scalar values).
* DOM rendering, toasts and the writes of `persist` are not part of the in-memory
  state these definitions describe; an operation returns the new state and the
  toast message it shows.
-/

namespace TaskFlow

/-! ## JavaScript values -/

/-- A JavaScript number. -/
inductive JNum
  | nan
  | negInf
  | fin (q : ℚ)
  | posInf
  deriving DecidableEq

/-- A JavaScript value as `load` can meet it. An object is the list of its own
properties in the order of the JSON text. -/
inductive JVal
  | undefined
  | null
  | bool (b : Bool)
  | num (n : JNum)
  | str (s : String)
  | arr (xs : List JVal)
  | obj (kvs : List (String × JVal))

/-- The outside world of one synchronous run. -/
structure Env where
  /-- `String(n)` for a finite number `n`. -/
  fmtNum : ℚ → String
  /-- `Number(s)` for a string `s`. -/
  parseNum : String → JNum
  /-- What `uid()` returns when it is the `k`-th oracle call. -/
  uid : Nat → String
  /-- What `Date.now()` returns when it is the `k`-th oracle call. -/
  now : Nat → ℚ
  /-- What `todayISO()` returns when it is the `k`-th oracle call. -/
  todayISO : Nat → String
  /-- `new Date().getFullYear()` when `defaults` was built. -/
  defaultYear : ℚ
  /-- `new Date().getMonth()` when `defaults` was built. -/
  defaultMonth : ℚ
  /-- `todayISO()` when `defaults` was built. -/
  defaultSelectedDate : String

/-- ToBoolean: `undefined`, `null`, `false`, `0`, `NaN` and `''` are falsy. -/
def truthy : JVal → Bool
  | .undefined => false
  | .null => false
  | .bool b => b
  | .num .nan => false
  | .num (.fin q) => decide (q ≠ 0)
  | .num _ => true
  | .str s => decide (s ≠ "")
  | .arr _ => true
  | .obj _ => true

/-- `a || b`. -/
def jsOr (a b : JVal) : JVal := if truthy a then a else b

/-- `a ?? b`. -/
def nullish (a b : JVal) : JVal :=
  match a with
  | .undefined => b
  | .null => b
  | v => v

/-- Own-property lookup in a property list: the bindings are applied in the order of
the JSON text, so a key written twice keeps its last value, and a key that does not
occur reads `undefined`. -/
def lookupLast (k : String) (kvs : List (String × JVal)) : JVal :=
  kvs.foldl (fun acc p => if p.1 = k then p.2 else acc) .undefined

/-- Property read `v.k` for the field names the program uses (none of them is defined on
a built-in prototype, so anything but an own property reads `undefined`). -/
def JVal.get (v : JVal) (k : String) : JVal :=
  match v with
  | .obj kvs => lookupLast k kvs
  | _ => .undefined

/-- Optional chaining `v?.k`. -/
def JVal.getOpt (v : JVal) (k : String) : JVal :=
  match v with
  | .undefined => .undefined
  | .null => .undefined
  | w => w.get k

/-- `String(n)` for a number. -/
def numToStr (env : Env) : JNum → String
  | .nan => "NaN"
  | .negInf => "-Infinity"
  | .fin q => env.fmtNum q
  | .posInf => "Infinity"

mutual
/-- `String(v)`. An array is joined with commas, `null` and `undefined` elements
giving the empty string. An object prints as `[object Object]`, unless it has an own
property `toString`: a JSON value is not callable, the inherited `valueOf` returns the
object itself, and the conversion throws a `TypeError`. -/
def toStr (env : Env) : JVal → Option String
  | .undefined => some "undefined"
  | .null => some "null"
  | .bool b => some (if b then "true" else "false")
  | .num n => some (numToStr env n)
  | .str s => some s
  | .arr xs => joinStr env xs
  | .obj kvs => if kvs.any (fun p => p.1 == "toString") then none else some "[object Object]"
termination_by structural v => v
/-- `xs.join(',')`. -/
def joinStr (env : Env) : List JVal → Option String
  | [] => some ""
  | x :: r =>
    match (match x with
           | .undefined => some ""
           | .null => some ""
           | v => toStr env v), joinStr env r with
    | some a, some b => some (if r.isEmpty then a else a ++ "," ++ b)
    | _, _ => none
termination_by structural xs => xs
end

/-- `Number(v)`. Arrays and objects convert through their string form. -/
def toNumber (env : Env) : JVal → Option JNum
  | .undefined => some .nan
  | .null => some (.fin 0)
  | .bool b => some (.fin (if b then 1 else 0))
  | .num n => some n
  | .str s => some (env.parseNum s)
  | v => (toStr env v).map env.parseNum

/-- `Math.min(a, b)`. -/
def jsMin : JNum → JNum → JNum
  | .nan, _ => .nan
  | _, .nan => .nan
  | .negInf, _ => .negInf
  | _, .negInf => .negInf
  | .posInf, b => b
  | a, .posInf => a
  | .fin p, .fin q => .fin (min p q)

/-- `Math.max(a, b)`. -/
def jsMax : JNum → JNum → JNum
  | .nan, _ => .nan
  | _, .nan => .nan
  | .posInf, _ => .posInf
  | _, .posInf => .posInf
  | .negInf, b => b
  | a, .negInf => a
  | .fin p, .fin q => .fin (max p q)

/-- `clamp = (n, a, b) => Math.max(a, Math.min(b, n))`. -/
def clamp (n a b : JNum) : JNum := jsMax a (jsMin b n)

/-- White space and line terminators, the code points `String.prototype.trim` strips. -/
def isJsSpace (c : Char) : Bool :=
  let n := c.toNat
  n = 0x09 || n = 0x0A || n = 0x0B || n = 0x0C || n = 0x0D || n = 0x20 || n = 0xA0 ||
  n = 0x1680 || (0x2000 ≤ n && n ≤ 0x200A) || n = 0x2028 || n = 0x2029 || n = 0x202F ||
  n = 0x205F || n = 0x3000 || n = 0xFEFF

/-- Trimming on the character list. -/
def trimChars (l : List Char) : List Char :=
  (l.dropWhile isJsSpace).rdropWhile isJsSpace

/-- `s.trim()`. -/
def jsTrim (s : String) : String := ⟨trimChars s.data⟩

/-- The receiver of an array method in `(v || []).method(...)`: a falsy value is
replaced by the empty array; a truthy value that is not an array has no such method and
the call throws. -/
def orEmptyArray (v : JVal) : Option (List JVal) :=
  if truthy v then
    match v with
    | .arr xs => some xs
    | _ => none
  else some []

/-! ## The store -/

/-- A task of the store. `category` is `none` when the field holds `undefined`. -/
structure Task where
  id : String
  title : String
  category : Option String
  priority : String
  dueDate : String
  notes : String
  completed : Bool
  createdAt : JVal
  updatedAt : JVal

/-- An event of the store. -/
structure Event where
  id : String
  title : String
  date : String
  startTime : String
  endTime : String
  location : String
  notes : String
  color : String
  createdAt : JVal
  updatedAt : JVal

/-- The field `ui.calendar`. -/
structure Calendar where
  year : JNum
  month : JNum
  selectedDate : String
  drawerOpen : Bool

/-- The field `ui`. -/
structure Ui where
  page : JNum
  taskFilter : String
  calendar : Calendar

/-- The object `load` returns, which is also the in-memory `state`. -/
structure State where
  categories : List String
  tasks : List Task
  events : List Event
  ui : Ui

/-! ## `load`: the sanitizer -/

/-- `defaults.categories`. -/
def defaultCategories : List String := ["Personal", "Work", "Health"]

/-- `defaults.ui` as a value. -/
def defaultsUi (env : Env) : JVal :=
  .obj [("page", .num (.fin 0)), ("taskFilter", .str "all"),
        ("calendar", .obj [("year", .num (.fin env.defaultYear)),
                           ("month", .num (.fin env.defaultMonth)),
                           ("selectedDate", .str env.defaultSelectedDate),
                           ("drawerOpen", .bool true)])]

/-- `xs.map(f)` for a callback that may throw. -/
def mapThrow {α β : Type} (f : α → Option β) : List α → Option (List β)
  | [] => some []
  | x :: r =>
    match f x, mapThrow f r with
    | some y, some ys => some (y :: ys)
    | _, _ => none

/-- `Array.from(new Set(xs))`: values in insertion order, a value already in the set is
not inserted again. -/
def setFromArray (xs : List String) : List String :=
  xs.foldl (fun acc x => if x ∈ acc then acc else acc ++ [x]) []

/-- The callback `x => String(x || '').trim()`. -/
def cleanCatEntry (env : Env) (x : JVal) : Option String :=
  (toStr env (jsOr x (.str ""))).map jsTrim

/-- The constant `cleanCats` of `load`, after the default set was pushed. -/
def cleanCats (env : Env) (categories : JVal) : Option (List String) := do
  let xs ← orEmptyArray categories
  let ss ← mapThrow (cleanCatEntry env) xs
  let cleaned := setFromArray (ss.filter (fun s => s ≠ ""))
  pure (if cleaned.length = 0 then cleaned ++ defaultCategories else cleaned)

/-- `v || uid()`; the oracle is called only when `v` is falsy. -/
def orUid (env : Env) (v : JVal) (k : Nat) : JVal × Nat :=
  if truthy v then (v, k) else (.str (env.uid k), k + 1)

/-- `v || Date.now()`. -/
def orNow (env : Env) (v : JVal) (k : Nat) : JVal × Nat :=
  if truthy v then (v, k) else (.num (.fin (env.now k)), k + 1)

/-- `v ? String(v) : ''`. -/
def strOrEmpty (env : Env) (v : JVal) : Option String :=
  if truthy v then toStr env v else some ""

/-- `v ? String(v) : todayISO()`. -/
def strOrToday (env : Env) (v : JVal) (k : Nat) : Option (String × Nat) :=
  if truthy v then (toStr env v).map (fun d => (d, k)) else some (env.todayISO k, k + 1)

/-- `cleanCats[0]`. -/
def firstCat (cats : List String) : JVal :=
  match cats with
  | [] => .undefined
  | c :: _ => .str c

/-- The object literal built for one raw task; `k` counts the oracle calls made so
far. -/
def cleanTask (env : Env) (cats : List String) (t : JVal) (k : Nat) : Option (Task × Nat) := do
  let (idv, k1) := orUid env (t.get "id") k
  let id ← toStr env idv
  let title ← toStr env (jsOr (t.get "title") (.str ""))
  let category ← toStr env (jsOr (t.get "category") (firstCat cats))
  let priority :=
    match t.get "priority" with
    | .str p => if p ∈ ["low", "medium", "high"] then p else "medium"
    | _ => "medium"
  let dueDate ← strOrEmpty env (t.get "dueDate")
  let notes ← toStr env (jsOr (t.get "notes") (.str ""))
  let (createdAt, k2) := orNow env (t.get "createdAt") k1
  let (updatedAt, k3) := orNow env (t.get "updatedAt") k2
  pure ({ id := id, title := jsTrim title, category := some category, priority := priority,
          dueDate := dueDate, notes := notes, completed := truthy (t.get "completed"),
          createdAt := createdAt, updatedAt := updatedAt }, k3)

/-- The `.map(t => ...)` over the raw tasks, oracle calls in order. -/
def mapTasks (env : Env) (cats : List String) : List JVal → Nat → Option (List Task × Nat)
  | [], k => some ([], k)
  | t :: r, k =>
    match cleanTask env cats t k with
    | none => none
    | some (x, k1) =>
      match mapTasks env cats r k1 with
      | none => none
      | some (xs, k2) => some (x :: xs, k2)

/-- The constant `cleanTasks` of `load`:
`(tasks || []).filter(Boolean).map(...).filter(t => t.title)`. -/
def cleanTasks (env : Env) (cats : List String) (tasks : JVal) (k : Nat) :
    Option (List Task × Nat) := do
  let xs ← orEmptyArray tasks
  let (ts, k1) ← mapTasks env cats (xs.filter truthy) k
  pure (ts.filter (fun t => t.title ≠ ""), k1)

/-- The object literal built for one raw event. -/
def cleanEvent (env : Env) (e : JVal) (k : Nat) : Option (Event × Nat) := do
  let (idv, k1) := orUid env (e.get "id") k
  let id ← toStr env idv
  let title ← toStr env (jsOr (e.get "title") (.str ""))
  let (date, k2) ← strOrToday env (e.get "date") k1
  let startTime ← strOrEmpty env (e.get "startTime")
  let endTime ← strOrEmpty env (e.get "endTime")
  let location ← toStr env (jsOr (e.get "location") (.str ""))
  let notes ← toStr env (jsOr (e.get "notes") (.str ""))
  let color :=
    match e.get "color" with
    | .str c => if c ∈ ["blue", "pink", "green", "orange", "purple"] then c else "blue"
    | _ => "blue"
  let (createdAt, k3) := orNow env (e.get "createdAt") k2
  let (updatedAt, k4) := orNow env (e.get "updatedAt") k3
  pure ({ id := id, title := jsTrim title, date := date, startTime := startTime,
          endTime := endTime, location := location, notes := notes, color := color,
          createdAt := createdAt, updatedAt := updatedAt }, k4)

/-- The `.map(e => ...)` over the raw events. -/
def mapEvents (env : Env) : List JVal → Nat → Option (List Event × Nat)
  | [], k => some ([], k)
  | e :: r, k =>
    match cleanEvent env e k with
    | none => none
    | some (x, k1) =>
      match mapEvents env r k1 with
      | none => none
      | some (xs, k2) => some (x :: xs, k2)

/-- The constant `cleanEvents` of `load`. -/
def cleanEvents (env : Env) (events : JVal) (k : Nat) : Option (List Event × Nat) := do
  let xs ← orEmptyArray events
  let (es, k1) ← mapEvents env (xs.filter truthy) k
  pure (es.filter (fun e => e.title ≠ ""), k1)

/-- The constant `uiFixed` of `load`. -/
def uiFixed (env : Env) (ui : JVal) : Option Ui := do
  let d := defaultsUi env
  let cal := ui.getOpt "calendar"
  let dcal := d.get "calendar"
  let page ← toNumber env (nullish (ui.getOpt "page") (d.get "page"))
  let taskFilter :=
    match ui.getOpt "taskFilter" with
    | .str f => if f ∈ ["all", "active", "completed"] then f else "all"
    | _ => "all"
  let year ← toNumber env (nullish (cal.getOpt "year") (dcal.get "year"))
  let month ← toNumber env (nullish (cal.getOpt "month") (dcal.get "month"))
  let selectedDate ← toStr env (nullish (cal.getOpt "selectedDate") (dcal.get "selectedDate"))
  let drawerOpen :=
    match cal.getOpt "drawerOpen" with
    | .bool false => false
    | _ => true
  pure { page := clamp page (.fin 0) (.fin 1), taskFilter := taskFilter,
         calendar := { year := year, month := clamp month (.fin 0) (.fin 11),
                       selectedDate := selectedDate, drawerOpen := drawerOpen } }

/-- The part of `load` below the comment `Sanity & migrations`, on the four parsed
values. -/
def sanitize (env : Env) (categories tasks events ui : JVal) : Option State := do
  let cats ← cleanCats env categories
  let (ts, k1) ← cleanTasks env cats tasks 0
  let (es, _) ← cleanEvents env events k1
  let u ← uiFixed env ui
  pure { categories := cats, tasks := ts, events := es, ui := u }

/-- What one `localStorage` slot holds, by what `JSON.parse` makes of it. -/
inductive Slot
  | absent
  | corrupt
  | json (v : JVal)

/-- The four slots `focusflow.categories`, `.tasks`, `.events`, `.ui`. -/
structure Storage where
  categories : Slot
  tasks : Slot
  events : Slot
  ui : Slot

/-- `safeJSON.parse(localStorage.getItem(key), fallback)`. For an absent key `getItem`
returns `null`, and `JSON.parse(null)` parses the text `null`: the result is `null`, not
the fallback. Only a text that fails to parse gives the fallback. -/
def safeParse (s : Slot) (fallback : JVal) : JVal :=
  match s with
  | .absent => .null
  | .corrupt => fallback
  | .json v => v

/-- The function `load`. -/
def load (env : Env) (st : Storage) : Option State :=
  sanitize env
    (safeParse st.categories (.arr (defaultCategories.map .str)))
    (safeParse st.tasks (.arr []))
    (safeParse st.events (.arr []))
    (safeParse st.ui (defaultsUi env))

/-! ## Snapshots as stored values -/

/-- A category name as a value. -/
def encCategories (cats : List String) : JVal := .arr (cats.map .str)

/-- A task as the object that holds exactly its nine fields. -/
def encTask (t : Task) : JVal :=
  .obj [("id", .str t.id), ("title", .str t.title),
        ("category", match t.category with
                     | some c => .str c
                     | none => .undefined),
        ("priority", .str t.priority), ("dueDate", .str t.dueDate), ("notes", .str t.notes),
        ("completed", .bool t.completed), ("createdAt", t.createdAt),
        ("updatedAt", t.updatedAt)]

/-- An event as the object that holds exactly its ten fields. -/
def encEvent (e : Event) : JVal :=
  .obj [("id", .str e.id), ("title", .str e.title), ("date", .str e.date),
        ("startTime", .str e.startTime), ("endTime", .str e.endTime),
        ("location", .str e.location), ("notes", .str e.notes), ("color", .str e.color),
        ("createdAt", e.createdAt), ("updatedAt", e.updatedAt)]

/-- The field `ui` as an object. -/
def encUi (u : Ui) : JVal :=
  .obj [("page", .num u.page), ("taskFilter", .str u.taskFilter),
        ("calendar", .obj [("year", .num u.calendar.year), ("month", .num u.calendar.month),
                           ("selectedDate", .str u.calendar.selectedDate),
                           ("drawerOpen", .bool u.calendar.drawerOpen)])]

/-- Running the sanitizer of `load` on a snapshot. -/
def resanitize (env : Env) (s : State) : Option State :=
  sanitize env (encCategories s.categories) (.arr (s.tasks.map encTask))
    (.arr (s.events.map encEvent)) (encUi s.ui)

/-- A field is present when it does not read `undefined`. -/
def present : JVal → Bool
  | .undefined => false
  | _ => true

/-- A trimmed string. -/
@[reducible] def Trimmed (s : String) : Prop := jsTrim s = s

/-- The validity of a category list: not empty, no name twice, every name trimmed and
non-empty. -/
@[reducible] def ValidCategories (cats : List String) : Prop :=
  cats ≠ [] ∧ cats.Nodup ∧ ∀ c ∈ cats, Trimmed c ∧ c ≠ ""

/-- The validity of a task: trimmed non-empty title, a priority of the enum, string
fields, both timestamps present. -/
@[reducible] def ValidTask (t : Task) : Prop :=
  Trimmed t.title ∧ t.title ≠ "" ∧ t.priority ∈ ["low", "medium", "high"] ∧
  t.category.isSome = true ∧ present t.createdAt = true ∧ present t.updatedAt = true

/-- The validity of an event: trimmed non-empty title, a color of the enum, both
timestamps present. -/
@[reducible] def ValidEvent (e : Event) : Prop :=
  Trimmed e.title ∧ e.title ≠ "" ∧ e.color ∈ ["blue", "pink", "green", "orange", "purple"] ∧
  present e.createdAt = true ∧ present e.updatedAt = true

/-- The validity of the field `ui`: page 0 or 1, a filter of the enum, month in [0,11]. -/
def ValidUi (u : Ui) : Prop :=
  (u.page = .fin 0 ∨ u.page = .fin 1) ∧ u.taskFilter ∈ ["all", "active", "completed"] ∧
  ∃ q : ℚ, u.calendar.month = .fin q ∧ 0 ≤ q ∧ q ≤ 11

/-- A valid snapshot. -/
def ValidSnapshot (s : State) : Prop :=
  ValidCategories s.categories ∧ (∀ t ∈ s.tasks, ValidTask t) ∧
  (∀ e ∈ s.events, ValidEvent e) ∧ ValidUi s.ui

/-- No field of the task is one the sanitizer takes for missing: the id and the
category are not the empty string and both timestamps are truthy. -/
@[reducible] def FilledTask (t : Task) : Prop :=
  t.id ≠ "" ∧ t.category ≠ some "" ∧ truthy t.createdAt = true ∧ truthy t.updatedAt = true

/-- No field of the event is one the sanitizer takes for missing. -/
@[reducible] def FilledEvent (e : Event) : Prop :=
  e.id ≠ "" ∧ e.date ≠ "" ∧ truthy e.createdAt = true ∧ truthy e.updatedAt = true

/-- No task and no event of the snapshot has a field the sanitizer takes for missing. -/
@[reducible] def Filled (s : State) : Prop :=
  (∀ t ∈ s.tasks, FilledTask t) ∧ (∀ e ∈ s.events, FilledEvent e)

/-- The stability of the field `ui` under the two clamps and the filter check. -/
def StableUi (u : Ui) : Prop :=
  clamp u.page (.fin 0) (.fin 1) = u.page ∧ u.taskFilter ∈ ["all", "active", "completed"] ∧
  clamp u.calendar.month (.fin 0) (.fin 11) = u.calendar.month

/-! ## The category list as the specification words it -/

/-- Removing duplicates while keeping the first occurrence of each name, in the original
order. -/
def dedupKeepFirst : List String → List String
  | [] => []
  | x :: r => x :: (dedupKeepFirst r).filter (fun y => y ≠ x)

/-- The empty result is replaced by the built-in default set. -/
def orDefaultCategories (l : List String) : List String :=
  if l = [] then defaultCategories else l

/-- The category list in the words of the specification: coerce each entry to a string,
trim it, drop the empty results, remove duplicates keeping first occurrences, and
substitute the default set when nothing is left. -/
def specCategories (env : Env) (xs : List JVal) : Option (List String) :=
  (mapThrow (toStr env) xs).map
    (fun ss => orDefaultCategories (dedupKeepFirst ((ss.map jsTrim).filter (fun s => s ≠ ""))))

/-! ## Raw task entries -/

/-- The title the sanitizer computes for a raw entry: `String(t.title || '').trim()`. -/
def rawTitle (env : Env) (x : JVal) : Option String :=
  (toStr env (jsOr (x.get "title") (.str ""))).map jsTrim

/-- The raw entries that pass both filters of `cleanTasks`: truthy, and a title that is
not empty once cleaned. -/
def survives (env : Env) (x : JVal) : Bool :=
  truthy x && decide (rawTitle env x ≠ some "")

/-- A value that is neither an array nor an object. -/
def isPrimitive : JVal → Bool
  | .arr _ => false
  | .obj _ => false
  | _ => true

/-- The fields of a raw task that `cleanTasks` converts with `String(...)` hold no array
and no object. -/
def PlainTaskFields (x : JVal) : Prop :=
  ∀ k ∈ ["id", "title", "category", "dueDate", "notes"], isPrimitive (x.get k) = true

/-- The stored task `t` is the sanitized form of the raw entry `x`. -/
def CleansTo (env : Env) (cats : List String) (x : JVal) (t : Task) : Prop :=
  ∃ k k1 : Nat, cleanTask env cats x k = some (t, k1)

/-! ## A sample environment -/

/-- An environment for closed examples: ids `id_0`, `id_1`, ..., a fixed clock and day. -/
def sampleEnv : Env where
  fmtNum := fun _ => "0"
  parseNum := fun _ => .nan
  uid := fun k => "id_" ++ toString k
  now := fun _ => 1700000000000
  todayISO := fun _ => "2024-06-01"
  defaultYear := 2024
  defaultMonth := 5
  defaultSelectedDate := "2024-06-01"

/-- The field `ui` of the closed examples. -/
def sampleUi : Ui :=
  { page := .fin 0, taskFilter := "all",
    calendar := { year := .fin 2024, month := .fin 5, selectedDate := "2024-06-01",
                  drawerOpen := true } }

/-- A task of the closed examples. -/
def sampleTask (id category : String) : Task :=
  { id := id, title := "Buy milk", category := some category, priority := "low",
    dueDate := "2024-06-01", notes := "", completed := false,
    createdAt := .num (.fin 1700000000000), updatedAt := .num (.fin 1700000000000) }

/-- An event of the closed examples. -/
def sampleEvent : Event :=
  { id := "e1", title := "Standup", date := "2024-06-03", startTime := "09:00",
    endTime := "09:15", location := "", notes := "", color := "green",
    createdAt := .num (.fin 1700000000000), updatedAt := .num (.fin 1700000000000) }

/-- A snapshot of the closed examples: one category, one task with the given id, one
event. -/
def sampleState (id : String) : State :=
  { categories := ["Errands"], tasks := [sampleTask id "Errands"], events := [sampleEvent],
    ui := sampleUi }

/-- A store with the given categories and tasks and nothing else. -/
def stateOf (cats : List String) (tasks : List Task) : State :=
  { categories := cats, tasks := tasks, events := [], ui := sampleUi }

/-- The category list the code computes, in words: coerce each entry to a string, a
falsy entry counting as the empty string; trim; drop the empty results; remove duplicates
keeping first occurrences; substitute the default set when nothing is left. -/
def categoriesOfRaw (env : Env) (xs : List JVal) : Option (List String) :=
  (mapThrow (fun x => toStr env (jsOr x (.str ""))) xs).map
    (fun ss => orDefaultCategories (dedupKeepFirst ((ss.map jsTrim).filter (fun s => s ≠ ""))))

/-- A raw task list with two blank titles and a `null` entry. -/
def rawTasksExample : List JVal :=
  [.obj [("id", .str "a"), ("title", .str "")],
   .obj [("id", .str "b"), ("title", .str " Pay rent ")],
   .null,
   .obj [("id", .str "c"), ("title", .str "  ")],
   .obj [("id", .str "d"), ("title", .str "Call Ana")]]

/-- A storage that holds the given raw task list and nothing else. -/
def storageWithTasks (xs : List JVal) : Storage :=
  { categories := .absent, tasks := .json (.arr xs), events := .absent, ui := .absent }

/-- What `load` returns on `storageWithTasks rawTasksExample` in the sample environment. -/
def sanitizedExample : State :=
  { categories := ["Personal", "Work", "Health"],
    tasks :=
      [{ id := "b", title := "Pay rent", category := some "Personal", priority := "medium",
         dueDate := "", notes := "", completed := false,
         createdAt := .num (.fin 1700000000000), updatedAt := .num (.fin 1700000000000) },
       { id := "d", title := "Call Ana", category := some "Personal", priority := "medium",
         dueDate := "", notes := "", completed := false,
         createdAt := .num (.fin 1700000000000), updatedAt := .num (.fin 1700000000000) }],
    events := [],
    ui := sampleUi }

/-! ## Category operations -/

/-- `list.indexOf(x)`: the first position holding `x`; `none` stands for `-1`. -/
def indexOf (x : String) : List String → Option Nat
  | [] => none
  | y :: r => if y = x then some 0 else (indexOf x r).map (fun i => i + 1)

/-- The function `addCategory`, called with the text of the input box. -/
def addCategory (s : State) (name : String) : State × Option String :=
  let n := jsTrim name
  if n = "" then (s, some "Enter a category name")
  else if n ∈ s.categories then (s, some "That category already exists")
  else ({ s with categories := s.categories ++ [n] }, some "Category added")

/-- The function `renameCategory(from, to)`; the two parameters are `frm` and `tgt`
here. -/
def renameCategory (s : State) (frm tgt : String) : State × Option String :=
  if frm = tgt then (s, some "No changes")
  else
    match indexOf frm s.categories with
    | none => (s, none)
    | some i =>
      ({ s with
          categories := s.categories.set i tgt
          tasks := s.tasks.map
            (fun t => if t.category = some frm then { t with category := some tgt } else t) },
       some "Category renamed")

/-- The function `removeCategory`. `remaining[0]` is `undefined` when nothing remains. -/
def removeCategory (s : State) (name : String) : State × Option String :=
  match indexOf name s.categories with
  | none => (s, none)
  | some _ =>
    let remaining := s.categories.filter (fun c => c ≠ name)
    let fallback := remaining.head?
    ({ s with
        categories := remaining
        tasks := s.tasks.map
          (fun t => if t.category = some name then { t with category := fallback } else t) },
     some "Category deleted")

/-- The click handler of the save button in the row of category `c`, the only caller of
`renameCategory`; `value` is the text of the input of the row. -/
def saveCategoryClick (s : State) (c value : String) : State × Option String :=
  let next := jsTrim value
  if next = "" then (s, some "Category name cannot be empty")
  else if next ∈ s.categories ∧ next ≠ c then (s, some "That category already exists")
  else renameCategory s c next

/-- The click handler of the delete button in the row of category `c`, the only caller
of `removeCategory`. -/
def deleteCategoryClick (s : State) (c : String) : State × Option String :=
  if s.categories.length ≤ 1 then (s, some "Keep at least one category")
  else removeCategory s c

/-! ## The `Date` object

The day arithmetic of ECMAScript on integer arguments. A time value at local midnight is
represented by its day number, the count of days since 1970-01-01; the local time zone is
taken to be UTC. `none` is the invalid date, whose getters return `NaN`. -/

/-- `DayFromYear(y)`: the day number of the first day of year `y`. -/
def dayFromYear (y : Int) : Int :=
  365 * (y - 1970) + (y - 1969) / 4 - (y - 1901) / 100 + (y - 1601) / 400

/-- `DaysInYear(y)`. -/
def daysInYear (y : Int) : Int :=
  if y % 4 ≠ 0 then 365
  else if y % 100 ≠ 0 then 366
  else if y % 400 ≠ 0 then 365
  else 366

/-- `YearFromTime`: the largest `y` with `DayFromYear(y) ≤ d`, computed from the mean
year length and corrected by at most one year (`yearFromDay_spec`). -/
def yearFromDay (d : Int) : Int :=
  let y := 1970 + d * 400 / 146097
  if d < dayFromYear y then y - 1
  else if dayFromYear (y + 1) ≤ d then y + 1
  else y

/-- `DayWithinYear`. -/
def dayWithinYear (d : Int) : Int := d - dayFromYear (yearFromDay d)

/-- `InLeapYear`: 1 in a leap year, 0 otherwise. -/
def inLeapYear (d : Int) : Int := if daysInYear (yearFromDay d) = 366 then 1 else 0

/-- `MonthFromTime`. -/
def monthFromDay (d : Int) : Int :=
  let w := dayWithinYear d
  let l := inLeapYear d
  if w < 31 then 0
  else if w < 59 + l then 1
  else if w < 90 + l then 2
  else if w < 120 + l then 3
  else if w < 151 + l then 4
  else if w < 181 + l then 5
  else if w < 212 + l then 6
  else if w < 243 + l then 7
  else if w < 273 + l then 8
  else if w < 304 + l then 9
  else if w < 334 + l then 10
  else 11

/-- `DateFromTime`: the day of the month. -/
def dateFromDay (d : Int) : Int :=
  let w := dayWithinYear d
  let l := inLeapYear d
  match monthFromDay d with
  | 0 => w + 1
  | 1 => w - 30
  | 2 => w - 58 - l
  | 3 => w - 89 - l
  | 4 => w - 119 - l
  | 5 => w - 150 - l
  | 6 => w - 180 - l
  | 7 => w - 211 - l
  | 8 => w - 242 - l
  | 9 => w - 272 - l
  | 10 => w - 303 - l
  | _ => w - 333 - l

/-- `WeekDay`: 0 is Sunday. -/
def weekDay (d : Int) : Int := (d + 4) % 7

/-- The day within the year on which month `mn` (0 to 11) starts; `l` is 1 in a leap
year. -/
def monthStart (l : Int) (mn : Int) : Int :=
  match mn with
  | 0 => 0
  | 1 => 31
  | 2 => 59 + l
  | 3 => 90 + l
  | 4 => 120 + l
  | 5 => 151 + l
  | 6 => 181 + l
  | 7 => 212 + l
  | 8 => 243 + l
  | 9 => 273 + l
  | 10 => 304 + l
  | _ => 334 + l

/-- `MakeDay(year, month, date)`: the day number of the first of month `month mod 12` in
year `year + floor(month / 12)`, plus `date - 1` (`makeDay_finds_first` shows that the
day found has that year, that month and date 1). -/
def makeDay (year month date : Int) : Int :=
  let ym := year + month / 12
  let mn := month % 12
  dayFromYear ym + monthStart (if daysInYear ym = 366 then 1 else 0) mn + date - 1

/-- `MakeFullYear`: a year from 0 to 99 stands for 1900 to 1999. -/
def makeFullYear (y : Int) : Int := if 0 ≤ y ∧ y ≤ 99 then 1900 + y else y

/-- `TimeClip` on day numbers: a time value beyond 8.64e15 ms, which is 100,000,000
days, is `NaN`. -/
def timeClip (day : Int) : Option Int :=
  if -100000000 ≤ day ∧ day ≤ 100000000 then some day else none

/-- `new Date(y, m, d)`. -/
def newDate (y m d : Int) : Option Int := timeClip (makeDay (makeFullYear y) m d)

/-- `date.getDay()`. -/
def getDay (date : Option Int) : Option Int := date.map weekDay

/-- `date.getDate()`. -/
def getDate (date : Option Int) : Option Int := date.map dateFromDay

/-! ## The calendar grid of `renderCalendar`

Numbers here are integers or `NaN` (`none`). -/

/-- `a < b` on numbers: false when an operand is `NaN`. -/
def numLt (a b : Option Int) : Bool :=
  match a, b with
  | some x, some y => decide (x < y)
  | _, _ => false

/-- `a + b` on numbers. -/
def numAdd (a b : Option Int) : Option Int :=
  match a, b with
  | some x, some y => some (x + y)
  | _, _ => none

/-- `a - b` on numbers. -/
def numSub (a b : Option Int) : Option Int :=
  match a, b with
  | some x, some y => some (x - y)
  | _, _ => none

/-- `String(n)` for an integer of fewer than 22 digits, or `NaN`. -/
def numText (n : Option Int) : String :=
  match n with
  | none => "NaN"
  | some x => toString x

/-- `s.padStart(2, '0')`. -/
def padStart2 (s : String) : String :=
  if s.length < 2 then String.mk (List.replicate (2 - s.length) '0') ++ s else s

/-- `pad2 = (n) => String(n).padStart(2, '0')`. -/
def pad2 (n : Option Int) : String := padStart2 (numText n)

/-- `isoFromParts(y, mIndex, d)`. -/
def isoFromParts (y mIndex : Int) (d : Option Int) : String :=
  numText (some y) ++ "-" ++ pad2 (some (mIndex + 1)) ++ "-" ++ pad2 d

/-- `daysInMonth = (y, mIndex) => new Date(y, mIndex+1, 0).getDate()`. -/
def daysInMonth (y mIndex : Int) : Option Int := getDate (newDate y (mIndex + 1) 0)

/-- The constant `startWeekday` of `renderCalendar`: `(first.getDay() + 6) % 7`. -/
def startWeekday (year month : Int) : Option Int :=
  (getDay (newDate year month 1)).map (fun w => (w + 6) % 7)

/-- The constant `prevMonth`. -/
def prevMonth (month : Int) : Int := if month = 0 then 11 else month - 1

/-- The constant `prevYear`. -/
def prevYear (year month : Int) : Int := if month = 0 then year - 1 else year

/-- What the loop body computes for one cell. -/
structure Cell where
  dayNum : Option Int
  cellYear : Int
  cellMonth : Int
  isOther : Bool
  iso : String
  deriving DecidableEq

/-- The constant `weekdayBase` of `renderCalendar`, `new Date(2024, 0, 1)`, commented in
the source as a Monday. -/
def weekdayBase : Option Int := newDate 2024 0 1

/-- The body of the cell loop of `renderCalendar` for index `i`. -/
def gridCell (year month : Int) (i : Nat) : Cell :=
  let dim := daysInMonth year month
  let dimPrev := daysInMonth (prevYear year month) (prevMonth month)
  let dayNum := numAdd (numSub (some (i : Int)) (startWeekday year month)) (some 1)
  if numLt dayNum (some 1) then
    { dayNum := numAdd dimPrev dayNum, cellYear := prevYear year month,
      cellMonth := prevMonth month, isOther := true,
      iso := isoFromParts (prevYear year month) (prevMonth month) (numAdd dimPrev dayNum) }
  else if numLt dim dayNum then
    { dayNum := numSub dayNum dim, cellYear := if month = 11 then year + 1 else year,
      cellMonth := if month = 11 then 0 else month + 1, isOther := true,
      iso := isoFromParts (if month = 11 then year + 1 else year)
        (if month = 11 then 0 else month + 1) (numSub dayNum dim) }
  else
    { dayNum := dayNum, cellYear := year, cellMonth := month, isOther := false,
      iso := isoFromParts year month dayNum }

/-- The constant `totalCells`. -/
def totalCells : Nat := 42

/-- The day cells the loop `for (let i = 0; i < totalCells; i++)` appends, in order. -/
def calendarCells (year month : Int) : List Cell :=
  (List.range totalCells).map (gridCell year month)

/-! ## The civil calendar

The proleptic Gregorian calendar, months numbered from 0, stated without reference to
day numbers. -/

/-- The leap-year rule. -/
def isLeapYear (y : Int) : Bool := decide (y % 4 = 0 ∧ (y % 100 ≠ 0 ∨ y % 400 = 0))

/-- The number of days of month `m` (0 to 11) of year `y`. -/
def monthLength (y m : Int) : Int :=
  if m = 1 then (if isLeapYear y then 29 else 28)
  else if m = 3 ∨ m = 5 ∨ m = 8 ∨ m = 10 then 30
  else 31

/-- A calendar date. -/
structure CivilDate where
  year : Int
  month : Int
  day : Int
  deriving DecidableEq

/-- The day after. -/
def nextDay (d : CivilDate) : CivilDate :=
  if d.day < monthLength d.year d.month then { d with day := d.day + 1 }
  else if d.month < 11 then { d with month := d.month + 1, day := 1 }
  else { year := d.year + 1, month := 0, day := 1 }

/-- The day before. -/
def prevDay (d : CivilDate) : CivilDate :=
  if 1 < d.day then { d with day := d.day - 1 }
  else if 0 < d.month then
    { d with month := d.month - 1, day := monthLength d.year (d.month - 1) }
  else { year := d.year - 1, month := 11, day := 31 }

/-- The date `k` days after `d` (before, when `k` is negative). -/
def addDays (d : CivilDate) (k : Int) : CivilDate :=
  if 0 ≤ k then nextDay^[k.toNat] d else prevDay^[(-k).toNat] d

/-! ## Library routines of the query code

`Array.prototype.sort` and `String.prototype.localeCompare` are routines of the platform:
the sorting algorithm is implementation-defined, and so is the collation. They are
parameters, bundled in `Builtins`; what ECMAScript requires of them is stated in
`SortConforms` and in the collation predicates, and `insertionBuiltins` is a conforming
instance. -/

/-- `a - b` on numbers. The subtraction of doubles rounds; the sign of the difference,
which is all a sort comparator reports, is that of the exact difference. -/
def jsSub : JNum → JNum → JNum
  | .nan, _ => .nan
  | _, .nan => .nan
  | .posInf, .posInf => .nan
  | .negInf, .negInf => .nan
  | .posInf, _ => .posInf
  | .negInf, _ => .negInf
  | _, .posInf => .negInf
  | _, .negInf => .posInf
  | .fin p, .fin q => .fin (p - q)

/-- The sign of a number: -1, 0 or 1; `none` for `NaN`. -/
def signOf : JNum → Option Int
  | .nan => none
  | .negInf => some (-1)
  | .posInf => some 1
  | .fin q => some (if q < 0 then -1 else if q = 0 then 0 else 1)

/-- The outcome of one comparator call: `none` when the call throws or returns `NaN`. -/
def outcome {α : Type} (c : α → α → Option JNum) (a b : α) : Option Int :=
  (c a b).bind signOf

/-- The comparator puts `a` before `b` or ties them. -/
def notAfter {α : Type} (c : α → α → Option JNum) (a b : α) : Bool :=
  decide (outcome c a b = some (-1)) || decide (outcome c a b = some 0)

/-- A consistent comparator on the elements of `l`, in the sense of ECMAScript: every
call returns a number that is not `NaN`, `a < b` exactly when `b > a`, and the relation
"before or tied" is transitive. These conditions give the ones of the standard
(reflexivity and symmetry of ties, transitivity of ties, of `<` and of `>`). -/
def Consistent {α : Type} (c : α → α → Option JNum) (l : List α) : Prop :=
  (∀ a ∈ l, ∀ b ∈ l, (outcome c a b).isSome = true) ∧
  (∀ a ∈ l, ∀ b ∈ l, outcome c a b = some (-1) ↔ outcome c b a = some 1) ∧
  (∀ a ∈ l, ∀ b ∈ l, ∀ d ∈ l, notAfter c a b = true → notAfter c b d = true →
    notAfter c a d = true)

/-- The library routines. `sort cmp l` is `[...l].sort(cmp)`: `none` when it throws. -/
structure Builtins where
  /-- `a.localeCompare(b)`: a negative number, zero or a positive number. -/
  localeCompare : String → String → Int
  /-- `l.sort(cmp)` on a fresh copy of `l`. -/
  sort : {α : Type} → (α → α → Option JNum) → List α → Option (List α)

/-- What ECMAScript requires of `Array.prototype.sort`. The result is a rearrangement of
the elements; the call returns when no comparator call throws; and for a consistent
comparator the result is ordered and elements that tie keep their relative order. -/
def SortConforms (b : Builtins) : Prop :=
  (∀ (α : Type) (c : α → α → Option JNum) (l r : List α), b.sort c l = some r → r.Perm l) ∧
  (∀ (α : Type) (c : α → α → Option JNum) (l : List α),
    (∀ x ∈ l, ∀ y ∈ l, (c x y).isSome = true) → (b.sort c l).isSome = true) ∧
  (∀ (α : Type) (c : α → α → Option JNum) (l r : List α), Consistent c l →
    b.sort c l = some r →
    r.Pairwise (fun x y => notAfter c x y = true) ∧
    ∀ x y, [x, y].Sublist l → outcome c x y = some 0 → [x, y].Sublist r)

/-- Insertion of `a` into a sorted list, before the first element it is not after; a
`NaN` from the comparator counts as a tie. -/
def insertThrow {α : Type} (c : α → α → Option JNum) (a : α) : List α → Option (List α)
  | [] => some [a]
  | b :: l =>
    match c a b with
    | none => none
    | some v =>
      if signOf v = some 1 then (insertThrow c a l).map (fun r => b :: r)
      else some (a :: b :: l)

/-- Insertion sort, a stable sorting algorithm. -/
def sortInsertion {α : Type} (c : α → α → Option JNum) : List α → Option (List α)
  | [] => some []
  | a :: l => (sortInsertion c l).bind (insertThrow c a)

/-- The UTF-16 code units of a string. -/
def utf16Units (s : String) : List Nat :=
  s.data.flatMap (fun ch =>
    if ch.toNat < 65536 then [ch.toNat]
    else [55296 + (ch.toNat - 65536) / 1024, 56320 + (ch.toNat - 65536) % 1024])

/-- Lexicographic comparison of two lists of code units: -1, 0 or 1. -/
def lexCompare : List Nat → List Nat → Int
  | [], [] => 0
  | [], _ :: _ => -1
  | _ :: _, [] => 1
  | x :: r, y :: t => if x < y then -1 else if y < x then 1 else lexCompare r t

/-- `a < b` on strings: the order of the code units. -/
def jsStrLt (a b : String) : Bool := decide (lexCompare (utf16Units a) (utf16Units b) = -1)

/-- A conforming instance of the library routines: insertion sort, and collation by
code units. -/
def insertionBuiltins : Builtins where
  localeCompare := fun a b => lexCompare (utf16Units a) (utf16Units b)
  sort := fun c l => sortInsertion c l

/-! ## Tasks: `visibleTasks` -/

/-- The value of a property read `prioRank[p]`. A name that is not a key of `prioRank`
reads `undefined`, unless `Object.prototype` defines it. -/
inductive Rank
  | num (n : Int)
  | inherited (name : String)
  | missing
  deriving DecidableEq

/-- The property names of `Object.prototype`. -/
def objectPrototypeKeys : List String :=
  ["constructor", "__defineGetter__", "__defineSetter__", "hasOwnProperty",
   "__lookupGetter__", "__lookupSetter__", "isPrototypeOf", "propertyIsEnumerable",
   "toString", "valueOf", "__proto__", "toLocaleString"]

/-- `prioRank[p]` for `prioRank = { high: 3, medium: 2, low: 1 }`. -/
def prioRank (p : String) : Rank :=
  if p = "high" then .num 3
  else if p = "medium" then .num 2
  else if p = "low" then .num 1
  else if p ∈ objectPrototypeKeys then .inherited p
  else .missing

/-- `x - y` on two values read from `prioRank`: a function, an object or `undefined`
converts to `NaN`. -/
def rankSub (x y : Rank) : JNum :=
  match x, y with
  | .num m, .num n => .fin ((m - n : Int) : ℚ)
  | _, _ => .nan

/-- `t.dueDate || '9999-12-31'`. -/
def dueOrLast (t : Task) : String := if t.dueDate = "" then "9999-12-31" else t.dueDate

/-- The comparator of `visibleTasks`. -/
def taskCompare (env : Env) (b : Builtins) (x y : Task) : Option JNum :=
  if x.completed ≠ y.completed then some (.fin (if x.completed then 1 else -1))
  else if dueOrLast x ≠ dueOrLast y then
    some (.fin ((b.localeCompare (dueOrLast x) (dueOrLast y) : Int) : ℚ))
  else if prioRank x.priority ≠ prioRank y.priority then
    some (rankSub (prioRank y.priority) (prioRank x.priority))
  else
    match toNumber env (jsOr y.updatedAt (.num (.fin 0))),
          toNumber env (jsOr x.updatedAt (.num (.fin 0))) with
    | some ny, some nx => some (jsSub ny nx)
    | _, _ => none

/-- The tasks `visibleTasks` sorts: all of them, or those the filter keeps. -/
def filteredTasks (s : State) : List Task :=
  let arr := s.tasks
  let arr := if s.ui.taskFilter = "active" then arr.filter (fun t => !t.completed) else arr
  if s.ui.taskFilter = "completed" then arr.filter (fun t => t.completed) else arr

/-- The function `visibleTasks`. -/
def visibleTasks (env : Env) (b : Builtins) (s : State) : Option (List Task) :=
  b.sort (taskCompare env b) (filteredTasks s)

/-- The state with another filter. -/
def withFilter (s : State) (f : String) : State :=
  { s with ui := { s.ui with taskFilter := f } }

/-! ## The order `visibleTasks` sorts by -/

/-- The value of a decimal digit character. -/
def digitOf (c : Char) : Option Nat :=
  if 48 ≤ c.toNat ∧ c.toNat ≤ 57 then some (c.toNat - 48) else none

/-- The number written by a list of digit characters. -/
def digitsValue : List Char → Option Nat
  | [] => some 0
  | c :: r =>
    match digitOf c, digitsValue r with
    | some d, some v => some (d * 10 ^ r.length + v)
    | _, _ => none

/-- The number `yyyymmdd` of an ISO date `yyyy-mm-dd`; `none` for any other string.
Dates compare chronologically as these numbers compare. -/
def isoNumber (s : String) : Option Nat :=
  match s.data with
  | [y1, y2, y3, y4, '-', m1, m2, '-', d1, d2] => digitsValue [y1, y2, y3, y4, m1, m2, d1, d2]
  | _ => none

/-- The due date a task is sorted by, as a number `yyyymmdd`: its own, or 9999-12-31 when
it has none. -/
def dueNumber (t : Task) : Nat := (isoNumber (dueOrLast t)).getD 0

/-- The priority rank: high 3, medium 2, low 1. -/
def rankNum (t : Task) : Int :=
  match prioRank t.priority with
  | .num n => n
  | _ => 0

/-- The value of `updatedAt` when it is a finite number. -/
def updNum (t : Task) : ℚ :=
  match t.updatedAt with
  | .num (.fin q) => q
  | _ => 0

/-- A finite number. -/
def isFiniteNum : JVal → Bool
  | .num (.fin _) => true
  | _ => false

/-- A sanitized task as far as sorting goes: a priority of the enum, a finite number as
`updatedAt`, and a due date that is an ISO date or empty. -/
@[reducible] def SortableTask (t : Task) : Prop :=
  t.priority ∈ ["low", "medium", "high"] ∧ isFiniteNum t.updatedAt = true ∧
  (isoNumber (dueOrLast t)).isSome = true

/-- On the due dates of the tasks of `l`, `localeCompare` orders chronologically. -/
@[reducible] def OrdersDueDates (lc : String → String → Int) (l : List Task) : Prop :=
  ∀ x ∈ l, ∀ y ∈ l,
    (lc (dueOrLast x) (dueOrLast y) < 0 ↔ dueNumber x < dueNumber y) ∧
    (0 < lc (dueOrLast x) (dueOrLast y) ↔ dueNumber y < dueNumber x)

/-- The order of `visibleTasks` between a task `x` and a later task `y` of the result:
incomplete before completed; then the earlier due date, a task without one counting as
due on 9999-12-31; then the higher rank; then the larger `updatedAt`. -/
def InVisibleOrder (x y : Task) : Prop :=
  (x.completed = false ∨ y.completed = true) ∧
  (x.completed = y.completed →
    dueNumber x ≤ dueNumber y ∧
    (dueNumber x = dueNumber y →
      rankNum y ≤ rankNum x ∧ (rankNum x = rankNum y → updNum y ≤ updNum x)))

/-- The order of the claim between `x` and a later `y`: as `InVisibleOrder`, but a task
without a due date is later than every dated task. -/
def InClaimedOrder (x y : Task) : Prop :=
  (x.completed = false ∨ y.completed = true) ∧
  (x.completed = y.completed →
    ¬ (x.dueDate = "" ∧ y.dueDate ≠ "") ∧
    (x.dueDate ≠ "" → y.dueDate ≠ "" → dueNumber x ≤ dueNumber y) ∧
    ((x.dueDate = "" ∧ y.dueDate = "") ∨ (x.dueDate ≠ "" ∧ y.dueDate ≠ "" ∧
        dueNumber x = dueNumber y) →
      rankNum y ≤ rankNum x ∧ (rankNum x = rankNum y → updNum y ≤ updNum x)))

/-- The sort key of a task: its four criteria in lexicographic order. -/
def sortKey (t : Task) : Lex (Bool × Lex (Nat × Lex (Int × ℚ))) :=
  toLex (t.completed, toLex (dueNumber t, toLex (-rankNum t, -updNum t)))

/-- The sign of the comparison of two keys. -/
def keySign {κ : Type} [LinearOrder κ] (a b : κ) : Int :=
  if a < b then -1 else if a = b then 0 else 1

/-! ## Closed examples for the task list -/

/-- A task with no due date and priority high. -/
def undatedTask : Task :=
  { id := "a", title := "Plan trip", category := some "Errands", priority := "high",
    dueDate := "", notes := "", completed := false,
    createdAt := .num (.fin 1700000000000), updatedAt := .num (.fin 1700000000000) }

/-- A task due on 9999-12-31 with priority low. -/
def lastDayTask : Task :=
  { id := "b", title := "Open capsule", category := some "Errands", priority := "low",
    dueDate := "9999-12-31", notes := "", completed := false,
    createdAt := .num (.fin 1700000000000), updatedAt := .num (.fin 1700000000000) }

/-- A completed task that otherwise has the fields of `sampleTask`. -/
def doneTask (id : String) : Task :=
  { sampleTask id "Errands" with completed := true }

/-- A task due later than `sampleTask`. -/
def laterTask : Task :=
  { sampleTask "c" "Errands" with dueDate := "2024-06-02", priority := "high" }

/-! ## `renderDrawer`: the content of the day drawer -/

/-- `state.ui.calendar.selectedDate || todayISO()`. -/
def drawerIso (env : Env) (s : State) : String :=
  if s.ui.calendar.selectedDate = "" then env.todayISO 0 else s.ui.calendar.selectedDate

/-- `e.startTime || '99:99'`. -/
def startOrLast (e : Event) : String := if e.startTime = "" then "99:99" else e.startTime

/-- The comparator of the events of the drawer. -/
def eventCompare (b : Builtins) (x y : Event) : Option JNum :=
  some (.fin ((b.localeCompare (startOrLast x) (startOrLast y) : Int) : ℚ))

/-- The comparator of the due tasks of the drawer. -/
def dueCompare (x y : Task) : Option JNum :=
  if x.completed ≠ y.completed then some (.fin (if x.completed then 1 else -1))
  else some (rankSub (prioRank y.priority) (prioRank x.priority))

/-- The list `evs` of `renderDrawer`. -/
def drawerEvents (env : Env) (b : Builtins) (s : State) : Option (List Event) :=
  b.sort (eventCompare b) (s.events.filter (fun e => e.date = drawerIso env s))

/-- The list `dueTasks` of `renderDrawer`. -/
def drawerTasks (env : Env) (b : Builtins) (s : State) : Option (List Task) :=
  b.sort dueCompare (s.tasks.filter (fun t => t.dueDate = drawerIso env s))

/-- The number `hhmm` of a time `hh:mm`; `none` for any other string. -/
def timeNumber (s : String) : Option Nat :=
  match s.data with
  | [h1, h2, ':', m1, m2] => digitsValue [h1, h2, m1, m2]
  | _ => none

/-- A valid `HH:MM` time: hours up to 23 and minutes up to 59. -/
def validTime (s : String) : Bool :=
  match timeNumber s with
  | some n => decide (n / 100 ≤ 23 ∧ n % 100 ≤ 59)
  | none => false

/-- The start time an event is sorted by, as a number `hhmm`: its own, or 99:99 when it
has none. -/
def startNumber (e : Event) : Nat := (timeNumber (startOrLast e)).getD 0

/-- On the start times of the events of `l`, `localeCompare` orders by time of day. -/
@[reducible] def OrdersStartTimes (lc : String → String → Int) (l : List Event) : Prop :=
  ∀ x ∈ l, ∀ y ∈ l,
    (lc (startOrLast x) (startOrLast y) < 0 ↔ startNumber x < startNumber y) ∧
    (0 < lc (startOrLast x) (startOrLast y) ↔ startNumber y < startNumber x)

/-- The sort key of a due task of the drawer: completion, then descending rank. -/
def dueKey (t : Task) : Lex (Bool × Int) := toLex (t.completed, -rankNum t)

/-- An event of the closed examples with the given id and start time, on 2024-06-03. -/
def timedEvent (id start : String) : Event :=
  { sampleEvent with id := id, startTime := start, endTime := "" }

/-- A store with the given tasks and events, the selected date being 2024-06-03. -/
def drawerState (tasks : List Task) (events : List Event) : State :=
  { categories := ["Errands"], tasks := tasks, events := events,
    ui := { sampleUi with
      calendar := { sampleUi.calendar with selectedDate := "2024-06-03" } } }

/-- A task of the closed examples due on 2024-06-03. -/
def dueTask (id priority : String) (completed : Bool) : Task :=
  { sampleTask id "Errands" with
    dueDate := "2024-06-03", priority := priority, completed := completed }

/-! ## `persist`: the four slots written from the state -/

mutual
/-- What `JSON.parse(JSON.stringify(v))` gives; `none` when `JSON.stringify` returns
`undefined`. `NaN` and the infinities are written as `null`, an `undefined` element of an
array as `null`, and a property holding `undefined` is left out. -/
def jsonValue : JVal → Option JVal
  | .undefined => none
  | .null => some .null
  | .bool b => some (.bool b)
  | .num (.fin q) => some (.num (.fin q))
  | .num _ => some .null
  | .str s => some (.str s)
  | .arr xs => some (.arr (jsonArr xs))
  | .obj kvs => some (.obj (jsonObj kvs))
termination_by structural v => v
/-- The elements of an array after the round trip. -/
def jsonArr : List JVal → List JVal
  | [] => []
  | x :: r => (jsonValue x).getD .null :: jsonArr r
termination_by structural xs => xs
/-- The properties of an object after the round trip. -/
def jsonObj : List (String × JVal) → List (String × JVal)
  | [] => []
  | p :: r => (jsonProp p).toList ++ jsonObj r
termination_by structural kvs => kvs
/-- One property after the round trip. -/
def jsonProp : String × JVal → Option (String × JVal)
  | (k, v) => (jsonValue v).map (fun u => (k, u))
termination_by structural p => p
end

/-- What a slot holds after `localStorage.setItem(key, safeJSON.stringify(v))`: when
`JSON.stringify` returns `undefined` the text stored is `undefined`, which does not
parse. Writes to the storage are taken to succeed. -/
def slotOf (v : JVal) : Slot :=
  match jsonValue v with
  | some u => .json u
  | none => .corrupt

/-- The function `persist`. -/
def persist (s : State) : Storage :=
  { categories := slotOf (encCategories s.categories)
    tasks := slotOf (.arr (s.tasks.map encTask))
    events := slotOf (.arr (s.events.map encEvent))
    ui := slotOf (encUi s.ui) }

/-! ## Delete and undo

The handlers registered on `window` for `keydown` by `deleteTask` and `deleteEvent`, and
the timers that detach them. Rendering and the toast do not touch `state`. -/

/-- `list.findIndex(p)`; `none` stands for `-1`. -/
def findIndex {α : Type} (p : α → Bool) : List α → Option Nat
  | [] => none
  | a :: l => if p a then some 0 else (findIndex p l).map (fun i => i + 1)

/-- `list.splice(idx, 0, x)`: `x` is inserted at `idx`, at the end when `idx` exceeds the
length. -/
def spliceInsert {α : Type} (idx : Nat) (x : α) (l : List α) : List α :=
  l.take idx ++ x :: l.drop idx

/-- The entity a listener holds in `removed`. -/
inductive Removed
  | task (t : Task)
  | event (e : Event)

/-- The closure `onUndo` of one delete: its captured `idx`, `removed` and `undone`, and
the number that identifies it among the listeners. -/
structure UndoListener where
  handle : Nat
  idx : Nat
  removed : Removed
  undone : Bool

/-- The fields of a `keydown` event the handlers read. -/
structure KeyEvent where
  ctrlKey : Bool
  metaKey : Bool
  key : String

/-- The program between two callbacks: the state, the storage, the `onUndo` listeners
attached to `window` in the order of their registration, and the number of the next
listener. -/
structure World where
  state : State
  storage : Storage
  listeners : List UndoListener
  next : Nat

/-- The test `(e.ctrlKey || e.metaKey) && e.key.toLowerCase() === 'z'`: the strings whose
lower case is `z` are `z` and `Z`. -/
def isUndoKey (e : KeyEvent) : Bool :=
  (e.ctrlKey || e.metaKey) && (decide (e.key = "z") || decide (e.key = "Z"))

/-- The function `deleteTask`. `find` and `findIndex` scan with the same test, so the task
found is the one at `idx`, which `splice(idx, 1)` removes and returns. -/
def deleteTask (id : String) (w : World) : World :=
  match findIndex (fun x => decide (x.id = id)) w.state.tasks with
  | none => w
  | some idx =>
    match w.state.tasks[idx]? with
    | none => w
    | some removed =>
      let s := { w.state with tasks := w.state.tasks.eraseIdx idx }
      { state := s, storage := persist s,
        listeners := w.listeners ++
          [{ handle := w.next, idx := idx, removed := .task removed, undone := false }],
        next := w.next + 1 }

/-- The function `deleteEvent`. -/
def deleteEvent (id : String) (w : World) : World :=
  match findIndex (fun x => decide (x.id = id)) w.state.events with
  | none => w
  | some idx =>
    match w.state.events[idx]? with
    | none => w
    | some removed =>
      let s := { w.state with events := w.state.events.eraseIdx idx }
      { state := s, storage := persist s,
        listeners := w.listeners ++
          [{ handle := w.next, idx := idx, removed := .event removed, undone := false }],
        next := w.next + 1 }

/-- The insertion `state.tasks.splice(idx, 0, removed)` or
`state.events.splice(idx, 0, removed)`. -/
def restore (idx : Nat) (r : Removed) (s : State) : State :=
  match r with
  | .task t => { s with tasks := spliceInsert idx t s.tasks }
  | .event e => { s with events := spliceInsert idx e s.events }

/-- One call of the handler `onUndo` of listener `l`. When it restores it sets its
`undone` and detaches itself. -/
def onUndo (e : KeyEvent) (l : UndoListener) (w : World) : World :=
  if !isUndoKey e || l.undone then w
  else
    let s := restore l.idx l.removed w.state
    { state := s, storage := persist s,
      listeners := w.listeners.filter (fun m => decide (m.handle ≠ l.handle)),
      next := w.next }

/-- The dispatch of one `keydown` event on `window`: the listeners attached when the
dispatch starts run in the order of their registration; a handler detaches only itself,
so each of them is still attached when its turn comes. -/
def keydown (e : KeyEvent) (w : World) : World :=
  w.listeners.foldl (fun acc l => onUndo e l acc) w

/-- The timer of listener `h` fires after 5500 ms: `removeEventListener`. -/
def expire (h : Nat) (w : World) : World :=
  { w with listeners := w.listeners.filter (fun m => decide (m.handle ≠ h)) }

/-- The start of a session: the state, what `persist` wrote from it, no listener. -/
def worldOf (s : State) : World :=
  { state := s, storage := persist s, listeners := [], next := 0 }

/-- Control+Z. -/
def ctrlZ : KeyEvent := { ctrlKey := true, metaKey := false, key := "z" }

/-- A store with the three tasks `a`, `b`, `c` and the two events `e1`, `e2`. -/
def undoState : State :=
  { categories := ["Errands"],
    tasks := [sampleTask "a" "Errands", sampleTask "b" "Errands", sampleTask "c" "Errands"],
    events := [timedEvent "e1" "09:00", timedEvent "e2" "10:00"], ui := sampleUi }

/-! ## The task form and the event form

A submitted form is the list of the entries of its `FormData`; the forms of the program
have text fields only, so every entry is a string. The functions run on a `World`, of
which they leave the listeners alone. -/

/-- The entries of a `FormData`. -/
abbrev FormData := List (String × String)

/-- `String(formData.get(name) || dflt)`: the first entry of that name, the default when
there is none or when it is the empty string. -/
def formValue (fd : FormData) (name dflt : String) : String :=
  match fd.find? (fun p => decide (p.1 = name)) with
  | some p => if p.2 = "" then dflt else p.2
  | none => dflt

/-- The object a form function returns: `{ ok: false, reason }` or `{ ok: true, mode }`. -/
inductive FormResult
  | rejected (reason : String)
  | ok (mode : String)
  deriving DecidableEq

/-- `String(state.categories[0])`. -/
def firstCategoryText (s : State) : String :=
  match s.categories with
  | [] => "undefined"
  | c :: _ => c

/-- `state.categories.includes(category) ? category : state.categories[0]`. -/
def categoryOrFirst (s : State) (category : String) : Option String :=
  if category ∈ s.categories then some category else s.categories.head?

/-- `['low','medium','high'].includes(priority) ? priority : 'medium'`. -/
def priorityOrMedium (priority : String) : String :=
  if priority ∈ ["low", "medium", "high"] then priority else "medium"

/-- `['blue','pink','green','orange','purple'].includes(color) ? color : 'blue'`. -/
def colorOrBlue (color : String) : String :=
  if color ∈ ["blue", "pink", "green", "orange", "purple"] then color else "blue"

/-- What a form function leaves behind: the world, the object returned, and the text of
the toast it showed, if any. -/
structure FormRun where
  world : World
  result : FormResult
  toast : Option String

/-- The function `upsertTaskFromForm`; `k` counts the oracle calls made so far. -/
def upsertTaskFromForm (env : Env) (k : Nat) (fd : FormData) (w : World) : FormRun :=
  let id := jsTrim (formValue fd "id" "")
  let title := jsTrim (formValue fd "title" "")
  if title = "" then { world := w, result := .rejected "Title is required", toast := none }
  else
    let category := formValue fd "category" (firstCategoryText w.state)
    let priority := formValue fd "priority" "medium"
    let dueDate := formValue fd "dueDate" ""
    let notes := jsTrim (formValue fd "notes" "")
    let toast :=
      if category ∈ w.state.categories then none else some "Category not found; using default"
    if id ≠ "" then
      match findIndex (fun x => decide (x.id = id)) w.state.tasks with
      | none => { world := w, result := .rejected "Task not found", toast := toast }
      | some idx =>
        let s := { w.state with
          tasks := w.state.tasks.modify
            (fun t => { t with
              title := title, category := categoryOrFirst w.state category,
              priority := priorityOrMedium priority, dueDate := dueDate, notes := notes,
              updatedAt := .num (.fin (env.now k)) }) idx }
        { world := { w with state := s, storage := persist s },
          result := .ok "updated", toast := toast }
    else
      let task : Task :=
        { id := env.uid k, title := title, category := categoryOrFirst w.state category,
          priority := priorityOrMedium priority, dueDate := dueDate, notes := notes,
          completed := false, createdAt := .num (.fin (env.now (k + 1))),
          updatedAt := .num (.fin (env.now (k + 2))) }
      let s := { w.state with tasks := w.state.tasks ++ [task] }
      { world := { w with state := s, storage := persist s },
        result := .ok "created", toast := toast }

/-- The function `upsertEventFromForm`; strings compare by their UTF-16 code units. -/
def upsertEventFromForm (env : Env) (k : Nat) (fd : FormData) (w : World) : FormRun :=
  let id := jsTrim (formValue fd "id" "")
  let title := jsTrim (formValue fd "title" "")
  let date := jsTrim (formValue fd "date" "")
  if title = "" then { world := w, result := .rejected "Title is required", toast := none }
  else if date = "" then { world := w, result := .rejected "Date is required", toast := none }
  else
    let startTime := jsTrim (formValue fd "startTime" "")
    let endTime := jsTrim (formValue fd "endTime" "")
    if startTime ≠ "" ∧ endTime ≠ "" ∧ jsStrLt endTime startTime = true then
      { world := w, result := .rejected "End time must be after start time", toast := none }
    else
      let location := jsTrim (formValue fd "location" "")
      let notes := jsTrim (formValue fd "notes" "")
      let color := jsTrim (formValue fd "color" "blue")
      if id ≠ "" then
        match findIndex (fun x => decide (x.id = id)) w.state.events with
        | none => { world := w, result := .rejected "Event not found", toast := none }
        | some idx =>
          let s := { w.state with
            events := w.state.events.modify
              (fun e => { e with
                title := title, date := date, startTime := startTime, endTime := endTime,
                location := location, notes := notes, color := colorOrBlue color,
                updatedAt := .num (.fin (env.now k)) }) idx }
          { world := { w with state := s, storage := persist s },
            result := .ok "updated", toast := none }
      else
        let ev : Event :=
          { id := env.uid k, title := title, date := date, startTime := startTime,
            endTime := endTime, location := location, notes := notes,
            color := colorOrBlue color, createdAt := .num (.fin (env.now (k + 1))),
            updatedAt := .num (.fin (env.now (k + 2))) }
        let s := { w.state with events := w.state.events ++ [ev] }
        { world := { w with state := s, storage := persist s },
          result := .ok "created", toast := none }

/-! ## `importData` -/

/-- `typeof v === 'object'`, which holds for `null`, arrays and objects. -/
def isObjectType : JVal → Bool
  | .null => true
  | .arr _ => true
  | .obj _ => true
  | _ => false

/-- `Array.isArray(v)`. -/
def isArray : JVal → Bool
  | .arr _ => true
  | _ => false

/-- How a run of `importData` ends: with a toast, or with the exception of `load`. -/
inductive ImportEnd
  | toast (msg : String)
  | thrown
  deriving DecidableEq

/-- The function `importData`, from the text of the file on: `text` is what `JSON.parse`
makes of it, and a text that does not parse gives the fallback `null`. -/
def importData (env : Env) (text : Slot) (w : World) : World × ImportEnd :=
  let obj := safeParse text .null
  if !truthy obj || !isObjectType obj then (w, .toast "Invalid JSON")
  else
    let categories := if isArray (obj.get "categories") then obj.get "categories" else .null
    let tasks := if isArray (obj.get "tasks") then obj.get "tasks" else .null
    let events := if isArray (obj.get "events") then obj.get "events" else .null
    if !truthy categories || !truthy tasks || !truthy events then
      (w, .toast "Import missing fields")
    else
      let written : Storage :=
        { w.storage with
          categories := slotOf categories, tasks := slotOf tasks, events := slotOf events }
      match load env written with
      | none => ({ w with storage := written }, .thrown)
      | some fresh =>
        let s := { w.state with
          categories := fresh.categories, tasks := fresh.tasks, events := fresh.events }
        ({ w with state := s, storage := persist s }, .toast "Imported successfully")

/-- A form of the closed examples. -/
def eventFormExample (title date start finish : String) : FormData :=
  [("id", ""), ("title", title), ("date", date), ("startTime", start), ("endTime", finish),
   ("location", ""), ("notes", ""), ("color", "green")]

/-- A task form of the closed examples. -/
def taskFormExample (title category priority : String) : FormData :=
  [("id", ""), ("title", title), ("category", category), ("priority", priority),
   ("dueDate", "2024-06-01"), ("notes", "")]

/-- An import payload without the `events` array. -/
def payloadWithoutEvents : JVal :=
  .obj [("categories", .arr [.str "Errands"]), ("tasks", .arr [])]

/-! ## Theorems -/

theorem dropWhile_head_not (p : Char → Bool) (l : List Char) (a : Char) (r : List Char)
    (h : l.dropWhile p = a :: r) : p a = false := by
  have := List.head_dropWhile_not p l (by simp [h])
  simpa [h] using this

/-- Trimming a trimmed list of characters changes nothing. -/
theorem trimChars_idem (l : List Char) : trimChars (trimChars l) = trimChars l := by
  unfold trimChars
  have hpre : (List.dropWhile isJsSpace l).rdropWhile isJsSpace <+: List.dropWhile isJsSpace l :=
    List.rdropWhile_prefix _ _
  obtain ⟨s, hs⟩ := hpre
  have h1 : List.dropWhile isJsSpace ((List.dropWhile isJsSpace l).rdropWhile isJsSpace)
      = (List.dropWhile isJsSpace l).rdropWhile isJsSpace := by
    cases ht : (List.dropWhile isJsSpace l).rdropWhile isJsSpace with
    | nil => rfl
    | cons a t =>
      rw [ht] at hs
      have hna := dropWhile_head_not isJsSpace l a (t ++ s) (by simpa using hs.symm)
      simp [List.dropWhile, hna]
  rw [h1, List.rdropWhile_idempotent]

theorem jsTrim_idem (s : String) : jsTrim (jsTrim s) = jsTrim s := by
  simp [jsTrim, trimChars_idem]

/-- The insertion loop of `new Set`, started from `acc`, appends the first occurrences of the
values that are not in `acc`. -/
theorem foldl_setInsert (xs acc : List String) :
    xs.foldl (fun acc x => if x ∈ acc then acc else acc ++ [x]) acc
      = acc ++ (dedupKeepFirst xs).filter (fun y => y ∉ acc) := by
  induction xs generalizing acc with
  | nil => simp [dedupKeepFirst]
  | cons x r ih =>
    simp only [List.foldl_cons, dedupKeepFirst]
    by_cases hx : x ∈ acc
    · simp only [hx, if_true, ih]
      congr 1
      simp only [List.filter_cons, hx, not_true_eq_false, decide_False, List.filter_filter]
      simp only [Bool.false_eq_true, if_false]
      apply List.filter_congr
      intro y _
      by_cases hy : y ∈ acc <;> simp [hy]
      rintro rfl
      exact hy hx
    · simp only [hx, if_false, ih, List.append_assoc]
      congr 1
      simp only [List.filter_cons, hx, not_false_eq_true, decide_True, List.filter_filter, if_true,
        List.singleton_append]
      congr 1
      apply List.filter_congr
      intro y _
      by_cases hy : y ∈ acc <;> by_cases hyx : y = x <;> simp [hy, hyx]

/-- The code path `Array.from(new Set(xs))` is the removal of duplicates that keeps first
occurrences. -/
theorem setFromArray_eq (xs : List String) : setFromArray xs = dedupKeepFirst xs := by
  simp [setFromArray, foldl_setInsert]

theorem mem_dedupKeepFirst (xs : List String) (y : String) :
    y ∈ dedupKeepFirst xs ↔ y ∈ xs := by
  induction xs with
  | nil => simp [dedupKeepFirst]
  | cons x r ih =>
    simp only [dedupKeepFirst, List.mem_cons, List.mem_filter, ih]
    by_cases h : y = x <;> simp [h]

theorem nodup_dedupKeepFirst (xs : List String) : (dedupKeepFirst xs).Nodup := by
  induction xs with
  | nil => simp [dedupKeepFirst]
  | cons x r ih =>
    simp only [dedupKeepFirst, List.nodup_cons]
    exact ⟨by simp [List.mem_filter], ih.filter _⟩

theorem dedupKeepFirst_of_nodup (xs : List String) (h : xs.Nodup) : dedupKeepFirst xs = xs := by
  induction xs with
  | nil => rfl
  | cons x r ih =>
    rw [List.nodup_cons] at h
    simp only [dedupKeepFirst, ih h.2]
    congr 1
    rw [List.filter_eq_self]
    intro y hy
    simp
    rintro rfl
    exact h.1 hy


@[simp] theorem truthy_str (s : String) : truthy (.str s) = decide (s ≠ "") := rfl
@[simp] theorem truthy_obj (kvs : List (String × JVal)) : truthy (.obj kvs) = true := rfl
@[simp] theorem truthy_arr (xs : List JVal) : truthy (.arr xs) = true := rfl
@[simp] theorem truthy_undefined : truthy .undefined = false := rfl
@[simp] theorem truthy_null : truthy .null = false := rfl
@[simp] theorem truthy_bool (b : Bool) : truthy (.bool b) = b := rfl
@[simp] theorem toStr_str (env : Env) (s : String) : toStr env (.str s) = some s := by
  simp [toStr]

/-- A valid task with no field taken for missing is sanitized to itself, without any oracle
call. -/
theorem cleanTask_encTask (env : Env) (cats : List String) (t : Task) (k : Nat)
    (hv : ValidTask t) (hf : FilledTask t) :
    cleanTask env cats (encTask t) k = some (t, k) := by
  obtain ⟨htrim, htitle, hprio, hcat, -, -⟩ := hv
  obtain ⟨hid, hcat', hcr, hup⟩ := hf
  obtain ⟨id, title, category, priority, dueDate, notes, completed, createdAt, updatedAt⟩ := t
  cases category with
  | none => simp at hcat
  | some c =>
    have hc : c ≠ "" := by simpa using hcat'
    simp only [Trimmed] at htrim
    simp only [] at hid htitle hprio hcr hup htrim
    have hp : priority ∈ ["low", "medium", "high"] := hprio
    simp [cleanTask, encTask, JVal.get, lookupLast, orUid, orNow, jsOr, strOrEmpty, hid, htitle, hc, hcr, hup, htrim]
    by_cases hd : dueDate = "" <;> by_cases hn : notes = "" <;> simp [hd, hn] <;>
      (intro h1 h2 h3; simp [h1, h2, h3] at hp)

/-- A valid event with no field taken for missing is sanitized to itself, without any oracle
call. -/
theorem cleanEvent_encEvent (env : Env) (e : Event) (k : Nat)
    (hv : ValidEvent e) (hf : FilledEvent e) :
    cleanEvent env (encEvent e) k = some (e, k) := by
  obtain ⟨htrim, htitle, hcol, -, -⟩ := hv
  obtain ⟨hid, hdate, hcr, hup⟩ := hf
  obtain ⟨id, title, date, startTime, endTime, location, notes, color, createdAt, updatedAt⟩ := e
  simp only [Trimmed] at htrim
  simp only [] at hid htitle hcol hcr hup htrim hdate
  have hp : color ∈ ["blue", "pink", "green", "orange", "purple"] := hcol
  simp [cleanEvent, encEvent, JVal.get, lookupLast, orUid, orNow, jsOr, strOrEmpty, strOrToday, hid, htitle, hdate, hcr, hup, htrim]
  by_cases hs : startTime = "" <;> by_cases he : endTime = "" <;> by_cases hl : location = "" <;>
    by_cases hn : notes = "" <;> simp [hs, he, hl, hn] <;>
    (intro h1 h2 h3 h4 h5; simp [h1, h2, h3, h4, h5] at hp)

theorem mapTasks_enc (env : Env) (cats : List String) (ts : List Task) (k : Nat)
    (hv : ∀ t ∈ ts, ValidTask t) (hf : ∀ t ∈ ts, FilledTask t) :
    mapTasks env cats (ts.map encTask) k = some (ts, k) := by
  induction ts with
  | nil => rfl
  | cons t r ih =>
    have h1 := cleanTask_encTask env cats t k (hv t (by simp)) (hf t (by simp))
    have h2 := ih (fun x hx => hv x (by simp [hx])) (fun x hx => hf x (by simp [hx]))
    simp [mapTasks, h1, h2]

theorem mapEvents_enc (env : Env) (es : List Event) (k : Nat)
    (hv : ∀ e ∈ es, ValidEvent e) (hf : ∀ e ∈ es, FilledEvent e) :
    mapEvents env (es.map encEvent) k = some (es, k) := by
  induction es with
  | nil => rfl
  | cons e r ih =>
    have h1 := cleanEvent_encEvent env e k (hv e (by simp)) (hf e (by simp))
    have h2 := ih (fun x hx => hv x (by simp [hx])) (fun x hx => hf x (by simp [hx]))
    simp [mapEvents, h1, h2]


theorem mapThrow_cleanCatEntry_str (env : Env) (cats : List String)
    (h : ∀ c ∈ cats, Trimmed c ∧ c ≠ "") :
    mapThrow (cleanCatEntry env) (cats.map .str) = some cats := by
  induction cats with
  | nil => rfl
  | cons c r ih =>
    have hc := h c (by simp)
    have hr := ih (fun x hx => h x (by simp [hx]))
    have h1 : jsTrim c = c := hc.1
    simp [mapThrow, cleanCatEntry, jsOr, hc.2, h1, hr]

theorem cleanCats_enc (env : Env) (cats : List String) (h : ValidCategories cats) :
    cleanCats env (encCategories cats) = some cats := by
  obtain ⟨hne, hnd, hall⟩ := h
  have hf : cats.filter (fun s => !decide (s = "")) = cats := by
    rw [List.filter_eq_self]
    intro c hc
    simpa using (hall c hc).2
  simp [cleanCats, encCategories, orEmptyArray, mapThrow_cleanCatEntry_str env cats hall]
  rw [hf, setFromArray_eq, dedupKeepFirst_of_nodup cats hnd]
  simp [hne]

theorem drawerOpen_match (b : Bool) :
    (match JVal.bool b with
      | .bool false => false
      | _ => true) = b := by
  cases b <;> rfl

theorem uiFixed_enc (env : Env) (u : Ui) (h : StableUi u) : uiFixed env (encUi u) = some u := by
  obtain ⟨hp, hf, hm⟩ := h
  obtain ⟨page, taskFilter, ⟨year, month, selectedDate, drawerOpen⟩⟩ := u
  simp only [] at hp hf hm
  simp [uiFixed, encUi, defaultsUi, JVal.getOpt, JVal.get, lookupLast, nullish, toNumber, hp, hm]
  refine ⟨?_, ?_⟩
  · intro h1 h2 h3
    simp [h1, h2, h3] at hf
  · cases drawerOpen <;> rfl

theorem stableUi_of_valid (u : Ui) (h : ValidUi u) : StableUi u := by
  obtain ⟨hp, hf, q, hq, h0, h11⟩ := h
  refine ⟨?_, hf, ?_⟩
  · rcases hp with hp | hp <;> rw [hp] <;> simp [clamp, jsMax, jsMin]
  · rw [hq]
    simp [clamp, jsMax, jsMin, h0, h11]

theorem filter_truthy_enc {α : Type} (f : α → JVal) (l : List α) (h : ∀ a, truthy (f a) = true) :
    (l.map f).filter truthy = l.map f := by
  rw [List.filter_eq_self]
  intro x hx
  obtain ⟨a, -, rfl⟩ := List.mem_map.1 hx
  exact h a

/-- The sanitizer returns a snapshot unchanged when its categories, tasks and events are
valid, its `ui` is stable under the clamps, and no field is taken for missing. -/
theorem resanitize_of_stable (env : Env) (s : State)
    (hc : ValidCategories s.categories) (ht : ∀ t ∈ s.tasks, ValidTask t)
    (he : ∀ e ∈ s.events, ValidEvent e) (hu : StableUi s.ui) (hf : Filled s) :
    resanitize env s = some s := by
  obtain ⟨cats, tasks, events, ui⟩ := s
  simp only [] at hc ht he hu
  obtain ⟨hft, hfe⟩ := hf
  simp only [] at hft hfe
  have h1 : (tasks.map encTask).filter truthy = tasks.map encTask :=
    filter_truthy_enc encTask tasks (fun _ => rfl)
  have h2 : (events.map encEvent).filter truthy = events.map encEvent :=
    filter_truthy_enc encEvent events (fun _ => rfl)
  have h3 : tasks.filter (fun t => decide (t.title ≠ "")) = tasks := by
    rw [List.filter_eq_self]
    intro t htm
    simpa using (ht t htm).2.1
  have h4 : events.filter (fun e => decide (e.title ≠ "")) = events := by
    rw [List.filter_eq_self]
    intro e hem
    simpa using (he e hem).2.1
  simp only [resanitize, sanitize, cleanCats_enc env cats hc, cleanTasks, cleanEvents,
    orEmptyArray, truthy_arr, if_true, h1, h2, mapTasks_enc env cats tasks 0 ht hft,
    mapEvents_enc env events 0 he hfe, uiFixed_enc env ui hu, Option.bind_eq_bind,
    Option.some_bind, Option.pure_def, h3, h4]
  

theorem mapThrow_forall₂ {α β : Type} (f : α → Option β) (xs : List α) (ys : List β)
    (h : mapThrow f xs = some ys) : List.Forall₂ (fun x y => f x = some y) xs ys := by
  induction xs generalizing ys with
  | nil =>
    simp [mapThrow] at h
    subst h
    exact List.Forall₂.nil
  | cons x r ih =>
    simp only [mapThrow] at h
    cases hx : f x with
    | none => simp [hx] at h
    | some y =>
      cases hr : mapThrow f r with
      | none => simp [hx, hr] at h
      | some ys' =>
        simp [hx, hr] at h
        subst h
        exact List.Forall₂.cons hx (ih ys' hr)

theorem mapThrow_mem {α β : Type} (f : α → Option β) (xs : List α) (ys : List β)
    (h : mapThrow f xs = some ys) (y : β) (hy : y ∈ ys) : ∃ x ∈ xs, f x = some y := by
  have h2 := mapThrow_forall₂ f xs ys h
  induction h2 with
  | nil => simp at hy
  | cons hxy _ ih =>
    rename_i a b l1 l2 hl
    rcases List.mem_cons.1 hy with rfl | hy'
    · exact ⟨a, by simp, hxy⟩
    · cases hm : mapThrow f l1 with
      | none =>
        simp [mapThrow, hxy, hm] at h
      | some zs =>
        have : zs = l2 := by
          simp [mapThrow, hxy, hm] at h
          exact h
        subst this
        obtain ⟨x, hx, hfx⟩ := ih hm hy'
        exact ⟨x, by simp [hx], hfx⟩

theorem validCategories_default : ValidCategories defaultCategories := by
  refine ⟨by decide, by decide, ?_⟩
  decide

/-- Whenever `cleanCats` returns, the list is non-empty, duplicate-free and made of trimmed
non-empty names. -/
theorem cleanCats_valid (env : Env) (c : JVal) (cs : List String)
    (h : cleanCats env c = some cs) : ValidCategories cs := by
  simp only [cleanCats, Option.bind_eq_bind, Option.pure_def] at h
  cases hx : orEmptyArray c with
  | none => simp [hx] at h
  | some xs =>
    cases hs : mapThrow (cleanCatEntry env) xs with
    | none => simp [hx, hs] at h
    | some ss =>
      simp only [hx, hs, Option.some_bind, Option.some.injEq, setFromArray_eq] at h
      by_cases hl : (dedupKeepFirst (ss.filter (fun s => decide (s ≠ "")))).length = 0
      · rw [if_pos hl] at h
        have hnil : dedupKeepFirst (ss.filter (fun s => decide (s ≠ ""))) = [] :=
          List.length_eq_zero.1 hl
        rw [hnil] at h
        simp at h
        subst h
        exact validCategories_default
      · rw [if_neg hl] at h
        subst h
        refine ⟨fun h0 => hl (by rw [h0]; rfl), nodup_dedupKeepFirst _, ?_⟩
        intro y hy
        rw [mem_dedupKeepFirst, List.mem_filter] at hy
        obtain ⟨x, -, hfx⟩ := mapThrow_mem _ _ _ hs y hy.1
        simp only [cleanCatEntry, Option.map_eq_some'] at hfx
        obtain ⟨a, -, rfl⟩ := hfx
        exact ⟨jsTrim_idem a, by simpa using hy.2⟩


theorem present_of_truthy (v : JVal) (h : truthy v = true) : present v = true := by
  cases v <;> simp_all [present, truthy]

theorem present_orNow (env : Env) (v : JVal) (k : Nat) : present (orNow env v k).1 = true := by
  unfold orNow
  split
  · exact present_of_truthy v (by assumption)
  · rfl

theorem prio_mem (v : JVal) :
    (match v with
      | .str p => if p ∈ ["low", "medium", "high"] then p else "medium"
      | _ => "medium") ∈ ["low", "medium", "high"] := by
  split
  · split
    · assumption
    · simp
  · simp

/-- What the object literal of `cleanTasks` guarantees for one entry. -/
theorem cleanTask_spec (env : Env) (cats : List String) (x : JVal) (k k1 : Nat) (t : Task)
    (h : cleanTask env cats x k = some (t, k1)) :
    Trimmed t.title ∧ t.priority ∈ ["low", "medium", "high"] ∧ t.category.isSome = true ∧
      present t.createdAt = true ∧ present t.updatedAt = true ∧
      rawTitle env x = some t.title := by
  simp only [cleanTask, Option.bind_eq_bind, Option.pure_def, Option.bind_eq_some] at h
  obtain ⟨id, -, title, htitle, cat, -, due, -, notes, -, h⟩ := h
  simp only [Option.some.injEq, Prod.mk.injEq] at h
  obtain ⟨rfl, -⟩ := h
  refine ⟨jsTrim_idem title, prio_mem _, rfl, present_orNow _ _ _, present_orNow _ _ _, ?_⟩
  simp [rawTitle, htitle]

theorem color_mem (v : JVal) :
    (match v with
      | .str c => if c ∈ ["blue", "pink", "green", "orange", "purple"] then c else "blue"
      | _ => "blue") ∈ ["blue", "pink", "green", "orange", "purple"] := by
  split
  · split
    · assumption
    · simp
  · simp

theorem cleanEvent_spec (env : Env) (x : JVal) (k k1 : Nat) (e : Event)
    (h : cleanEvent env x k = some (e, k1)) :
    Trimmed e.title ∧ e.color ∈ ["blue", "pink", "green", "orange", "purple"] ∧
      present e.createdAt = true ∧ present e.updatedAt = true := by
  simp only [cleanEvent, Option.bind_eq_bind, Option.pure_def, Option.bind_eq_some] at h
  obtain ⟨id, -, title, htitle, ⟨date, k2⟩, -, st, -, en, -, loc, -, notes, -, h⟩ := h
  simp only [Option.some.injEq, Prod.mk.injEq] at h
  obtain ⟨rfl, -⟩ := h
  exact ⟨jsTrim_idem title, color_mem _, present_orNow _ _ _, present_orNow _ _ _⟩

theorem mapTasks_forall₂ (env : Env) (cats : List String) (xs : List JVal) (k k1 : Nat)
    (ts : List Task) (h : mapTasks env cats xs k = some (ts, k1)) :
    List.Forall₂ (CleansTo env cats) xs ts := by
  induction xs generalizing k ts with
  | nil =>
    simp [mapTasks] at h
    rw [h.1]
    exact List.Forall₂.nil
  | cons x r ih =>
    simp only [mapTasks] at h
    cases hx : cleanTask env cats x k with
    | none => simp [hx] at h
    | some p =>
      obtain ⟨t, k2⟩ := p
      cases hr : mapTasks env cats r k2 with
      | none => simp [hx, hr] at h
      | some q =>
        obtain ⟨ts', k3⟩ := q
        simp [hx, hr] at h
        obtain ⟨rfl, rfl⟩ := h
        exact List.Forall₂.cons ⟨k, k2, hx⟩ (ih k2 ts' hr)

theorem mapEvents_mem (env : Env) (xs : List JVal) (k k1 : Nat)
    (es : List Event) (h : mapEvents env xs k = some (es, k1)) (e : Event) (he : e ∈ es) :
    ∃ x k2 k3, cleanEvent env x k2 = some (e, k3) := by
  induction xs generalizing k es with
  | nil =>
    simp [mapEvents] at h
    rw [h.1] at he
    simp at he
  | cons x r ih =>
    simp only [mapEvents] at h
    cases hx : cleanEvent env x k with
    | none => simp [hx] at h
    | some p =>
      obtain ⟨t, k2⟩ := p
      cases hr : mapEvents env r k2 with
      | none => simp [hx, hr] at h
      | some q =>
        obtain ⟨es', k3⟩ := q
        simp [hx, hr] at h
        obtain ⟨rfl, rfl⟩ := h
        rcases List.mem_cons.1 he with rfl | he'
        · exact ⟨x, k, k2, hx⟩
        · exact ih k2 es' hr he'

theorem forall₂_mem_right {α β : Type} (R : α → β → Prop) (l1 : List α) (l2 : List β)
    (h : List.Forall₂ R l1 l2) (b : β) (hb : b ∈ l2) : ∃ a ∈ l1, R a b := by
  induction h with
  | nil => simp at hb
  | cons hab _ ih =>
    rename_i a0 b0 r1 r2 _
    rcases List.mem_cons.1 hb with rfl | hb'
    · exact ⟨a0, by simp, hab⟩
    · obtain ⟨a, ha, hr⟩ := ih hb'
      exact ⟨a, by simp [ha], hr⟩

theorem forall₂_filter {α β : Type} (R : α → β → Prop) (p : α → Bool) (q : β → Bool)
    (hpq : ∀ a b, R a b → p a = q b) (l1 : List α) (l2 : List β) (h : List.Forall₂ R l1 l2) :
    List.Forall₂ R (l1.filter p) (l2.filter q) := by
  induction h with
  | nil => exact List.Forall₂.nil
  | cons hab _ ih =>
    rename_i a b r1 r2 _
    have e := hpq a b hab
    cases hq : q b with
    | false =>
      have hp : p a = false := by rw [e, hq]
      simp only [List.filter_cons, hp, hq]
      exact ih
    | true =>
      have hp : p a = true := by rw [e, hq]
      simp only [List.filter_cons, hp, hq, if_true]
      exact List.Forall₂.cons hab ih

theorem sanitize_some (env : Env) (c t e u : JVal) (s : State)
    (h : sanitize env c t e u = some s) :
    ∃ k1 k2, cleanCats env c = some s.categories ∧
      cleanTasks env s.categories t 0 = some (s.tasks, k1) ∧
      cleanEvents env e k1 = some (s.events, k2) ∧ uiFixed env u = some s.ui := by
  simp only [sanitize, Option.bind_eq_bind, Option.pure_def, Option.bind_eq_some] at h
  obtain ⟨cats, hc, ⟨ts, k1⟩, ht, ⟨es, k2⟩, he, ui, hu, h⟩ := h
  simp only [Option.some.injEq] at h
  subst h
  exact ⟨k1, k2, hc, ht, he, hu⟩

theorem cleanTasks_some (env : Env) (cats : List String) (v : JVal) (k k1 : Nat)
    (ts : List Task) (h : cleanTasks env cats v k = some (ts, k1)) :
    ∃ xs ts0, orEmptyArray v = some xs ∧ mapTasks env cats (xs.filter truthy) k = some (ts0, k1) ∧
      ts = ts0.filter (fun t => decide (t.title ≠ "")) := by
  simp only [cleanTasks, Option.bind_eq_bind, Option.pure_def, Option.bind_eq_some] at h
  obtain ⟨xs, hx, ⟨ts0, k2⟩, hm, h⟩ := h
  simp only [Option.some.injEq, Prod.mk.injEq] at h
  obtain ⟨rfl, rfl⟩ := h
  exact ⟨xs, ts0, hx, hm, rfl⟩

/-- The sanitized tasks are, in order, the sanitized forms of the raw entries that survive;
each has a trimmed non-empty title. -/
theorem cleanTasks_arr (env : Env) (cats : List String) (xs : List JVal) (k k1 : Nat)
    (ts : List Task) (h : cleanTasks env cats (.arr xs) k = some (ts, k1)) :
    List.Forall₂ (CleansTo env cats) (xs.filter (survives env)) ts ∧
      ∀ t ∈ ts, Trimmed t.title ∧ t.title ≠ "" := by
  obtain ⟨xs', ts0, hx, hm, rfl⟩ := cleanTasks_some env cats _ k k1 ts h
  simp [orEmptyArray] at hx
  subst hx
  have hf := mapTasks_forall₂ env cats _ k k1 ts0 hm
  constructor
  · have h2 := forall₂_filter (CleansTo env cats)
      (fun x => decide (rawTitle env x ≠ some "")) (fun t => decide (t.title ≠ "")) ?_ _ _ hf
    · rw [List.filter_filter] at h2
      have e : (fun a => (decide (rawTitle env a ≠ some "") && truthy a)) = survives env := by
        funext a
        simp [survives, Bool.and_comm]
      rw [e] at h2
      exact h2
    · rintro a b ⟨k2, k3, hab⟩
      have := (cleanTask_spec env cats a k2 k3 b hab).2.2.2.2.2
      simp [this]
  · intro t ht
    rw [List.mem_filter] at ht
    obtain ⟨x, -, k2, k3, hxt⟩ := forall₂_mem_right _ _ _ hf t ht.1
    exact ⟨(cleanTask_spec env cats x k2 k3 t hxt).1, by simpa using ht.2⟩

/-- Clamping twice is clamping once, also on `NaN` and the infinities. -/
theorem clamp_idem (n : JNum) (a b : ℚ) (hab : a ≤ b) :
    clamp (clamp n (.fin a) (.fin b)) (.fin a) (.fin b) = clamp n (.fin a) (.fin b) := by
  cases n with
  | nan => simp [clamp, jsMin, jsMax]
  | negInf => simp [clamp, jsMin, jsMax, hab]
  | posInf => simp [clamp, jsMin, jsMax, hab]
  | fin q =>
    simp only [clamp, jsMin, jsMax, JNum.fin.injEq]
    have h1 : a ≤ max a (min b q) := le_max_left _ _
    have h2 : max a (min b q) ≤ b := max_le hab (min_le_left _ _)
    rw [min_eq_right h2, max_eq_right h1]

theorem uiFixed_stable (env : Env) (u : JVal) (ui : Ui) (h : uiFixed env u = some ui) :
    StableUi ui := by
  simp only [uiFixed, Option.bind_eq_bind, Option.pure_def, Option.bind_eq_some] at h
  obtain ⟨page, -, year, -, month, -, sel, -, h⟩ := h
  simp only [Option.some.injEq] at h
  subst h
  refine ⟨clamp_idem page 0 1 (by norm_num), ?_, clamp_idem month 0 11 (by norm_num)⟩
  show (match u.getOpt "taskFilter" with
      | .str f => if f ∈ ["all", "active", "completed"] then f else "all"
      | _ => "all") ∈ ["all", "active", "completed"]
  split
  · split
    · assumption
    · simp
  · simp

theorem cleanEvents_valid (env : Env) (v : JVal) (k k1 : Nat) (es : List Event)
    (h : cleanEvents env v k = some (es, k1)) : ∀ e ∈ es, ValidEvent e := by
  simp only [cleanEvents, Option.bind_eq_bind, Option.pure_def, Option.bind_eq_some] at h
  obtain ⟨xs, -, ⟨es0, k2⟩, hm, h⟩ := h
  simp only [Option.some.injEq, Prod.mk.injEq] at h
  obtain ⟨rfl, rfl⟩ := h
  intro e he
  rw [List.mem_filter] at he
  obtain ⟨x, k3, k4, hx⟩ := mapEvents_mem env _ k k2 es0 hm e he.1
  obtain ⟨h1, h2, h3, h4⟩ := cleanEvent_spec env x k3 k4 e hx
  exact ⟨h1, by simpa using he.2, h2, h3, h4⟩

theorem cleanTasks_valid (env : Env) (cats : List String) (v : JVal) (k k1 : Nat)
    (ts : List Task) (h : cleanTasks env cats v k = some (ts, k1)) : ∀ t ∈ ts, ValidTask t := by
  obtain ⟨xs, ts0, -, hm, rfl⟩ := cleanTasks_some env cats v k k1 ts h
  intro t ht
  rw [List.mem_filter] at ht
  obtain ⟨x, -, k2, k3, hx⟩ :=
    forall₂_mem_right _ _ _ (mapTasks_forall₂ env cats _ k k1 ts0 hm) t ht.1
  obtain ⟨h1, h2, h3, h4, h5, -⟩ := cleanTask_spec env cats x k2 k3 t hx
  exact ⟨h1, by simpa using ht.2, h2, h3, h4, h5⟩

/-- A second run of the sanitizer on its own output returns it unchanged, when the output
has no field taken for missing. -/
theorem sanitize_output_resanitize (env env2 : Env) (c t e u : JVal) (s : State)
    (h : sanitize env c t e u = some s) (hf : Filled s) : resanitize env2 s = some s := by
  obtain ⟨k1, k2, hc, ht, he, hu⟩ := sanitize_some env c t e u s h
  exact resanitize_of_stable env2 s (cleanCats_valid env c _ hc)
    (cleanTasks_valid env _ t 0 k1 _ ht) (cleanEvents_valid env e k1 k2 _ he)
    (uiFixed_stable env u _ hu) hf

theorem mapThrow_map_map {α β γ : Type} (f : α → Option β) (g : β → γ) (xs : List α) :
    mapThrow (fun x => (f x).map g) xs = (mapThrow f xs).map (List.map g) := by
  induction xs with
  | nil => rfl
  | cons x r ih =>
    simp only [mapThrow, ih]
    cases f x <;> cases mapThrow f r <;> rfl

theorem survives_false_of_blank_title (env : Env) (x : JVal) (title : String)
    (h : x.get "title" = .str title) (hb : jsTrim title = "") : survives env x = false := by
  have : rawTitle env x = some "" := by
    by_cases ht : title = ""
    · subst ht
      simp [rawTitle, h, jsOr]
      decide
    · simp [rawTitle, h, jsOr, ht, hb]
  simp [survives, this]

/-- C1, counterexample. The claim as stated fails: a snapshot that meets every listed
condition (string id, trimmed non-empty title, enum priority and color, string fields,
timestamps present, unique trimmed categories, page 0, filter `all`, month 5) but whose
task has the empty string as id comes back from the sanitizer with the fresh id `id_0`,
because `String(t.id || uid())` takes a falsy id for a missing one. -/
theorem sanitize_valid_not_identity :
    ValidSnapshot (sampleState "") ∧
      (resanitize sampleEnv (sampleState "")).map (fun s => s.tasks.map Task.id)
        = some ["id_0"] ∧
      resanitize sampleEnv (sampleState "") ≠ some (sampleState "") := by
  refine ⟨⟨by decide, by decide, by decide, Or.inl rfl, by decide, 5, rfl, by norm_num,
    by norm_num⟩, by decide, ?_⟩
  intro h
  have h2 : (resanitize sampleEnv (sampleState "")).map (fun s => s.tasks.map Task.id)
      = some [""] := by rw [h]; rfl
  revert h2
  decide

/-- C1, as amended. For every valid snapshot in which no field is one the sanitizer takes
for missing (no empty id, no empty task category, no empty event date, no falsy
timestamp), running the sanitizer of `load` on the snapshot returns it unchanged; and the
output of the sanitizer on any raw input, when it has no such field, is returned
unchanged by a second run. -/
theorem sanitize_identity_on_filled_valid :
    (∀ (env : Env) (s : State), ValidSnapshot s → Filled s → resanitize env s = some s) ∧
    (∀ (env env2 : Env) (c t e u : JVal) (s : State),
      sanitize env c t e u = some s → Filled s → resanitize env2 s = some s) :=
  ⟨fun env s hv hf => resanitize_of_stable env s hv.1 hv.2.1 hv.2.2.1
      (stableUi_of_valid s.ui hv.2.2.2) hf,
   sanitize_output_resanitize⟩

theorem sanitize_identity_on_filled_valid_witness :
    ValidSnapshot (sampleState "t1") ∧ Filled (sampleState "t1") ∧
      resanitize sampleEnv (sampleState "t1") = some (sampleState "t1") ∧
      resanitize sampleEnv (sampleState "t1") = some (sampleState "t1") :=
  have hv : ValidSnapshot (sampleState "t1") :=
    ⟨by decide, by decide, by decide, Or.inl rfl, by decide, 5, rfl, by norm_num, by norm_num⟩
  have hf : Filled (sampleState "t1") := by decide
  ⟨hv, hf, sanitize_identity_on_filled_valid.1 sampleEnv _ hv hf,
    sanitize_identity_on_filled_valid.2 sampleEnv sampleEnv _ _ _ _ _
      (sanitize_identity_on_filled_valid.1 sampleEnv _ hv hf) hf⟩

/-- C2, the code at the failing input. With the number 5 stored under
`focusflow.categories` (valid JSON, so `safeJSON.parse` returns it and no fallback is
used), `(categories || []).map(...)` is a call of `undefined`: `load` throws. -/
theorem load_throws_on_number_categories :
    load sampleEnv
      { categories := .json (.num (.fin 5)), tasks := .absent, events := .absent, ui := .absent }
      = none := by
  rfl

/-- Any truthy value that is not an array in the categories slot makes `load` throw. -/
theorem load_throws_of_truthy_nonarray (env : Env) (st : Storage) (v : JVal)
    (hslot : st.categories = .json v) (ht : truthy v = true) (hna : ∀ xs, v ≠ .arr xs) :
    load env st = none := by
  have : orEmptyArray v = none := by
    cases v <;> simp_all [orEmptyArray]
  simp [load, sanitize, cleanCats, hslot, safeParse, this]

theorem load_some (env : Env) (st : Storage) (s : State) (h : load env st = some s) :
    ∃ k1, cleanCats env (safeParse st.categories (.arr (defaultCategories.map .str)))
        = some s.categories ∧
      cleanTasks env s.categories (safeParse st.tasks (.arr [])) 0 = some (s.tasks, k1) := by
  obtain ⟨k1, _, hc, ht, -, -⟩ := sanitize_some env _ _ _ _ s h
  exact ⟨k1, hc, ht⟩

/-- C3. For every raw task list `xs` on which `load` returns a state: no sanitized task
has a title that is empty after trimming; there are at most as many sanitized tasks as raw
entries; the sanitized tasks are, in order, the sanitized forms of the surviving raw
entries, which are a sublist of `xs`; and a raw entry whose title is a string that is
empty after trimming (empty or white space only) does not survive. The sanitizer returns
on every raw list whose entries hold no array or object in the converted fields
(`cleanTasks_returns`). -/
theorem load_drops_blank_titles (env : Env) (st : Storage) (xs : List JVal) (s : State)
    (hraw : st.tasks = .json (.arr xs)) (hload : load env st = some s) :
    (∀ t ∈ s.tasks, jsTrim t.title ≠ "") ∧
      s.tasks.length ≤ xs.length ∧
      (xs.filter (survives env)).Sublist xs ∧
      List.Forall₂ (CleansTo env s.categories) (xs.filter (survives env)) s.tasks ∧
      (∀ x title, x.get "title" = .str title → jsTrim title = "" → survives env x = false) := by
  obtain ⟨k1, -, ht⟩ := load_some env st s hload
  rw [hraw] at ht
  obtain ⟨hrel, htitle⟩ := cleanTasks_arr env s.categories xs 0 k1 s.tasks ht
  refine ⟨?_, ?_, List.filter_sublist _, hrel, survives_false_of_blank_title env⟩
  · intro t hm
    have := htitle t hm
    rw [this.1]
    exact this.2
  · rw [← hrel.length_eq]
    exact List.length_filter_le _ _

theorem load_drops_blank_titles_witness :
    load sampleEnv (storageWithTasks rawTasksExample) = some sanitizedExample ∧
    rawTasksExample.filter (survives sampleEnv)
      = [.obj [("id", .str "b"), ("title", .str " Pay rent ")],
         .obj [("id", .str "d"), ("title", .str "Call Ana")]] ∧
    sanitizedExample.tasks.length ≤ rawTasksExample.length ∧
    (∀ t ∈ sanitizedExample.tasks, jsTrim t.title ≠ "") :=
  have h : load sampleEnv (storageWithTasks rawTasksExample) = some sanitizedExample := by rfl
  have r := load_drops_blank_titles sampleEnv (storageWithTasks rawTasksExample)
    rawTasksExample sanitizedExample rfl h
  ⟨h, by rfl, r.2.1, r.1⟩

theorem jsOr_of_truthy {a : JVal} (b : JVal) (h : truthy a = true) : jsOr a b = a := by
  simp [jsOr, h]

theorem push_defaults_eq (l : List String) :
    (if l.length = 0 then l ++ defaultCategories else l) = orDefaultCategories l := by
  cases l <;> simp [orDefaultCategories]

theorem cleanCats_arr (env : Env) (xs : List JVal) :
    cleanCats env (.arr xs) = categoriesOfRaw env xs := by
  have hm : mapThrow (cleanCatEntry env) xs
      = (mapThrow (fun x => toStr env (jsOr x (.str ""))) xs).map (List.map jsTrim) :=
    mapThrow_map_map (fun x => toStr env (jsOr x (.str ""))) jsTrim xs
  simp only [cleanCats, orEmptyArray, truthy_arr, if_true, Option.bind_eq_bind,
    Option.some_bind, Option.pure_def, hm, categoriesOfRaw, setFromArray_eq, push_defaults_eq]
  cases mapThrow (fun x => toStr env (jsOr x (.str ""))) xs <;> rfl

/-- C4, counterexample. The claim as stated fails on the raw list `[null]`: coercing the
entry to a string gives `"null"`, so the list of the claim is `["null"]`, while the code
coerces `x || ''`, drops the entry and returns the default set. -/
theorem cleanCats_differs_on_null :
    cleanCats sampleEnv (.arr [.null]) = some ["Personal", "Work", "Health"] ∧
      specCategories sampleEnv [.null] = some ["null"] ∧
      cleanCats sampleEnv (.arr [.null]) ≠ specCategories sampleEnv [.null] := by
  decide

/-- C4, as amended. For every raw category list, the sanitized category list of `load`
equals the list obtained by coercing each entry to a string, a falsy entry (`null`,
`false`, `0`, `NaN`, `''`) counting as the empty string, trimming, dropping empty results
and removing duplicates while keeping first occurrences in order, with the default set
substituted when nothing is left; on a list without falsy entries this is the list of the
claim; and whenever the sanitizer returns, the list is non-empty, duplicate-free and made
of trimmed non-empty strings. -/
theorem cleanCats_spec (env : Env) (xs : List JVal) :
    cleanCats env (.arr xs) = categoriesOfRaw env xs ∧
      ((∀ x ∈ xs, truthy x = true) → cleanCats env (.arr xs) = specCategories env xs) ∧
      ∀ cs, cleanCats env (.arr xs) = some cs →
        cs ≠ [] ∧ cs.Nodup ∧ ∀ c ∈ cs, Trimmed c ∧ c ≠ "" := by
  refine ⟨cleanCats_arr env xs, ?_, fun cs h => cleanCats_valid env _ cs h⟩
  intro hall
  rw [cleanCats_arr, categoriesOfRaw, specCategories]
  congr 1
  have : ∀ l : List JVal, (∀ x ∈ l, truthy x = true) →
      mapThrow (fun x => toStr env (jsOr x (.str ""))) l = mapThrow (toStr env) l := by
    intro l hl
    induction l with
    | nil => rfl
    | cons a r ih =>
      simp only [mapThrow, ih (fun x hx => hl x (by simp [hx])),
        jsOr_of_truthy _ (hl a (by simp))]
  exact this xs hall

theorem cleanCats_spec_witness :
    cleanCats sampleEnv (.arr [.str " Work ", .null, .str "Home", .str "Work", .str "  "])
      = some ["Work", "Home"] ∧
    (["Work", "Home"] ≠ [] ∧ ["Work", "Home"].Nodup ∧
      ∀ c ∈ ["Work", "Home"], Trimmed c ∧ c ≠ "") :=
  have h : cleanCats sampleEnv
      (.arr [.str " Work ", .null, .str "Home", .str "Work", .str "  "])
      = some ["Work", "Home"] := by decide
  ⟨h, (cleanCats_spec sampleEnv _).2.2 _ h⟩

/-- C8, the code at the failing input. A stored task whose category `Zzz` is not a stored
category is kept by `load` with that category, while the category list is the default
set: the loaded state has a task whose category is not in the category list. -/
theorem load_keeps_unknown_category :
    (load sampleEnv
        (storageWithTasks [.obj [("title", .str "Pay rent"), ("category", .str "Zzz")]])).map
      (fun s => (s.categories, s.tasks.map Task.category))
      = some (["Personal", "Work", "Health"], [some "Zzz"]) := by
  decide

/-- The index `indexOf` returns is the first position holding the value. -/
theorem indexOf_spec (x : String) (l : List String) (h : x ∈ l) :
    ∃ i, indexOf x l = some i ∧ l[i]? = some x ∧ ∀ j, j < i → l[j]? ≠ some x := by
  induction l with
  | nil => simp at h
  | cons y r ih =>
    by_cases hy : y = x
    · exact ⟨0, by simp [indexOf, hy], by simp [hy], fun j hj => by omega⟩
    · have hr : x ∈ r := by
        rcases List.mem_cons.1 h with h1 | h1
        · exact absurd h1.symm hy
        · exact h1
      obtain ⟨i, h1, h2, h3⟩ := ih hr
      refine ⟨i + 1, by simp [indexOf, hy, h1], by simpa using h2, ?_⟩
      intro j hj
      cases j with
      | zero => simpa using hy
      | succ j => simpa using h3 j (by omega)

theorem indexOf_none (x : String) (l : List String) (h : x ∉ l) : indexOf x l = none := by
  induction l with
  | nil => rfl
  | cons y r ih =>
    have hy : y ≠ x := fun e => h (by simp [e])
    have hr : x ∉ r := fun e => h (by simp [e])
    simp [indexOf, hy, ih hr]

theorem nodup_set_fresh (l : List String) (i : Nat) (x : String) (hl : l.Nodup) (hx : x ∉ l) :
    (l.set i x).Nodup := by
  induction l generalizing i with
  | nil => simp
  | cons y r ih =>
    rw [List.nodup_cons] at hl
    have hxr : x ∉ r := fun e => hx (by simp [e])
    cases i with
    | zero =>
      simp only [List.set_cons_zero, List.nodup_cons]
      exact ⟨hxr, hl.2⟩
    | succ i =>
      simp only [List.set_cons_succ, List.nodup_cons]
      refine ⟨?_, ih i hl.2 hxr⟩
      intro hm
      rcases List.mem_or_eq_of_mem_set hm with h1 | h1
      · exact hl.1 h1
      · exact hx (by simp [h1])

/-- C5, counterexample. The claim as stated fails: `removeCategory` itself has no guard.
Called with the only category of a state, it reports `Category deleted`, leaves the
category list empty and sets the category of the task that referenced it to
`undefined`. -/
theorem removeCategory_empties_last :
    (removeCategory (stateOf ["Work"] [sampleTask "t1" "Work"]) "Work").1.categories = [] ∧
      (removeCategory (stateOf ["Work"] [sampleTask "t1" "Work"]) "Work").1.tasks.map
        Task.category = [none] ∧
      (removeCategory (stateOf ["Work"] [sampleTask "t1" "Work"]) "Work").2
        = some "Category deleted" := by
  decide

/-- C5, as amended. The guard is in the click handler of the delete button, the only
caller of `removeCategory`: with at most one category the handler answers
`Keep at least one category` and leaves the state unchanged; and for every state whose
category list is non-empty and duplicate-free, the category list after the handler is
non-empty. -/
theorem deleteCategoryClick_keeps_one :
    (∀ (s : State) (c : String), s.categories.length ≤ 1 →
      deleteCategoryClick s c = (s, some "Keep at least one category")) ∧
    (∀ (s : State) (c : String), s.categories ≠ [] → s.categories.Nodup →
      (deleteCategoryClick s c).1.categories ≠ []) := by
  constructor
  · intro s c h
    simp [deleteCategoryClick, h]
  · intro s c hne hnd
    unfold deleteCategoryClick
    split
    · exact hne
    · rename_i hlen
      unfold removeCategory
      split
      · exact hne
      · simp only
        obtain ⟨cats, tasks, events, ui⟩ := s
        simp only at hlen hnd ⊢
        match cats, hlen, hnd with
        | a :: b :: r, _, hnd =>
          rw [List.nodup_cons] at hnd
          have hab : a ≠ b := fun e => hnd.1 (by simp [e])
          intro hfil
          rw [List.filter_eq_nil_iff] at hfil
          have ha := hfil a (by simp)
          have hb := hfil b (by simp)
          simp at ha hb
          exact hab (ha.trans hb.symm)
        | [_], hlen, _ => simp at hlen
        | [], hlen, _ => simp at hlen

theorem deleteCategoryClick_keeps_one_witness :
    deleteCategoryClick (stateOf ["Work"] [sampleTask "t1" "Work"]) "Work"
      = (stateOf ["Work"] [sampleTask "t1" "Work"], some "Keep at least one category") ∧
    (deleteCategoryClick (stateOf ["Work", "Home"] [sampleTask "t1" "Work"]) "Work").1.categories
      ≠ [] :=
  ⟨deleteCategoryClick_keeps_one.1 _ "Work" (by decide),
   deleteCategoryClick_keeps_one.2 (stateOf ["Work", "Home"] [sampleTask "t1" "Work"]) "Work"
     (by decide) (by decide)⟩

/-- C6. For every state and names `frm ≠ tgt` with `frm` in the category list, after
`renameCategory(frm, tgt)` the category list is the old one with `tgt` written at the
first position that held `frm`; the task list has the same length; the task at each
position is the old one with category `tgt` when its category was `frm`, and the old one
unchanged otherwise; events and `ui` are unchanged. -/
theorem renameCategory_cascades (s : State) (frm tgt : String) (hne : frm ≠ tgt)
    (hmem : frm ∈ s.categories) :
    (∃ i, s.categories[i]? = some frm ∧ (∀ j, j < i → s.categories[j]? ≠ some frm) ∧
      (renameCategory s frm tgt).1.categories = s.categories.set i tgt) ∧
    (renameCategory s frm tgt).1.tasks.length = s.tasks.length ∧
    (∀ (j : Nat) (t : Task), s.tasks[j]? = some t →
      (t.category = some frm →
        (renameCategory s frm tgt).1.tasks[j]? = some { t with category := some tgt }) ∧
      (t.category ≠ some frm → (renameCategory s frm tgt).1.tasks[j]? = some t)) ∧
    (renameCategory s frm tgt).1.events = s.events ∧
    (renameCategory s frm tgt).1.ui = s.ui := by
  obtain ⟨i, hi, hget, hfirst⟩ := indexOf_spec frm s.categories hmem
  have hr : renameCategory s frm tgt
      = ({ s with
            categories := s.categories.set i tgt
            tasks := s.tasks.map
              (fun t => if t.category = some frm then { t with category := some tgt } else t) },
         some "Category renamed") := by
    simp [renameCategory, hne, hi]
  rw [hr]
  refine ⟨⟨i, hget, hfirst, rfl⟩, by simp, ?_, rfl, rfl⟩
  intro j t hj
  constructor
  · intro hc
    simp [List.getElem?_map, hj, hc]
  · intro hc
    simp [List.getElem?_map, hj, hc]

theorem renameCategory_cascades_witness :
    "Work" ≠ "Job" ∧ "Work" ∈ ["Home", "Work"] ∧
    (renameCategory (stateOf ["Home", "Work"] [sampleTask "t1" "Work", sampleTask "t2" "Home"])
        "Work" "Job").1.tasks.length = 2 :=
  ⟨by decide, by decide,
   (renameCategory_cascades
      (stateOf ["Home", "Work"] [sampleTask "t1" "Work", sampleTask "t2" "Home"]) "Work" "Job"
      (by decide) (by decide)).2.1⟩

/-- C7, counterexample. The claim as stated fails: `renameCategory` itself does not check
the target. Renaming `Work` to the existing `Home` reports success and leaves the list
`[Home, Home]`, which has a duplicate. -/
theorem renameCategory_allows_duplicate :
    "Work" ≠ "Home" ∧ "Home" ∈ (stateOf ["Work", "Home"] []).categories ∧
      (renameCategory (stateOf ["Work", "Home"] []) "Work" "Home").1.categories
        = ["Home", "Home"] ∧
      ¬ (renameCategory (stateOf ["Work", "Home"] []) "Work" "Home").1.categories.Nodup := by
  decide

/-- C7, as amended. The check is in the click handler of the save button, the only
caller of `renameCategory`: when the trimmed text of the input is a category other than
the one of the row, the handler leaves the whole state unchanged (and answers
`That category already exists` when the text is not empty); and for every state with a
duplicate-free category list the list after the handler is duplicate-free. -/
theorem saveCategoryClick_rejects_duplicate :
    (∀ (s : State) (c value : String), jsTrim value ∈ s.categories → jsTrim value ≠ c →
      (saveCategoryClick s c value).1 = s ∧
      (jsTrim value ≠ "" →
        (saveCategoryClick s c value).2 = some "That category already exists")) ∧
    (∀ (s : State) (c value : String), s.categories.Nodup →
      (saveCategoryClick s c value).1.categories.Nodup) := by
  constructor
  · intro s c value hm hc
    unfold saveCategoryClick
    by_cases he : jsTrim value = ""
    · simp [he]
    · simp [he, hm, hc]
  · intro s c value hnd
    unfold saveCategoryClick
    simp only
    split
    · exact hnd
    · split
      · exact hnd
      · rename_i hemp hdup
        by_cases hneq : c = jsTrim value
        · simpa [renameCategory, hneq] using hnd
        · cases hi : indexOf c s.categories with
          | none => simpa [renameCategory, hneq, hi] using hnd
          | some i =>
            simp only [renameCategory, hneq, hi, if_false]
            apply nodup_set_fresh _ _ _ hnd
            intro hm
            exact hdup ⟨hm, fun e => hneq e.symm⟩

theorem saveCategoryClick_rejects_duplicate_witness :
    (saveCategoryClick (stateOf ["Work", "Home"] [sampleTask "t1" "Work"]) "Work" " Home ").1
        = stateOf ["Work", "Home"] [sampleTask "t1" "Work"] ∧
    (saveCategoryClick (stateOf ["Work", "Home"] [sampleTask "t1" "Work"]) "Work" "Job").1.categories.Nodup :=
  ⟨(saveCategoryClick_rejects_duplicate.1 (stateOf ["Work", "Home"] [sampleTask "t1" "Work"])
      "Work" " Home " (by decide) (by decide)).1,
   saveCategoryClick_rejects_duplicate.2 (stateOf ["Work", "Home"] [sampleTask "t1" "Work"])
      "Work" "Job" (by decide)⟩

/-- The first day of the next year is `DaysInYear` days later. -/
theorem dayFromYear_succ (y : Int) : dayFromYear (y + 1) = dayFromYear y + daysInYear y := by
  unfold dayFromYear daysInYear
  split_ifs <;> omega

theorem daysInYear_cases (y : Int) : daysInYear y = 365 ∨ daysInYear y = 366 := by
  unfold daysInYear
  split_ifs <;> simp

theorem dayFromYear_mono (a b : Int) (h : a ≤ b) : dayFromYear a ≤ dayFromYear b := by
  unfold dayFromYear
  omega

/-- The year computed by `yearFromDay` contains the day. -/
theorem yearFromDay_spec (d : Int) :
    dayFromYear (yearFromDay d) ≤ d ∧ d < dayFromYear (yearFromDay d + 1) := by
  unfold yearFromDay
  simp only
  split
  · constructor
    · unfold dayFromYear at *
      omega
    · simpa using ‹_›
  · split
    · constructor
      · assumption
      · unfold dayFromYear at *
        omega
    · constructor <;> omega

/-- The year that contains a day is unique, so `yearFromDay` is `YearFromTime`: the largest
year whose first day is not after the day. -/
theorem yearFromDay_unique (d y : Int) (h1 : dayFromYear y ≤ d) (h2 : d < dayFromYear (y + 1)) :
    yearFromDay d = y := by
  obtain ⟨h3, h4⟩ := yearFromDay_spec d
  by_contra hne
  rcases lt_or_gt_of_ne hne with hlt | hgt
  · have := dayFromYear_mono (yearFromDay d + 1) y (by omega)
    omega
  · have := dayFromYear_mono (y + 1) (yearFromDay d) (by omega)
    omega

/-- The leap-year rule of the civil calendar agrees with `DaysInYear`. -/
theorem isLeapYear_iff (y : Int) : isLeapYear y = true ↔ daysInYear y = 366 := by
  unfold isLeapYear daysInYear
  simp only [decide_eq_true_eq]
  split_ifs <;> omega

theorem monthLength_pos (y m : Int) : 28 ≤ monthLength y m ∧ monthLength y m ≤ 31 := by
  unfold monthLength
  split_ifs <;> omega

/-- The day number of a date of the civil calendar is read back as that date by
`YearFromTime`, `MonthFromTime` and `DateFromTime`. -/
theorem civil_roundtrip (y mn dd : Int) (hm0 : 0 ≤ mn) (hm11 : mn ≤ 11) (hd1 : 1 ≤ dd)
    (hd : dd ≤ monthLength y mn) :
    yearFromDay (makeDay y mn dd) = y ∧ monthFromDay (makeDay y mn dd) = mn ∧
      dateFromDay (makeDay y mn dd) = dd := by
  have hdiv : mn / 12 = 0 := by omega
  have hmod : mn % 12 = mn := by omega
  have hmk : makeDay y mn dd
      = dayFromYear y + monthStart (if daysInYear y = 366 then 1 else 0) mn + dd - 1 := by
    simp [makeDay, hdiv, hmod]
  have hsucc := dayFromYear_succ y
  have hleap := isLeapYear_iff y
  have hy : yearFromDay (makeDay y mn dd) = y := by
    apply yearFromDay_unique
    · rw [hmk]
      have : 0 ≤ monthStart (if daysInYear y = 366 then 1 else 0) mn := by
        unfold monthStart
        split <;> (try split_ifs) <;> omega
      omega
    · rw [hmk, hsucc]
      unfold monthLength at hd
      rcases daysInYear_cases y with h365 | h366
      · have hl : isLeapYear y = false := by
          cases hb : isLeapYear y
          · rfl
          · have := hleap.1 hb
            omega
        rw [hl] at hd
        simp only [h365]
        interval_cases mn <;> simp [monthStart] at hd ⊢ <;> omega
      · have hl : isLeapYear y = true := hleap.2 h366
        rw [hl] at hd
        simp only [h366]
        interval_cases mn <;> simp [monthStart] at hd ⊢ <;> omega
  have hw : dayWithinYear (makeDay y mn dd)
      = monthStart (if daysInYear y = 366 then 1 else 0) mn + dd - 1 := by
    unfold dayWithinYear
    rw [hy, hmk]
    omega
  have hl : inLeapYear (makeDay y mn dd) = if daysInYear y = 366 then 1 else 0 := by
    unfold inLeapYear
    rw [hy]
  have hmf : monthFromDay (makeDay y mn dd) = mn := by
    unfold monthFromDay
    simp only [hw, hl]
    unfold monthLength at hd
    rcases daysInYear_cases y with h365 | h366
    · have hlp : isLeapYear y = false := by
        cases hb : isLeapYear y
        · rfl
        · have := hleap.1 hb
          omega
      rw [hlp] at hd
      simp only [h365]
      interval_cases mn <;> simp [monthStart] at hd ⊢ <;> omega
    · have hlp : isLeapYear y = true := hleap.2 h366
      rw [hlp] at hd
      simp only [h366]
      interval_cases mn <;> simp [monthStart] at hd ⊢ <;> omega
  refine ⟨hy, hmf, ?_⟩
  unfold dateFromDay
  simp only [hw, hl, hmf]
  rcases daysInYear_cases y with h365 | h366
  · simp only [h365]
    interval_cases mn <;> simp [monthStart] <;> omega
  · simp only [h366]
    interval_cases mn <;> simp [monthStart] <;> omega

theorem makeDay_month_end (yr m : Int) (hm0 : 0 ≤ m) (hm11 : m ≤ 11) :
    makeDay yr (m + 1) 0 = makeDay yr m (monthLength yr m) := by
  have hleap := isLeapYear_iff yr
  have hsucc := dayFromYear_succ yr
  have hdiv : m / 12 = 0 := by omega
  have hmod : m % 12 = m := by omega
  unfold makeDay monthLength
  simp only [hdiv, hmod]
  rcases daysInYear_cases yr with h365 | h366
  · have hl : isLeapYear yr = false := by
      cases hb : isLeapYear yr
      · rfl
      · have := hleap.1 hb
        omega
    interval_cases m <;> simp [monthStart, hl, h365, hsucc] <;> omega
  · have hl : isLeapYear yr = true := hleap.2 h366
    interval_cases m <;> simp [monthStart, hl, h366, hsucc] <;> omega

theorem dateFromDay_month_end (yr m : Int) (hm0 : 0 ≤ m) (hm11 : m ≤ 11) :
    dateFromDay (makeDay yr (m + 1) 0) = monthLength yr m := by
  rw [makeDay_month_end yr m hm0 hm11]
  exact (civil_roundtrip yr m _ hm0 hm11 (by have := monthLength_pos yr m; omega) le_rfl).2.2

theorem daysInMonth_some (y m v : Int) (hm0 : 0 ≤ m) (hm11 : m ≤ 11)
    (h : daysInMonth y m = some v) : v = monthLength (makeFullYear y) m := by
  unfold daysInMonth getDate newDate timeClip at h
  split_ifs at h
  · simp only [Option.map_some', Option.some.injEq] at h
    rw [← h, dateFromDay_month_end _ m hm0 hm11]
  · simp at h

theorem makeDay_eq (yr m d : Int) :
    makeDay yr m d = makeDay yr m 1 + (d - 1) := by
  simp only [makeDay]
  omega

theorem makeDay_first_bounds (yr m : Int) (hm0 : 0 ≤ m) (hm11 : m ≤ 11) :
    dayFromYear yr ≤ makeDay yr m 1 ∧
      makeDay yr m 1 + monthLength yr m ≤ dayFromYear (yr + 1) := by
  have hleap := isLeapYear_iff yr
  have hsucc := dayFromYear_succ yr
  have hdiv : m / 12 = 0 := by omega
  have hmod : m % 12 = m := by omega
  unfold makeDay monthLength
  simp only [hdiv, hmod]
  rcases daysInYear_cases yr with h365 | h366
  · have hl : isLeapYear yr = false := by
      cases hb : isLeapYear yr
      · rfl
      · have := hleap.1 hb
        omega
    interval_cases m <;> simp [monthStart, hl, h365, hsucc] <;> omega
  · have hl : isLeapYear yr = true := hleap.2 h366
    interval_cases m <;> simp [monthStart, hl, h366, hsucc] <;> omega

theorem makeFullYear_range (y : Int) (h1 : -271820 ≤ y) (h2 : y ≤ 275759) :
    -271820 ≤ makeFullYear y ∧ makeFullYear y ≤ 275759 := by
  unfold makeFullYear
  split_ifs <;> omega

theorem dayFromYear_range (yr : Int) (h1 : -271820 ≤ yr) (h2 : yr ≤ 275759) :
    -99999744 ≤ dayFromYear yr ∧ dayFromYear (yr + 1) ≤ 99999744 := by
  have ha := dayFromYear_mono (-271820) yr h1
  have hb := dayFromYear_mono (yr + 1) 275760 (by omega)
  have hc : dayFromYear (-271820) = -99999744 := by decide
  have hd : dayFromYear 275760 = 99999744 := by decide
  omega

/-- The cell computed by the loop body when the three dates of `renderCalendar` are valid. -/
theorem gridCell_of_valid (year month first D P : Int) (i : Nat)
    (hfirst : newDate year month 1 = some first)
    (hdim : daysInMonth year month = some D)
    (hprev : daysInMonth (prevYear year month) (prevMonth month) = some P) :
    gridCell year month i =
      if (i : Int) - (weekDay first + 6) % 7 + 1 < 1 then
        { dayNum := some (P + ((i : Int) - (weekDay first + 6) % 7 + 1)),
          cellYear := prevYear year month, cellMonth := prevMonth month, isOther := true,
          iso := isoFromParts (prevYear year month) (prevMonth month)
            (some (P + ((i : Int) - (weekDay first + 6) % 7 + 1))) }
      else if D < (i : Int) - (weekDay first + 6) % 7 + 1 then
        { dayNum := some ((i : Int) - (weekDay first + 6) % 7 + 1 - D),
          cellYear := if month = 11 then year + 1 else year,
          cellMonth := if month = 11 then 0 else month + 1, isOther := true,
          iso := isoFromParts (if month = 11 then year + 1 else year)
            (if month = 11 then 0 else month + 1)
            (some ((i : Int) - (weekDay first + 6) % 7 + 1 - D)) }
      else
        { dayNum := some ((i : Int) - (weekDay first + 6) % 7 + 1), cellYear := year,
          cellMonth := month, isOther := false,
          iso := isoFromParts year month (some ((i : Int) - (weekDay first + 6) % 7 + 1)) } := by
  simp only [gridCell, startWeekday, getDay, hfirst, hdim, hprev, Option.map_some', numSub,
    numAdd, numLt, decide_eq_true_eq]

theorem gridCell_of_first (year month first : Int) (i : Nat) (hm0 : 0 ≤ month)
    (hm11 : month ≤ 11) (hfirst : newDate year month 1 = some first) :
    ((i : Int) < (weekDay first + 6) % 7 → (gridCell year month i).isOther = true) ∧
    ((i : Int) = (weekDay first + 6) % 7 →
      gridCell year month i =
        { dayNum := some 1, cellYear := year, cellMonth := month, isOther := false,
          iso := isoFromParts year month (some 1) }) := by
  constructor
  · intro hi
    have hlt : (i : Int) - (weekDay first + 6) % 7 + 1 < 1 := by omega
    simp only [gridCell, startWeekday, getDay, hfirst, Option.map_some', numSub,
      numAdd, numLt, decide_eq_true_eq, hlt, if_true]
  · intro hi
    have h1 : (i : Int) - (weekDay first + 6) % 7 + 1 = 1 := by omega
    simp only [gridCell, startWeekday, getDay, hfirst, Option.map_some', numSub,
      numAdd, h1]
    have hn1 : numLt (some 1) (some 1) = false := by decide
    have hn2 : numLt (daysInMonth year month) (some 1) = false := by
      cases hd : daysInMonth year month with
      | none => rfl
      | some D =>
        have h := daysInMonth_some year month D hm0 hm11 hd
        have hp := monthLength_pos (makeFullYear year) month
        simp only [numLt, decide_eq_false_iff_not]
        omega
    simp [hn1, hn2]

theorem calendarCells_getElem? (year month : Int) (i : Nat) (hi : i < 42) :
    (calendarCells year month)[i]? = some (gridCell year month i) := by
  simp [calendarCells, totalCells, List.getElem?_map, List.getElem?_range, hi]

theorem pad2_one : pad2 (some 1) = "01" := by decide

/-- C9, as amended. For every month in 0..11 of a year for which
`new Date(year, month, 1)` is a valid date: the grid has exactly 42 day cells;
`startWeekday` is `(first.getDay() + 6) % 7`, lies in 0..6, and is the number of days from
a Monday to the first (counted from the `weekdayBase` Monday of the source); the cell at
index `startWeekday` is a this-month cell with day number 1 and ISO text
`year-month-01`; every cell at a smaller index is flagged other-month. -/
theorem calendar_first_of_month (year month first : Int) (hm0 : 0 ≤ month) (hm11 : month ≤ 11)
    (hfirst : newDate year month 1 = some first) :
    (calendarCells year month).length = 42 ∧
    ∃ sw : Nat, startWeekday year month = some (sw : Int) ∧ sw ≤ 6 ∧
      (sw : Int) = (weekDay first + 6) % 7 ∧
      (∃ base, weekdayBase = some base ∧ (sw : Int) = (first - base) % 7) ∧
      (calendarCells year month)[sw]? =
        some { dayNum := some 1, cellYear := year, cellMonth := month, isOther := false,
               iso := numText (some year) ++ "-" ++ pad2 (some (month + 1)) ++ "-01" } ∧
      ∀ i : Nat, i < sw →
        ∃ c, (calendarCells year month)[i]? = some c ∧ c.isOther = true := by
  refine ⟨by simp [calendarCells, totalCells], ((weekDay first + 6) % 7).toNat, ?_⟩
  have h0 : 0 ≤ (weekDay first + 6) % 7 := Int.emod_nonneg _ (by norm_num)
  have h7 : (weekDay first + 6) % 7 < 7 := Int.emod_lt_of_pos _ (by norm_num)
  have hcast : (((weekDay first + 6) % 7).toNat : Int) = (weekDay first + 6) % 7 :=
    Int.toNat_of_nonneg h0
  have hle : ((weekDay first + 6) % 7).toNat ≤ 6 := by omega
  refine ⟨?_, hle, hcast, ?_, ?_, ?_⟩
  · simp [startWeekday, getDay, hfirst, hcast]
  · refine ⟨19723, by decide, ?_⟩
    rw [hcast]
    unfold weekDay
    omega
  · rw [calendarCells_getElem? year month _ (by omega),
      (gridCell_of_first year month first _ hm0 hm11 hfirst).2 hcast]
    have happ : ∀ a : String, a ++ "-" ++ "01" = a ++ "-01" := by
      intro a
      rw [String.append_assoc]
      rfl
    simp [isoFromParts, pad2_one, happ]
  · intro i hi
    refine ⟨gridCell year month i, calendarCells_getElem? year month i (by omega), ?_⟩
    exact (gridCell_of_first year month first i hm0 hm11 hfirst).1 (by omega)

theorem nextDay_iterate (d : CivilDate) (j : Nat) (h : d.day + j ≤ monthLength d.year d.month) :
    nextDay^[j] d = { d with day := d.day + j } := by
  induction j generalizing d with
  | zero => simp
  | succ j ih =>
    rw [Function.iterate_succ_apply]
    have hstep : nextDay d = { d with day := d.day + 1 } := by
      unfold nextDay
      rw [if_pos (by push_cast at h; omega)]
    rw [hstep, ih]
    · simp only [CivilDate.mk.injEq, true_and]
      push_cast
      omega
    · simp only
      push_cast at h
      omega

theorem prevDay_iterate (d : CivilDate) (j : Nat) (h : (j : Int) < d.day) :
    prevDay^[j] d = { d with day := d.day - j } := by
  induction j generalizing d with
  | zero => simp
  | succ j ih =>
    rw [Function.iterate_succ_apply]
    have hstep : prevDay d = { d with day := d.day - 1 } := by
      unfold prevDay
      rw [if_pos (by push_cast at h; omega)]
    rw [hstep, ih]
    · simp only [CivilDate.mk.injEq, true_and]
      push_cast
      omega
    · simp only
      push_cast at h
      omega

/-- The date `k` days from the first of a month, for `k` from -6 to 41. -/
theorem addDays_first (y m k : Int) (hm0 : 0 ≤ m) (hm11 : m ≤ 11) (hk1 : -6 ≤ k)
    (hk2 : k ≤ 41) :
    addDays ⟨y, m, 1⟩ k =
      if k < 0 then
        ⟨prevYear y m, prevMonth m, monthLength (prevYear y m) (prevMonth m) + k + 1⟩
      else if k < monthLength y m then ⟨y, m, k + 1⟩
      else ⟨if m = 11 then y + 1 else y, if m = 11 then 0 else m + 1,
            k + 1 - monthLength y m⟩ := by
  have hD := monthLength_pos y m
  unfold addDays
  by_cases hneg : k < 0
  · rw [if_neg (by omega), if_pos hneg]
    obtain ⟨j, hj⟩ : ∃ j : Nat, (-k).toNat = j + 1 := ⟨(-k).toNat - 1, by omega⟩
    have hjk : (j : Int) = -k - 1 := by omega
    rw [hj, Function.iterate_succ_apply]
    have hP := monthLength_pos (prevYear y m) (prevMonth m)
    have hstep : prevDay ⟨y, m, 1⟩
        = ⟨prevYear y m, prevMonth m, monthLength (prevYear y m) (prevMonth m)⟩ := by
      unfold prevDay prevYear prevMonth
      by_cases h0 : m = 0
      · subst h0
        simp [monthLength]
      · have : 0 < m := by omega
        simp [h0, this]
    rw [hstep, prevDay_iterate _ j (by simp only; omega)]
    simp only [CivilDate.mk.injEq, true_and]
    omega
  · rw [if_pos (by omega), if_neg hneg]
    by_cases hin : k < monthLength y m
    · rw [if_pos hin, nextDay_iterate _ _ (by simp only; omega)]
      simp only [CivilDate.mk.injEq, true_and]
      omega
    · rw [if_neg hin]
      obtain ⟨j, hj⟩ : ∃ j : Nat, k.toNat = j + 1 + (monthLength y m - 1).toNat :=
        ⟨k.toNat - 1 - (monthLength y m - 1).toNat, by omega⟩
      have h1 : nextDay^[(monthLength y m - 1).toNat] ⟨y, m, 1⟩ = ⟨y, m, monthLength y m⟩ := by
        rw [nextDay_iterate ⟨y, m, 1⟩ _ (by simp only; omega)]
        simp only [CivilDate.mk.injEq, true_and]
        omega
      have h2 : nextDay ⟨y, m, monthLength y m⟩
          = ⟨if m = 11 then y + 1 else y, if m = 11 then 0 else m + 1, 1⟩ := by
        unfold nextDay
        simp only
        rw [if_neg (by omega)]
        by_cases h11 : m = 11
        · simp [h11]
        · have : m < 11 := by omega
          simp [h11, this]
      have hN := monthLength_pos (if m = 11 then y + 1 else y) (if m = 11 then 0 else m + 1)
      have h3 : nextDay^[j] ⟨if m = 11 then y + 1 else y, if m = 11 then 0 else m + 1, 1⟩
          = ⟨if m = 11 then y + 1 else y, if m = 11 then 0 else m + 1,
              k + 1 - monthLength y m⟩ := by
        rw [nextDay_iterate _ j (by simp only; omega)]
        simp only [CivilDate.mk.injEq, true_and]
        omega
      rw [hj, Function.iterate_add_apply, h1, Function.iterate_succ_apply, h2, h3]

/-- Reading a year 0..99 as 1900..1999 changes a month length only for February of year 0. -/
theorem monthLength_makeFullYear (y m : Int) (h : ¬(y = 0 ∧ m = 1)) :
    monthLength (makeFullYear y) m = monthLength y m := by
  unfold monthLength makeFullYear isLeapYear
  by_cases hm : m = 1
  · have hy : y ≠ 0 := fun e => h ⟨e, hm⟩
    simp only [hm, if_true]
    split_ifs <;> simp_all <;> omega
  · simp [hm]

/-- The first of every month of the years -271820..275759 is a valid `Date`. -/
theorem newDate_first_valid (y m : Int) (hm0 : 0 ≤ m) (hm11 : m ≤ 11) (h1 : -271820 ≤ y)
    (h2 : y ≤ 275759) : newDate y m 1 = some (makeDay (makeFullYear y) m 1) := by
  obtain ⟨hr1, hr2⟩ := makeFullYear_range y h1 h2
  obtain ⟨hb1, hb2⟩ := makeDay_first_bounds (makeFullYear y) m hm0 hm11
  obtain ⟨hc1, hc2⟩ := dayFromYear_range (makeFullYear y) hr1 hr2
  have hp := monthLength_pos (makeFullYear y) m
  unfold newDate timeClip
  rw [if_pos (by omega)]

/-- Within the range of `Date`, `daysInMonth(y, m)` is the length of month `m` in the year
the `Date` constructor reads for `y`. -/
theorem daysInMonth_valid (y m : Int) (hm0 : 0 ≤ m) (hm11 : m ≤ 11) (h1 : -271821 ≤ y)
    (h2 : y ≤ 275759) (hlow : y = -271821 → m = 11) :
    daysInMonth y m = some (monthLength (makeFullYear y) m) := by
  have hp := monthLength_pos (makeFullYear y) m
  obtain ⟨hb1, hb2⟩ := makeDay_first_bounds (makeFullYear y) m hm0 hm11
  have hend := makeDay_month_end (makeFullYear y) m hm0 hm11
  have heq := makeDay_eq (makeFullYear y) m (monthLength (makeFullYear y) m)
  have hval : timeClip (makeDay (makeFullYear y) (m + 1) 0)
      = some (makeDay (makeFullYear y) (m + 1) 0) := by
    unfold timeClip
    rw [if_pos]
    by_cases hy : y = -271821
    · have h11 := hlow hy
      subst hy
      subst h11
      decide
    · have hr := makeFullYear_range y (by omega) h2
      obtain ⟨hc1, hc2⟩ := dayFromYear_range (makeFullYear y) hr.1 hr.2
      omega
  unfold daysInMonth getDate newDate
  rw [hval, Option.map_some', dateFromDay_month_end _ m hm0 hm11]

/-- C10, as amended. For every year and month in 0..11 for which the three dates that
`renderCalendar` builds (the 1st of the month, the last day of the month and the last day
of the previous month) are valid, as they are for every year from -271820 to 275759
(`calendar_dates_valid`), other than February and March of year 0: every cell `i` in
0..41 resolves to the calendar date
`i - startWeekday` days after the 1st of the displayed month, with a day number between 1
and the length of the resolved month and the ISO text of the resolved date; cells before
the 1st are in the previous month (December of the previous year for January), cells past
the last day in the next month (January of the next year for December), and exactly those
cells are flagged other-month; every day of the displayed month is the day number of
exactly one cell that is not flagged. -/
theorem calendar_cells_are_dates (year month first dim dimPrev : Int) (hm0 : 0 ≤ month)
    (hm11 : month ≤ 11) (hfirst : newDate year month 1 = some first)
    (hdim : daysInMonth year month = some dim)
    (hprev : daysInMonth (prevYear year month) (prevMonth month) = some dimPrev)
    (hex : ¬(year = 0 ∧ (month = 1 ∨ month = 2))) :
    ∃ sw : Nat, startWeekday year month = some (sw : Int) ∧ sw ≤ 6 ∧
      (∀ i : Nat, i < 42 → ∃ c dn, (calendarCells year month)[i]? = some c ∧
          c.dayNum = some dn ∧
          (⟨c.cellYear, c.cellMonth, dn⟩ : CivilDate)
            = addDays ⟨year, month, 1⟩ ((i : Int) - sw) ∧
          1 ≤ dn ∧ dn ≤ monthLength c.cellYear c.cellMonth ∧
          c.iso = isoFromParts c.cellYear c.cellMonth (some dn) ∧
          (i < sw → c.cellYear = (if month = 0 then year - 1 else year) ∧
                    c.cellMonth = (if month = 0 then 11 else month - 1)) ∧
          ((sw : Int) + monthLength year month ≤ i →
              c.cellYear = (if month = 11 then year + 1 else year) ∧
              c.cellMonth = (if month = 11 then 0 else month + 1)) ∧
          (c.isOther = true ↔ (i < sw ∨ (sw : Int) + monthLength year month ≤ i))) ∧
      (∀ d : Int, 1 ≤ d → d ≤ monthLength year month →
          ∃! i : Nat, i < 42 ∧ ∃ c, (calendarCells year month)[i]? = some c ∧
            c.isOther = false ∧ c.dayNum = some d) := by
  have hpm : 0 ≤ prevMonth month ∧ prevMonth month ≤ 11 := by
    unfold prevMonth
    split_ifs <;> omega
  have hdv := daysInMonth_some year month dim hm0 hm11 hdim
  rw [monthLength_makeFullYear year month (fun h => hex ⟨h.1, Or.inl h.2⟩)] at hdv
  have hpv := daysInMonth_some (prevYear year month) (prevMonth month) dimPrev hpm.1 hpm.2 hprev
  rw [monthLength_makeFullYear (prevYear year month) (prevMonth month) (by
    unfold prevYear prevMonth
    intro h
    apply hex
    split_ifs at h <;> omega)] at hpv
  subst hdv
  subst hpv
  have h0 : 0 ≤ (weekDay first + 6) % 7 := Int.emod_nonneg _ (by norm_num)
  have h7 : (weekDay first + 6) % 7 < 7 := Int.emod_lt_of_pos _ (by norm_num)
  have hcast : (((weekDay first + 6) % 7).toNat : Int) = (weekDay first + 6) % 7 :=
    Int.toNat_of_nonneg h0
  have hD := monthLength_pos year month
  have hP := monthLength_pos (prevYear year month) (prevMonth month)
  have hN := monthLength_pos (if month = 11 then year + 1 else year)
    (if month = 11 then 0 else month + 1)
  have hcell := fun i : Nat => gridCell_of_valid year month first (monthLength year month)
    (monthLength (prevYear year month) (prevMonth month)) i hfirst hdim hprev
  refine ⟨((weekDay first + 6) % 7).toNat, by simp [startWeekday, getDay, hfirst, hcast],
    by omega, ?_, ?_⟩
  · intro i hi
    have hadd := addDays_first year month ((i : Int) - ((weekDay first + 6) % 7).toNat) hm0 hm11
      (by omega) (by omega)
    rw [hcast] at hadd ⊢
    rw [calendarCells_getElem? year month i hi, hcell i]
    by_cases hlt : (i : Int) - (weekDay first + 6) % 7 + 1 < 1
    · rw [if_pos hlt]
      rw [if_pos (by omega)] at hadd
      refine ⟨_, _, rfl, rfl, ?_, by omega, by first | omega | (dsimp only; omega), rfl, ?_, ?_, ?_⟩
      · simp only
        rw [hadd]
        simp only [CivilDate.mk.injEq, true_and]
        omega
      · intro _
        simp only [prevYear, prevMonth, and_self]
      · intro h
        omega
      · simp only [true_iff]
        left
        omega
    · rw [if_neg hlt]
      by_cases hgt : monthLength year month < (i : Int) - (weekDay first + 6) % 7 + 1
      · rw [if_pos hgt]
        rw [if_neg (by omega), if_neg (by omega)] at hadd
        refine ⟨_, _, rfl, rfl, ?_, by omega, by first | omega | (dsimp only; omega), rfl, ?_, ?_, ?_⟩
        · simp only
          rw [hadd]
        · intro h
          omega
        · intro _
          simp only [and_self]
        · simp only [true_iff]
          right
          omega
      · rw [if_neg hgt]
        rw [if_neg (by omega), if_pos (by omega)] at hadd
        refine ⟨_, _, rfl, rfl, ?_, by omega, by first | omega | (dsimp only; omega), rfl, ?_, ?_, ?_⟩
        · simp only
          rw [hadd]
        · intro h
          omega
        · intro h
          omega
        · simp only [Bool.false_eq_true, false_iff]
          omega
  · intro d hd1 hd2
    refine ⟨((weekDay first + 6) % 7 + d - 1).toNat, ⟨by omega, ?_⟩, ?_⟩
    · have hidx : ((((weekDay first + 6) % 7 + d - 1).toNat : Nat) : Int)
          = (weekDay first + 6) % 7 + d - 1 := Int.toNat_of_nonneg (by omega)
      refine ⟨_, calendarCells_getElem? year month _ (by omega), ?_⟩
      rw [hcell, hidx, if_neg (by omega), if_neg (by omega)]
      simp only [true_and, Option.some.injEq]
      omega
    · rintro j ⟨hj, c, hc, hoth, hday⟩
      rw [calendarCells_getElem? year month j hj, Option.some.injEq] at hc
      subst hc
      rw [hcell] at hoth hday
      by_cases hlt : (j : Int) - (weekDay first + 6) % 7 + 1 < 1
      · rw [if_pos hlt] at hoth
        simp at hoth
      · rw [if_neg hlt] at hoth hday
        by_cases hgt : monthLength year month < (j : Int) - (weekDay first + 6) % 7 + 1
        · rw [if_pos hgt] at hoth
          simp at hoth
        · rw [if_neg hgt] at hday
          simp only [Option.some.injEq] at hday
          omega

/-- C9, counterexample. The claim as stated fails for year 275761: `new Date(275761, 0, 1)`
is beyond the range of `Date` and invalid, `startWeekday` is `NaN`, every cell has day
number `NaN` and none is flagged other-month, so no cell has day number 1. -/
theorem calendar_invalid_date_year :
    startWeekday 275761 0 = none ∧
      ∀ c ∈ calendarCells 275761 0, c.dayNum = none ∧ c.isOther = false := by
  decide

theorem calendar_first_of_month_witness :
    newDate 2024 5 1 = some 19875 ∧ (calendarCells 2024 5).length = 42 ∧
      ∃ sw : Nat, startWeekday 2024 5 = some (sw : Int) ∧ sw ≤ 6 :=
  have h : newDate 2024 5 1 = some 19875 := by decide
  have r := calendar_first_of_month 2024 5 19875 (by decide) (by decide) h
  ⟨h, r.1, r.2.imp (fun _ hsw => ⟨hsw.1, hsw.2.1⟩)⟩

/-- C10, counterexample. The claim as stated fails in two ways. For year 275761 the dates
are invalid and every cell has day number `NaN`. For February of year 0 the `Date`
constructor reads year 0 as 1900, which is not a leap year: with `startWeekday` 3 the
cell at index 31 resolves to March 1 and is flagged other-month, while the date 28 days
after the 1st of February of year 0, a leap year, is February 29. -/
theorem calendar_cells_not_dates :
    (∀ c ∈ calendarCells 275761 0, c.dayNum = none) ∧
    (startWeekday 0 1 = some 3 ∧
      (calendarCells 0 1)[31]? =
        some { dayNum := some 1, cellYear := 0, cellMonth := 2, isOther := true,
               iso := "0-03-01" } ∧
      addDays ⟨0, 1, 1⟩ (31 - 3) = ⟨0, 1, 29⟩) := by
  refine ⟨by decide, by decide, by decide, ?_⟩
  rw [addDays_first 0 1 (31 - 3) (by decide) (by decide) (by decide) (by decide)]
  decide

theorem calendar_cells_are_dates_witness :
    newDate 2024 5 1 = some 19875 ∧ daysInMonth 2024 5 = some 30 ∧
    daysInMonth (prevYear 2024 5) (prevMonth 5) = some 31 ∧
    ∃ sw : Nat, startWeekday 2024 5 = some (sw : Int) ∧ sw ≤ 6 ∧
      ∀ d : Int, 1 ≤ d → d ≤ monthLength 2024 5 →
        ∃! i : Nat, i < 42 ∧ ∃ c, (calendarCells 2024 5)[i]? = some c ∧
          c.isOther = false ∧ c.dayNum = some d :=
  ⟨by decide, by decide, by decide,
   (calendar_cells_are_dates 2024 5 19875 30 31 (by decide) (by decide) (by decide) (by decide)
    (by decide) (by decide)).imp (fun _ h => ⟨h.1, h.2.1, h.2.2.2⟩)⟩

/-- The three dates that `renderCalendar` builds are valid for every month of the years
-271820..275759. -/
theorem calendar_dates_valid (year month : Int) (hm0 : 0 ≤ month) (hm11 : month ≤ 11)
    (hy1 : -271820 ≤ year) (hy2 : year ≤ 275759) :
    (∃ first, newDate year month 1 = some first) ∧
      (∃ dim, daysInMonth year month = some dim) ∧
      ∃ dimPrev, daysInMonth (prevYear year month) (prevMonth month) = some dimPrev := by
  have hpm : 0 ≤ prevMonth month ∧ prevMonth month ≤ 11 := by
    unfold prevMonth
    split_ifs <;> omega
  have hpy : -271821 ≤ prevYear year month ∧ prevYear year month ≤ 275759 ∧
      (prevYear year month = -271821 → prevMonth month = 11) := by
    unfold prevYear prevMonth
    split_ifs <;> omega
  exact ⟨⟨_, newDate_first_valid year month hm0 hm11 hy1 hy2⟩,
    ⟨_, daysInMonth_valid year month hm0 hm11 (by omega) hy2 (by omega)⟩,
    ⟨_, daysInMonth_valid (prevYear year month) (prevMonth month) hpm.1 hpm.2
      hpy.1 hpy.2.1 hpy.2.2⟩⟩
/-- `String(v)` does not throw on a value that is neither an array nor an object. -/
theorem toStr_primitive (env : Env) (v : JVal) (h : isPrimitive v = true) :
    ∃ s, toStr env v = some s := by
  cases v <;> simp [toStr, isPrimitive] at h ⊢

theorem isPrimitive_jsOr (a b : JVal) (ha : isPrimitive a = true) (hb : isPrimitive b = true) :
    isPrimitive (jsOr a b) = true := by
  unfold jsOr
  split <;> assumption

/-- The object literal of `cleanTasks` is built without a throw when the converted fields
of the raw entry hold no array and no object. -/
theorem cleanTask_returns (env : Env) (cats : List String) (x : JVal) (k : Nat)
    (h : PlainTaskFields x) : ∃ r, cleanTask env cats x k = some r := by
  have hid : isPrimitive (orUid env (x.get "id") k).1 = true := by
    unfold orUid
    split
    · exact h "id" (by simp)
    · rfl
  have hcat : isPrimitive (firstCat cats) = true := by
    cases cats <;> rfl
  obtain ⟨s1, h1⟩ := toStr_primitive env _ hid
  obtain ⟨s2, h2⟩ := toStr_primitive env _
    (isPrimitive_jsOr (x.get "title") (.str "") (h "title" (by simp)) rfl)
  obtain ⟨s3, h3⟩ := toStr_primitive env _
    (isPrimitive_jsOr (x.get "category") (firstCat cats) (h "category" (by simp)) hcat)
  obtain ⟨s4, h4⟩ : ∃ s, strOrEmpty env (x.get "dueDate") = some s := by
    unfold strOrEmpty
    split
    · exact toStr_primitive env _ (h "dueDate" (by simp))
    · exact ⟨_, rfl⟩
  obtain ⟨s5, h5⟩ := toStr_primitive env _
    (isPrimitive_jsOr (x.get "notes") (.str "") (h "notes" (by simp)) rfl)
  simp [cleanTask, h1, h2, h3, h4, h5]

/-- On a raw task list whose entries hold no array and no object in the converted fields,
`cleanTasks` returns. -/
theorem cleanTasks_returns (env : Env) (cats : List String) (xs : List JVal) (k : Nat)
    (h : ∀ x ∈ xs, PlainTaskFields x) : ∃ r, cleanTasks env cats (.arr xs) k = some r := by
  have hm : ∀ (l : List JVal) (k : Nat), (∀ x ∈ l, PlainTaskFields x) →
      ∃ r, mapTasks env cats l k = some r := by
    intro l
    induction l with
    | nil => intro k _; exact ⟨_, rfl⟩
    | cons a r ih =>
      intro k hl
      obtain ⟨⟨t, k1⟩, ht⟩ := cleanTask_returns env cats a k (hl a (by simp))
      obtain ⟨⟨ts, k2⟩, hts⟩ := ih k1 (fun x hx => hl x (by simp [hx]))
      exact ⟨(t :: ts, k2), by simp [mapTasks, ht, hts]⟩
  obtain ⟨⟨ts, k1⟩, hts⟩ := hm (xs.filter truthy) k
    (fun x hx => h x (List.mem_of_mem_filter hx))
  exact ⟨(ts.filter (fun t => decide (t.title ≠ "")), k1),
    by simp [cleanTasks, orEmptyArray, hts]⟩

theorem insertThrow_perm {α : Type} (c : α → α → Option JNum) (a : α) (l r : List α)
    (h : insertThrow c a l = some r) : r.Perm (a :: l) := by
  induction l generalizing r with
  | nil =>
    simp [insertThrow] at h
    subst h
    exact List.Perm.refl _
  | cons b t ih =>
    simp only [insertThrow] at h
    cases hc : c a b with
    | none => simp [hc] at h
    | some v =>
      simp only [hc] at h
      split_ifs at h
      · cases ht : insertThrow c a t with
        | none => simp [ht] at h
        | some r' =>
          simp [ht] at h
          subst h
          exact ((ih r' ht).cons b).trans (List.Perm.swap a b t)
      · simp at h
        subst h
        exact List.Perm.refl _

theorem sortInsertion_perm {α : Type} (c : α → α → Option JNum) (l r : List α)
    (h : sortInsertion c l = some r) : r.Perm l := by
  induction l generalizing r with
  | nil =>
    simp [sortInsertion] at h
    subst h
    exact List.Perm.refl _
  | cons a t ih =>
    simp only [sortInsertion, Option.bind_eq_some] at h
    obtain ⟨r', h1, h2⟩ := h
    exact (insertThrow_perm c a r' r h2).trans ((ih r' h1).cons a)

theorem insertThrow_isSome {α : Type} (c : α → α → Option JNum) (a : α) (l : List α)
    (h : ∀ y ∈ l, (c a y).isSome = true) : (insertThrow c a l).isSome = true := by
  induction l with
  | nil => rfl
  | cons b t ih =>
    have hb := h b (by simp)
    have ht := ih (fun y hy => h y (by simp [hy]))
    simp only [insertThrow]
    cases hc : c a b with
    | none => simp [hc] at hb
    | some v =>
      simp only
      split_ifs
      · cases hi : insertThrow c a t with
        | none => simp [hi] at ht
        | some r => rfl
      · rfl

theorem sortInsertion_isSome {α : Type} (c : α → α → Option JNum) (l : List α)
    (h : ∀ x ∈ l, ∀ y ∈ l, (c x y).isSome = true) : (sortInsertion c l).isSome = true := by
  induction l with
  | nil => rfl
  | cons a t ih =>
    have ht := ih (fun x hx y hy => h x (by simp [hx]) y (by simp [hy]))
    cases hs : sortInsertion c t with
    | none => simp [hs] at ht
    | some r =>
      simp only [sortInsertion, hs, Option.some_bind]
      apply insertThrow_isSome
      intro y hy
      exact h a (by simp) y (by simp [((sortInsertion_perm c t r hs).mem_iff).1 hy])

theorem signOf_cases (v : JNum) (s : Int) (h : signOf v = some s) : s = -1 ∨ s = 0 ∨ s = 1 := by
  cases v with
  | nan => simp [signOf] at h
  | negInf => simp [signOf] at h; omega
  | posInf => simp [signOf] at h; omega
  | fin q =>
    simp only [signOf, Option.some.injEq] at h
    split_ifs at h <;> omega

theorem outcome_cases {α : Type} (c : α → α → Option JNum) (a b : α)
    (h : (outcome c a b).isSome = true) :
    outcome c a b = some (-1) ∨ outcome c a b = some 0 ∨ outcome c a b = some 1 := by
  cases ho : outcome c a b with
  | none => simp [ho] at h
  | some s =>
    obtain ⟨v, hv, hs⟩ : ∃ v, c a b = some v ∧ signOf v = some s := by
      simpa [outcome, Option.bind_eq_some] using ho
    rcases signOf_cases v s hs with h1 | h1 | h1 <;> simp [h1]

theorem insertThrow_eq_orderedInsert {α : Type} (c : α → α → Option JNum) (a : α)
    (l : List α) (h : ∀ y ∈ l, (outcome c a y).isSome = true) :
    insertThrow c a l = some (l.orderedInsert (fun x y => notAfter c x y = true) a) := by
  induction l with
  | nil => rfl
  | cons b t ih =>
    have hb := h b (by simp)
    have ht := ih (fun y hy => h y (by simp [hy]))
    cases hc : c a b with
    | none => simp [outcome, hc] at hb
    | some v =>
      have ho : outcome c a b = signOf v := by simp [outcome, hc]
      simp only [insertThrow, hc, List.orderedInsert]
      by_cases h1 : signOf v = some 1
      · have hna : ¬ (notAfter c a b = true) := by simp [notAfter, ho, h1]
        simp [h1, hna, ht]
      · have hna : notAfter c a b = true := by
          rcases outcome_cases c a b hb with h2 | h2 | h2
          · simp [notAfter, h2]
          · simp [notAfter, h2]
          · exact absurd (ho ▸ h2) h1
        simp [h1, hna]

theorem sortInsertion_eq_insertionSort {α : Type} (c : α → α → Option JNum) (l : List α)
    (h : ∀ x ∈ l, ∀ y ∈ l, (outcome c x y).isSome = true) :
    sortInsertion c l = some (l.insertionSort (fun x y => notAfter c x y = true)) := by
  induction l with
  | nil => rfl
  | cons a t ih =>
    have ht := ih (fun x hx y hy => h x (by simp [hx]) y (by simp [hy]))
    simp only [sortInsertion, ht, Option.some_bind, List.insertionSort]
    apply insertThrow_eq_orderedInsert
    intro y hy
    exact h a (by simp) y (by simp [(List.mem_insertionSort _).1 hy])

theorem pairwise_orderedInsert {α : Type} (r : α → α → Prop) [DecidableRel r] (a : α)
    (l : List α) (hp : l.Pairwise r) (htot : ∀ y ∈ l, r a y ∨ r y a)
    (htr : ∀ y ∈ l, ∀ z ∈ l, r a y → r y z → r a z) :
    (l.orderedInsert r a).Pairwise r := by
  induction l with
  | nil => simp
  | cons b t ih =>
    rw [List.pairwise_cons] at hp
    simp only [List.orderedInsert]
    split_ifs with hab
    · rw [List.pairwise_cons]
      refine ⟨?_, List.pairwise_cons.2 hp⟩
      intro y hy
      rcases List.mem_cons.1 hy with rfl | hy'
      · exact hab
      · exact htr b (by simp) y (by simp [hy']) hab (hp.1 y hy')
    · rw [List.pairwise_cons]
      refine ⟨?_, ih hp.2 (fun y hy => htot y (by simp [hy]))
        (fun y hy z hz => htr y (by simp [hy]) z (by simp [hz]))⟩
      intro z hz
      rcases (List.mem_orderedInsert r).1 hz with rfl | hz'
      · rcases htot b (by simp) with h1 | h1
        · exact absurd h1 hab
        · exact h1
      · exact hp.1 z hz'

theorem pairwise_insertionSort {α : Type} (r : α → α → Prop) [DecidableRel r] (l : List α)
    (htot : ∀ x ∈ l, ∀ y ∈ l, r x y ∨ r y x)
    (htr : ∀ x ∈ l, ∀ y ∈ l, ∀ z ∈ l, r x y → r y z → r x z) :
    (l.insertionSort r).Pairwise r := by
  induction l with
  | nil => simp
  | cons a t ih =>
    simp only [List.insertionSort]
    apply pairwise_orderedInsert
    · exact ih (fun x hx y hy => htot x (by simp [hx]) y (by simp [hy]))
        (fun x hx y hy z hz => htr x (by simp [hx]) y (by simp [hy]) z (by simp [hz]))
    · intro y hy
      exact htot a (by simp) y (by simp [(List.mem_insertionSort r).1 hy])
    · intro y hy z hz
      exact htr a (by simp) y (by simp [(List.mem_insertionSort r).1 hy]) z
        (by simp [(List.mem_insertionSort r).1 hz])

theorem consistent_total {α : Type} (c : α → α → Option JNum) (l : List α)
    (h : Consistent c l) (x : α) (hx : x ∈ l) (y : α) (hy : y ∈ l) :
    notAfter c x y = true ∨ notAfter c y x = true := by
  rcases outcome_cases c x y (h.1 x hx y hy) with h1 | h1 | h1
  · left; simp [notAfter, h1]
  · left; simp [notAfter, h1]
  · right
    have := (h.2.1 y hy x hx).2 h1
    simp [notAfter, this]

/-- Insertion sort meets the requirements of ECMAScript on `Array.prototype.sort`. -/
theorem insertionBuiltins_conforms : SortConforms insertionBuiltins := by
  refine ⟨?_, ?_, ?_⟩
  · intro α c l r h
    exact sortInsertion_perm c l r h
  · intro α c l h
    exact sortInsertion_isSome c l h
  · intro α c l r hc h
    have he := sortInsertion_eq_insertionSort c l hc.1
    have hr : r = l.insertionSort (fun x y => notAfter c x y = true) := by
      have : sortInsertion c l = some r := h
      rw [he] at this
      exact (Option.some.inj this).symm
    subst hr
    refine ⟨pairwise_insertionSort _ l (consistent_total c l hc) hc.2.2, ?_⟩
    intro x y hxy h0
    exact List.pair_sublist_insertionSort (by simp [notAfter, h0]) hxy

theorem toNumber_primitive (env : Env) (v : JVal) (h : isPrimitive v = true) :
    (toNumber env v).isSome = true := by
  cases v <;> simp [toNumber, isPrimitive] at h ⊢

theorem taskCompare_isSome (env : Env) (b : Builtins) (x y : Task)
    (hx : isPrimitive x.updatedAt = true) (hy : isPrimitive y.updatedAt = true) :
    (taskCompare env b x y).isSome = true := by
  have h1 := toNumber_primitive env (jsOr y.updatedAt (.num (.fin 0)))
    (isPrimitive_jsOr _ _ hy rfl)
  have h2 := toNumber_primitive env (jsOr x.updatedAt (.num (.fin 0)))
    (isPrimitive_jsOr _ _ hx rfl)
  obtain ⟨ny, h3⟩ := Option.isSome_iff_exists.1 h1
  obtain ⟨nx, h4⟩ := Option.isSome_iff_exists.1 h2
  unfold taskCompare
  split_ifs <;> simp [h3, h4]

theorem filteredTasks_active (s : State) :
    filteredTasks (withFilter s "active") = s.tasks.filter (fun t => !t.completed) := by
  simp [filteredTasks, withFilter]

theorem filteredTasks_completed (s : State) :
    filteredTasks (withFilter s "completed") = s.tasks.filter (fun t => t.completed) := by
  simp [filteredTasks, withFilter]

theorem filteredTasks_all (s : State) : filteredTasks (withFilter s "all") = s.tasks := by
  simp [filteredTasks, withFilter]

/-- C11: for every task list, under a conforming `sort`, `visibleTasks` with filter
'active' returns a rearrangement of exactly the tasks with `completed = false`, with
filter 'completed' of exactly the tasks with `completed = true`, and with filter 'all' a
permutation of the full task list, which is the disjoint union of the 'active' and the
'completed' results; and the three calls return when every `updatedAt` is a primitive
value. -/
theorem visibleTasks_filters (env : Env) (b : Builtins) (hs : SortConforms b) (s : State) :
    (∀ r, visibleTasks env b (withFilter s "active") = some r →
      r.Perm (s.tasks.filter (fun t => !t.completed)) ∧ ∀ t ∈ r, t.completed = false) ∧
    (∀ r, visibleTasks env b (withFilter s "completed") = some r →
      r.Perm (s.tasks.filter (fun t => t.completed)) ∧ ∀ t ∈ r, t.completed = true) ∧
    (∀ r, visibleTasks env b (withFilter s "all") = some r → r.Perm s.tasks) ∧
    (∀ ra rc rall, visibleTasks env b (withFilter s "active") = some ra →
      visibleTasks env b (withFilter s "completed") = some rc →
      visibleTasks env b (withFilter s "all") = some rall → rall.Perm (ra ++ rc)) ∧
    ((∀ t ∈ s.tasks, isPrimitive t.updatedAt = true) →
      (visibleTasks env b (withFilter s "active")).isSome = true ∧
      (visibleTasks env b (withFilter s "completed")).isSome = true ∧
      (visibleTasks env b (withFilter s "all")).isSome = true) := by
  have hA : ∀ r, visibleTasks env b (withFilter s "active") = some r →
      r.Perm (s.tasks.filter (fun t => !t.completed)) := by
    intro r h
    have := hs.1 _ _ _ _ h
    rwa [filteredTasks_active] at this
  have hC : ∀ r, visibleTasks env b (withFilter s "completed") = some r →
      r.Perm (s.tasks.filter (fun t => t.completed)) := by
    intro r h
    have := hs.1 _ _ _ _ h
    rwa [filteredTasks_completed] at this
  have hAll : ∀ r, visibleTasks env b (withFilter s "all") = some r → r.Perm s.tasks := by
    intro r h
    have := hs.1 _ _ _ _ h
    rwa [filteredTasks_all] at this
  refine ⟨?_, ?_, hAll, ?_, ?_⟩
  · intro r h
    refine ⟨hA r h, ?_⟩
    intro t ht
    have := ((hA r h).mem_iff).1 ht
    simpa using (List.mem_filter.1 this).2
  · intro r h
    refine ⟨hC r h, ?_⟩
    intro t ht
    have := ((hC r h).mem_iff).1 ht
    simpa using (List.mem_filter.1 this).2
  · intro ra rc rall h1 h2 h3
    have hsplit : (s.tasks.filter (fun t => !t.completed) ++ s.tasks.filter (fun t => t.completed)).Perm
        s.tasks := by
      have := List.filter_append_perm (fun t : Task => !t.completed) s.tasks
      simpa using this
    exact (hAll rall h3).trans (hsplit.symm.trans (((hA ra h1).symm).append ((hC rc h2).symm)))
  · intro hp
    have hsome : ∀ f, (visibleTasks env b (withFilter s f)).isSome = true := by
      intro f
      apply hs.2.1
      intro x hx y hy
      have hsub : ∀ t, t ∈ filteredTasks (withFilter s f) → t ∈ s.tasks := by
        intro t ht
        simp only [filteredTasks, withFilter] at ht
        split_ifs at ht
        · exact List.mem_of_mem_filter (List.mem_of_mem_filter ht)
        · exact List.mem_of_mem_filter ht
        · exact List.mem_of_mem_filter ht
        · exact ht
      exact taskCompare_isSome env b x y (hp x (hsub x hx)) (hp y (hsub y hy))
    exact ⟨hsome _, hsome _, hsome _⟩

theorem keySign_cases {κ : Type} [LinearOrder κ] (a b : κ) :
    (keySign a b = -1 ↔ a < b) ∧ (keySign a b = 0 ↔ a = b) ∧ (keySign a b = 1 ↔ b < a) := by
  unfold keySign
  rcases lt_trichotomy a b with h | h | h
  · have h1 : ¬ b < a := not_lt.2 h.le
    have h2 : a ≠ b := ne_of_lt h
    simp [h, h1, h2]
  · subst h
    simp
  · have h1 : ¬ a < b := not_lt.2 h.le
    have h2 : a ≠ b := ne_of_gt h
    simp [h, h1, h2]

theorem notAfter_of_key {α κ : Type} [LinearOrder κ] (c : α → α → Option JNum) (k : α → κ)
    (x y : α) (h : outcome c x y = some (keySign (k x) (k y))) :
    (notAfter c x y = true ↔ k x ≤ k y) ∧ (outcome c x y = some 0 ↔ k x = k y) := by
  obtain ⟨h1, h2, h3⟩ := keySign_cases (k x) (k y)
  constructor
  · simp only [notAfter, h, Option.some.injEq, Bool.or_eq_true, decide_eq_true_eq, h1, h2]
    exact le_iff_lt_or_eq.symm
  · simp only [h, Option.some.injEq, h2]

/-- A comparator that reports the order of keys in a linear order is consistent. -/
theorem consistent_of_key {α κ : Type} [LinearOrder κ] (c : α → α → Option JNum)
    (l : List α) (k : α → κ)
    (h : ∀ x ∈ l, ∀ y ∈ l, outcome c x y = some (keySign (k x) (k y))) : Consistent c l := by
  refine ⟨?_, ?_, ?_⟩
  · intro x hx y hy
    simp [h x hx y hy]
  · intro x hx y hy
    rw [h x hx y hy, h y hy x hx]
    simp only [Option.some.injEq]
    rw [(keySign_cases (k x) (k y)).1, (keySign_cases (k y) (k x)).2.2]
  · intro x hx y hy z hz h1 h2
    rw [(notAfter_of_key c k x y (h x hx y hy)).1] at h1
    rw [(notAfter_of_key c k y z (h y hy z hz)).1] at h2
    rw [(notAfter_of_key c k x z (h x hx z hz)).1]
    exact le_trans h1 h2

theorem isoNumber_shape (s : String) (n : Nat) (h : isoNumber s = some n) :
    ∃ y1 y2 y3 y4 m1 m2 d1 d2, s.data = [y1, y2, y3, y4, '-', m1, m2, '-', d1, d2] ∧
      digitsValue [y1, y2, y3, y4, m1, m2, d1, d2] = some n := by
  unfold isoNumber at h
  split at h
  · rename_i y1 y2 y3 y4 m1 m2 d1 d2 heq
    exact ⟨y1, y2, y3, y4, m1, m2, d1, d2, heq, h⟩
  · simp at h

theorem digitOf_some (c : Char) (d : Nat) (h : digitOf c = some d) :
    d ≤ 9 ∧ c.toNat = d + 48 := by
  unfold digitOf at h
  split_ifs at h with hc
  simp only [Option.some.injEq] at h
  omega

theorem digitOf_inj (c c2 : Char) (d : Nat) (h : digitOf c = some d) (h2 : digitOf c2 = some d) :
    c = c2 := by
  have e : c.toNat = c2.toNat := by
    have := digitOf_some c d h
    have := digitOf_some c2 d h2
    omega
  rw [← Char.ofNat_toNat c, ← Char.ofNat_toNat c2, e]

theorem digitsValue_cons (c : Char) (r : List Char) (n : Nat)
    (h : digitsValue (c :: r) = some n) :
    ∃ d v, digitOf c = some d ∧ digitsValue r = some v ∧ n = d * 10 ^ r.length + v := by
  simp only [digitsValue] at h
  cases hd : digitOf c with
  | none => simp [hd] at h
  | some d =>
    cases hv : digitsValue r with
    | none => simp [hd, hv] at h
    | some v =>
      simp [hd, hv] at h
      exact ⟨d, v, rfl, rfl, h.symm⟩

theorem digitsValue_lt (l : List Char) (n : Nat) (h : digitsValue l = some n) :
    n < 10 ^ l.length := by
  induction l generalizing n with
  | nil =>
    simp [digitsValue] at h
    subst h
    simp
  | cons c r ih =>
    obtain ⟨d, v, hd, hv, rfl⟩ := digitsValue_cons c r n h
    have h1 := (digitOf_some c d hd).1
    have h2 := ih v hv
    simp only [List.length_cons, pow_succ]
    nlinarith

theorem digitsValue_inj (l l2 : List Char) (n : Nat) (hlen : l.length = l2.length)
    (h : digitsValue l = some n) (h2 : digitsValue l2 = some n) : l = l2 := by
  induction l generalizing l2 n with
  | nil =>
    cases l2 with
    | nil => rfl
    | cons _ _ => simp at hlen
  | cons c r ih =>
    cases l2 with
    | nil => simp at hlen
    | cons c2 r2 =>
      simp only [List.length_cons, add_left_inj] at hlen
      obtain ⟨d, v, hd, hv, e1⟩ := digitsValue_cons c r n h
      obtain ⟨d2, v2, hd2, hv2, e2⟩ := digitsValue_cons c2 r2 n h2
      have b1 := digitsValue_lt r v hv
      have b2 := digitsValue_lt r2 v2 hv2
      rw [← hlen] at b2 e2
      have hdd : d = d2 := by
        by_contra hne
        rcases Nat.lt_or_gt_of_ne hne with hlt | hlt
        · have : (d + 1) * 10 ^ r.length ≤ d2 * 10 ^ r.length :=
            Nat.mul_le_mul_right _ hlt
          nlinarith
        · have : (d2 + 1) * 10 ^ r.length ≤ d * 10 ^ r.length :=
            Nat.mul_le_mul_right _ hlt
          nlinarith
      subst hdd
      have hvv : v = v2 := by omega
      subst hvv
      rw [digitOf_inj c c2 d hd hd2, ih r2 v hlen hv hv2]

/-- Two ISO dates with the same number are the same string. -/
theorem isoNumber_inj (a b : String) (n : Nat) (ha : isoNumber a = some n)
    (hb : isoNumber b = some n) : a = b := by
  obtain ⟨y1, y2, y3, y4, m1, m2, d1, d2, ea, va⟩ := isoNumber_shape a n ha
  obtain ⟨z1, z2, z3, z4, n1, n2, e1, e2, eb, vb⟩ := isoNumber_shape b n hb
  have := digitsValue_inj [y1, y2, y3, y4, m1, m2, d1, d2] [z1, z2, z3, z4, n1, n2, e1, e2] n
    rfl va vb
  simp only [List.cons.injEq, and_true] at this
  obtain ⟨h1, h2, h3, h4, h5, h6, h7, h8⟩ := this
  have hdata : a.data = b.data := by
    rw [ea, eb, h1, h2, h3, h4, h5, h6, h7, h8]
  cases a
  cases b
  simp only at hdata
  rw [hdata]

theorem sortKey_lt (x y : Task) :
    sortKey x < sortKey y ↔
      (x.completed = false ∧ y.completed = true) ∨
      (x.completed = y.completed ∧
        (dueNumber x < dueNumber y ∨
          (dueNumber x = dueNumber y ∧
            (rankNum y < rankNum x ∨ (rankNum x = rankNum y ∧ updNum y < updNum x))))) := by
  simp only [sortKey, Prod.Lex.lt_iff, Bool.lt_iff, neg_lt_neg_iff, neg_inj]

theorem sortKey_eq (x y : Task) :
    sortKey x = sortKey y ↔
      x.completed = y.completed ∧ dueNumber x = dueNumber y ∧ rankNum x = rankNum y ∧
        updNum x = updNum y := by
  simp only [sortKey, EmbeddingLike.apply_eq_iff_eq, Prod.mk.injEq, neg_inj]

theorem sortKey_le (x y : Task) : sortKey x ≤ sortKey y ↔ InVisibleOrder x y := by
  rw [le_iff_lt_or_eq, sortKey_lt, sortKey_eq]
  unfold InVisibleOrder
  constructor
  · rintro ((⟨h1, h2⟩ | ⟨h1, h2 | ⟨h2, h3 | ⟨h3, h4⟩⟩⟩) | ⟨h1, h2, h3, h4⟩)
    · exact ⟨Or.inl h1, fun h => by rw [h1, h2] at h; exact absurd h (by decide)⟩
    · refine ⟨?_, fun _ => ⟨h2.le, fun h => absurd h (ne_of_lt h2)⟩⟩
      cases hx : x.completed
      · exact Or.inl rfl
      · exact Or.inr (by rw [← h1, hx])
    · refine ⟨?_, fun _ => ⟨h2.le, fun _ => ⟨h3.le, fun h => absurd h.symm (ne_of_lt h3)⟩⟩⟩
      cases hx : x.completed
      · exact Or.inl rfl
      · exact Or.inr (by rw [← h1, hx])
    · refine ⟨?_, fun _ => ⟨h2.le, fun _ => ⟨h3.symm.le, fun _ => h4.le⟩⟩⟩
      cases hx : x.completed
      · exact Or.inl rfl
      · exact Or.inr (by rw [← h1, hx])
    · refine ⟨?_, fun _ => ⟨h2.le, fun _ => ⟨h3.symm.le, fun _ => h4.symm.le⟩⟩⟩
      cases hx : x.completed
      · exact Or.inl rfl
      · exact Or.inr (by rw [← h1, hx])
  · rintro ⟨h1, h2⟩
    by_cases hc : x.completed = y.completed
    · obtain ⟨h3, h4⟩ := h2 hc
      rcases lt_or_eq_of_le h3 with h5 | h5
      · exact Or.inl (Or.inr ⟨hc, Or.inl h5⟩)
      · obtain ⟨h6, h7⟩ := h4 h5
        rcases lt_or_eq_of_le h6 with h8 | h8
        · exact Or.inl (Or.inr ⟨hc, Or.inr ⟨h5, Or.inl h8⟩⟩)
        · rcases lt_or_eq_of_le (h7 h8.symm) with h9 | h9
          · exact Or.inl (Or.inr ⟨hc, Or.inr ⟨h5, Or.inr ⟨h8.symm, h9⟩⟩⟩)
          · exact Or.inr ⟨hc, h5, h8.symm, h9.symm⟩
    · left
      left
      rcases h1 with h1 | h1
      · refine ⟨h1, ?_⟩
        cases hy : y.completed
        · exact absurd (h1.trans hy.symm) hc
        · rfl
      · refine ⟨?_, h1⟩
        cases hx : x.completed
        · rfl
        · exact absurd (hx.trans h1.symm) hc

theorem toNumber_updatedAt (env : Env) (t : Task) (h : isFiniteNum t.updatedAt = true) :
    toNumber env (jsOr t.updatedAt (.num (.fin 0))) = some (.fin (updNum t)) := by
  unfold updNum
  cases hu : t.updatedAt with
  | num n =>
    cases n with
    | fin q =>
      by_cases hq : q = 0
      · simp [jsOr, truthy, toNumber, hq]
      · simp [jsOr, truthy, toNumber, hq]
    | _ => simp [hu, isFiniteNum] at h
  | _ => simp [hu, isFiniteNum] at h

theorem prioRank_enum (t : Task) (h : t.priority ∈ ["low", "medium", "high"]) :
    prioRank t.priority = .num (rankNum t) := by
  unfold rankNum
  simp only [List.mem_cons, List.mem_singleton, List.not_mem_nil, or_false] at h
  rcases h with h | h | h <;> rw [h] <;> rfl

theorem dueNumber_eq_iff (x y : Task) (hx : (isoNumber (dueOrLast x)).isSome = true)
    (hy : (isoNumber (dueOrLast y)).isSome = true) :
    dueNumber x = dueNumber y ↔ dueOrLast x = dueOrLast y := by
  obtain ⟨n, hn⟩ := Option.isSome_iff_exists.1 hx
  obtain ⟨m, hm⟩ := Option.isSome_iff_exists.1 hy
  constructor
  · intro h
    simp only [dueNumber, hn, hm, Option.getD_some] at h
    subst h
    exact isoNumber_inj _ _ _ hn hm
  · intro h
    simp only [dueNumber, h]

theorem signOf_intCast (n : Int) :
    signOf (.fin (n : ℚ)) = some (if n < 0 then -1 else if n = 0 then 0 else 1) := by
  simp [signOf]

theorem signOf_sub (p q : ℚ) :
    signOf (.fin (p - q)) = some (if p < q then -1 else if p = q then 0 else 1) := by
  simp [signOf, sub_neg, sub_eq_zero]

theorem signOf_intSub (m n : Int) :
    signOf (.fin ((m - n : Int) : ℚ)) = some (if m < n then -1 else if m = n then 0 else 1) := by
  rw [signOf_intCast]
  simp [sub_neg, sub_eq_zero]

/-- On sanitized tasks whose due dates `localeCompare` orders chronologically, the
comparator of `visibleTasks` reports the comparison of the sort keys. -/
theorem taskCompare_outcome (env : Env) (b : Builtins) (x y : Task)
    (hx : SortableTask x) (hy : SortableTask y)
    (hl : (b.localeCompare (dueOrLast x) (dueOrLast y) < 0 ↔ dueNumber x < dueNumber y) ∧
          (0 < b.localeCompare (dueOrLast x) (dueOrLast y) ↔ dueNumber y < dueNumber x)) :
    outcome (taskCompare env b) x y = some (keySign (sortKey x) (sortKey y)) := by
  obtain ⟨hx1, hx2, hx3⟩ := hx
  obtain ⟨hy1, hy2, hy3⟩ := hy
  have hd := dueNumber_eq_iff x y hx3 hy3
  have hpx := prioRank_enum x hx1
  have hpy := prioRank_enum y hy1
  obtain ⟨k1, k2, k3⟩ := keySign_cases (sortKey x) (sortKey y)
  rw [sortKey_lt] at k1
  rw [sortKey_eq] at k2
  rw [sortKey_lt] at k3
  unfold outcome taskCompare
  by_cases hc : x.completed = y.completed
  · rw [if_neg (not_not.2 hc)]
    by_cases hdue : dueOrLast x = dueOrLast y
    · rw [if_neg (not_not.2 hdue)]
      have hde := hd.2 hdue
      rw [hpx, hpy]
      by_cases hr : rankNum x = rankNum y
      · rw [if_neg (by simp [hr])]
        rw [toNumber_updatedAt env x hx2, toNumber_updatedAt env y hy2]
        simp only [Option.some_bind, jsSub, signOf_sub]
        rcases lt_trichotomy (updNum y) (updNum x) with h | h | h
        · rw [k1.2 (Or.inr ⟨hc, Or.inr ⟨hde, Or.inr ⟨hr, h⟩⟩⟩), if_pos h]
        · rw [k2.2 ⟨hc, hde, hr, h.symm⟩, if_neg (by rw [h]; exact lt_irrefl _), if_pos h]
        · rw [k3.2 (Or.inr ⟨hc.symm, Or.inr ⟨hde.symm, Or.inr ⟨hr.symm, h⟩⟩⟩),
            if_neg (not_lt_of_lt h), if_neg (ne_of_gt h)]
      · rw [if_pos (by simpa using hr)]
        simp only [Option.some_bind, rankSub, signOf_intSub]
        rcases lt_trichotomy (rankNum y) (rankNum x) with h | h | h
        · rw [k1.2 (Or.inr ⟨hc, Or.inr ⟨hde, Or.inl h⟩⟩), if_pos h]
        · exact absurd h.symm hr
        · rw [k3.2 (Or.inr ⟨hc.symm, Or.inr ⟨hde.symm, Or.inl h⟩⟩),
            if_neg (not_lt_of_lt h), if_neg (ne_of_gt h)]
    · rw [if_pos hdue]
      have hne : dueNumber x ≠ dueNumber y := fun h => hdue (hd.1 h)
      simp only [Option.some_bind, signOf_intCast]
      rcases lt_or_gt_of_ne hne with h | h
      · have h1 := hl.1.2 h
        rw [k1.2 (Or.inr ⟨hc, Or.inl h⟩), if_pos h1]
      · have h1 := hl.2.2 h
        rw [k3.2 (Or.inr ⟨hc.symm, Or.inl h⟩), if_neg (not_lt_of_lt h1), if_neg (ne_of_gt h1)]
  · rw [if_pos hc]
    cases hxc : x.completed <;> cases hyc : y.completed
    · exact absurd (hxc.trans hyc.symm) hc
    · rw [k1.2 (Or.inl ⟨hxc, hyc⟩)]
      simp [signOf]
    · rw [k3.2 (Or.inl ⟨hyc, hxc⟩)]
      simp [signOf]
    · exact absurd (hxc.trans hyc.symm) hc

theorem filteredTasks_sublist (s : State) : (filteredTasks s).Sublist s.tasks := by
  unfold filteredTasks
  simp only
  split_ifs
  · exact (List.filter_sublist _).trans (List.filter_sublist _)
  · exact List.filter_sublist _
  · exact List.filter_sublist _
  · exact List.Sublist.refl _

theorem taskCompare_consistent (env : Env) (b : Builtins) (l : List Task)
    (ht : ∀ t ∈ l, SortableTask t) (hl : OrdersDueDates b.localeCompare l) :
    ∀ x ∈ l, ∀ y ∈ l, outcome (taskCompare env b) x y = some (keySign (sortKey x) (sortKey y)) :=
  fun x hx y hy => taskCompare_outcome env b x y (ht x hx) (ht y hy) (hl x hx y hy)

theorem outcome_isSome {α : Type} (c : α → α → Option JNum) (x y : α)
    (h : (outcome c x y).isSome = true) : (c x y).isSome = true := by
  unfold outcome at h
  cases hc : c x y with
  | none => simp [hc] at h
  | some v => rfl

/-- On sanitized tasks `visibleTasks` returns, and its result is in the order of the sort
keys. -/
theorem visibleTasks_pairwise (env : Env) (b : Builtins) (hs : SortConforms b) (s : State)
    (ht : ∀ t ∈ s.tasks, SortableTask t) (hl : OrdersDueDates b.localeCompare s.tasks) :
    ∃ r, visibleTasks env b s = some r ∧ r.Pairwise InVisibleOrder ∧
      ∀ x y, [x, y].Sublist (filteredTasks s) → sortKey x = sortKey y → [x, y].Sublist r := by
  have hsub := (filteredTasks_sublist s).subset
  have hk := taskCompare_consistent env b (filteredTasks s) (fun t h => ht t (hsub h))
    (fun x hx y hy => hl x (hsub hx) y (hsub hy))
  have hcons := consistent_of_key (taskCompare env b) (filteredTasks s) sortKey hk
  have hsome : (visibleTasks env b s).isSome = true :=
    hs.2.1 _ _ _ (fun x hx y hy => outcome_isSome _ _ _ (hcons.1 x hx y hy))
  obtain ⟨r, hr⟩ := Option.isSome_iff_exists.1 hsome
  obtain ⟨h1, h2⟩ := hs.2.2 _ _ _ _ hcons hr
  have hperm := hs.1 _ _ _ _ hr
  refine ⟨r, hr, ?_, ?_⟩
  · refine h1.imp_of_mem ?_
    intro x y hx hy hxy
    have hx2 := (hperm.mem_iff).1 hx
    have hy2 := (hperm.mem_iff).1 hy
    exact (sortKey_le x y).1 ((notAfter_of_key _ sortKey x y (hk x hx2 y hy2)).1.1 hxy)
  · intro x y hxy hkey
    have hx2 : x ∈ filteredTasks s := hxy.subset (by simp)
    have hy2 : y ∈ filteredTasks s := hxy.subset (by simp)
    exact h2 x y hxy ((notAfter_of_key _ sortKey x y (hk x hx2 y hy2)).2.2 hkey)

theorem pair_sublist_or {α : Type} (x y : α) (l : List α) (hx : x ∈ l) (hy : y ∈ l)
    (hne : x ≠ y) : [x, y].Sublist l ∨ [y, x].Sublist l := by
  induction l with
  | nil => simp at hx
  | cons a t ih =>
    rcases List.mem_cons.1 hx with h1 | h1
    · rcases List.mem_cons.1 hy with h2 | h2
      · exact absurd (h1.trans h2.symm) hne
      · left
        rw [h1]
        exact List.Sublist.cons₂ _ (List.singleton_sublist.2 h2)
    · rcases List.mem_cons.1 hy with h2 | h2
      · right
        rw [h2]
        exact List.Sublist.cons₂ _ (List.singleton_sublist.2 h1)
      · rcases ih h1 h2 with h | h
        · exact Or.inl (h.cons _)
        · exact Or.inr (h.cons _)

theorem pairwise_pair {α : Type} (R : α → α → Prop) (l : List α) (h : l.Pairwise R) (x y : α)
    (hxy : [x, y].Sublist l) : R x y := by
  have := h.sublist hxy
  simpa using this

theorem pair_sublist_filter {α : Type} (p : α → Bool) (x y : α) (l : List α)
    (h : [x, y].Sublist l) (hx : p x = true) (hy : p y = true) :
    [x, y].Sublist (l.filter p) := by
  have := h.filter p
  simpa [List.filter, hx, hy] using this

theorem pair_sublist_filtered (s : State) (x y : Task) (h : [x, y].Sublist s.tasks)
    (hc : x.completed = y.completed) (hx : x ∈ filteredTasks s) :
    [x, y].Sublist (filteredTasks s) := by
  unfold filteredTasks at hx ⊢
  simp only at hx ⊢
  split_ifs at hx ⊢ with h1 h2 h2
  · rw [h1] at h2
    exact absurd h2 (by decide)
  · have hp := (List.mem_filter.1 hx).2
    exact pair_sublist_filter _ x y _ h hp (by rw [← hc]; exact hp)
  · have hp := (List.mem_filter.1 hx).2
    exact pair_sublist_filter _ x y _ h hp (by rw [← hc]; exact hp)
  · exact h

theorem pair_sublist_pair {α : Type} (a b c d : α) (h : [a, b].Sublist [c, d]) :
    a = c ∧ b = d := by
  have := h.eq_of_length rfl
  simpa using this

/-- C12 (amended): for every list of sanitized tasks and every filter, `visibleTasks`
returns, under a conforming `sort` and a `localeCompare` that orders the due dates of the
list chronologically, a list in which any task `a` before a task `b` (adjacent or not)
satisfies: `a` is incomplete or `b` is completed; with equal completion the due date of
`a` is not later than that of `b`, a task with no due date counting as due on 9999-12-31;
with equal due date the rank of `a` is not lower; with equal rank `updatedAt` of `a` is not
smaller. In particular a task due earlier stands before every task of the same completion
due later. -/
theorem visibleTasks_sorted (env : Env) (b : Builtins) (hs : SortConforms b) (s : State)
    (ht : ∀ t ∈ s.tasks, SortableTask t) (hl : OrdersDueDates b.localeCompare s.tasks) :
    ∃ r, visibleTasks env b s = some r ∧ r.Pairwise InVisibleOrder ∧
      ∀ x ∈ r, ∀ y ∈ r, x.completed = y.completed → dueNumber x < dueNumber y →
        [x, y].Sublist r ∧ ¬ [y, x].Sublist r := by
  obtain ⟨r, hr, hp, _⟩ := visibleTasks_pairwise env b hs s ht hl
  refine ⟨r, hr, hp, ?_⟩
  intro x hx y hy hc hd
  have hno : ¬ [y, x].Sublist r := by
    intro h
    have h2 := (pairwise_pair _ r hp y x h).2 hc.symm
    exact absurd h2.1 (not_le.2 hd)
  have hne : x ≠ y := by
    intro h
    rw [h] at hd
    exact lt_irrefl _ hd
  rcases pair_sublist_or x y r hx hy hne with h | h
  · exact ⟨h, hno⟩
  · exact absurd h hno

/-- Witness of `visibleTasks_sorted`: a task due on 2024-06-02 stored before a task due on
2024-06-01. -/
theorem visibleTasks_sorted_witness :
    SortConforms insertionBuiltins ∧
    (∀ t ∈ (stateOf ["Errands"] [laterTask, sampleTask "t1" "Errands"]).tasks,
      SortableTask t) ∧
    OrdersDueDates insertionBuiltins.localeCompare
      (stateOf ["Errands"] [laterTask, sampleTask "t1" "Errands"]).tasks ∧
    visibleTasks sampleEnv insertionBuiltins
      (stateOf ["Errands"] [laterTask, sampleTask "t1" "Errands"])
      = some [sampleTask "t1" "Errands", laterTask] ∧
    ∃ r, visibleTasks sampleEnv insertionBuiltins
        (stateOf ["Errands"] [laterTask, sampleTask "t1" "Errands"]) = some r ∧
      r.Pairwise InVisibleOrder ∧
      ∀ x ∈ r, ∀ y ∈ r, x.completed = y.completed → dueNumber x < dueNumber y →
        [x, y].Sublist r ∧ ¬ [y, x].Sublist r :=
  ⟨insertionBuiltins_conforms, by decide, by decide, rfl,
   visibleTasks_sorted sampleEnv insertionBuiltins insertionBuiltins_conforms
     (stateOf ["Errands"] [laterTask, sampleTask "t1" "Errands"]) (by decide) (by decide)⟩

/-- C12, counterexample: a task with no due date and priority high is returned before a
task due on 9999-12-31 with priority low, so it does not count as later than every dated
task. -/
theorem visibleTasks_undated_not_last :
    (∀ t ∈ [lastDayTask, undatedTask], SortableTask t) ∧
    visibleTasks sampleEnv insertionBuiltins (stateOf ["Errands"] [lastDayTask, undatedTask])
      = some [undatedTask, lastDayTask] ∧
    ¬ InClaimedOrder undatedTask lastDayTask := by
  refine ⟨by decide, rfl, ?_⟩
  intro h
  exact (h.2 rfl).1 ⟨rfl, by decide⟩

theorem sortKey_of_fields (x y : Task) (hc : x.completed = y.completed)
    (hd : x.dueDate = y.dueDate) (hp : x.priority = y.priority)
    (hu : x.updatedAt = y.updatedAt) : sortKey x = sortKey y := by
  rw [sortKey_eq]
  refine ⟨hc, ?_, ?_, ?_⟩
  · simp only [dueNumber, dueOrLast, hd]
  · simp only [rankNum, hp]
  · simp only [updNum, hu]

/-- C13 (amended): for every list of sanitized tasks and any two tasks of it with
identical completion, due date, priority and `updatedAt`, `visibleTasks` returns, and when
the filter keeps the two tasks the result lists them in the relative order in which they
occur in the stored list. -/
theorem visibleTasks_stable (env : Env) (b : Builtins) (hs : SortConforms b) (s : State)
    (ht : ∀ t ∈ s.tasks, SortableTask t) (hl : OrdersDueDates b.localeCompare s.tasks)
    (x y : Task) (hxy : [x, y].Sublist s.tasks) (hc : x.completed = y.completed)
    (hd : x.dueDate = y.dueDate) (hp : x.priority = y.priority)
    (hu : x.updatedAt = y.updatedAt) :
    ∃ r, visibleTasks env b s = some r ∧ (x ∈ r → [x, y].Sublist r) := by
  obtain ⟨r, hr, _, h2⟩ := visibleTasks_pairwise env b hs s ht hl
  refine ⟨r, hr, ?_⟩
  intro hx
  have hperm := hs.1 _ _ _ _ hr
  have hx2 : x ∈ filteredTasks s := (hperm.mem_iff).1 hx
  exact h2 x y (pair_sublist_filtered s x y hxy hc hx2) (sortKey_of_fields x y hc hd hp hu)

/-- Witness of `visibleTasks_stable`: two tasks that differ in their id only, stored after
a task due later. -/
theorem visibleTasks_stable_witness :
    SortConforms insertionBuiltins ∧
    [sampleTask "t1" "Errands", sampleTask "t2" "Errands"].Sublist
      (stateOf ["Errands"]
        [laterTask, sampleTask "t1" "Errands", sampleTask "t2" "Errands"]).tasks ∧
    visibleTasks sampleEnv insertionBuiltins
      (stateOf ["Errands"] [laterTask, sampleTask "t1" "Errands", sampleTask "t2" "Errands"])
      = some [sampleTask "t1" "Errands", sampleTask "t2" "Errands", laterTask] ∧
    ∃ r, visibleTasks sampleEnv insertionBuiltins
        (stateOf ["Errands"] [laterTask, sampleTask "t1" "Errands", sampleTask "t2" "Errands"])
          = some r ∧
      (sampleTask "t1" "Errands" ∈ r →
        [sampleTask "t1" "Errands", sampleTask "t2" "Errands"].Sublist r) :=
  ⟨insertionBuiltins_conforms, (List.Sublist.refl _).cons _,
   by
     have h : lexCompare (utf16Units "2024-06-02") (utf16Units "2024-06-01") = 1 := by decide
     simp [visibleTasks, filteredTasks, stateOf, sampleUi, insertionBuiltins, sortInsertion,
       insertThrow, taskCompare, sampleTask, laterTask, dueOrLast, prioRank, rankSub, jsOr,
       truthy, toNumber, jsSub, signOf, h],
   visibleTasks_stable sampleEnv insertionBuiltins insertionBuiltins_conforms
     (stateOf ["Errands"] [laterTask, sampleTask "t1" "Errands", sampleTask "t2" "Errands"])
     (by decide) (by decide) (sampleTask "t1" "Errands") (sampleTask "t2" "Errands")
     ((List.Sublist.refl _).cons _) rfl rfl rfl rfl⟩

/-- C13, counterexample: a completed task stored before an incomplete one with the same
due date, priority and `updatedAt` is returned after it. -/
theorem visibleTasks_reorders_completed :
    (doneTask "t1").dueDate = (sampleTask "t2" "Errands").dueDate ∧
    (doneTask "t1").priority = (sampleTask "t2" "Errands").priority ∧
    (doneTask "t1").updatedAt = (sampleTask "t2" "Errands").updatedAt ∧
    visibleTasks sampleEnv insertionBuiltins
      (stateOf ["Errands"] [doneTask "t1", sampleTask "t2" "Errands"])
      = some [sampleTask "t2" "Errands", doneTask "t1"] ∧
    ¬ [doneTask "t1", sampleTask "t2" "Errands"].Sublist
        [sampleTask "t2" "Errands", doneTask "t1"] := by
  refine ⟨rfl, rfl, rfl, rfl, ?_⟩
  intro h
  have h1 := congrArg Task.id (pair_sublist_pair _ _ _ _ h).1
  exact absurd h1 (by decide)

/-- Witness of `visibleTasks_filters`: one incomplete and one completed task. -/
theorem visibleTasks_filters_witness :
    SortConforms insertionBuiltins ∧
    visibleTasks sampleEnv insertionBuiltins
      (withFilter (stateOf ["Errands"] [doneTask "t1", sampleTask "t2" "Errands"]) "active")
      = some [sampleTask "t2" "Errands"] ∧
    visibleTasks sampleEnv insertionBuiltins
      (withFilter (stateOf ["Errands"] [doneTask "t1", sampleTask "t2" "Errands"]) "completed")
      = some [doneTask "t1"] ∧
    ∀ r, visibleTasks sampleEnv insertionBuiltins
      (withFilter (stateOf ["Errands"] [doneTask "t1", sampleTask "t2" "Errands"]) "all")
        = some r →
      r.Perm (stateOf ["Errands"] [doneTask "t1", sampleTask "t2" "Errands"]).tasks :=
  ⟨insertionBuiltins_conforms, rfl, rfl,
   (visibleTasks_filters sampleEnv insertionBuiltins insertionBuiltins_conforms
     (stateOf ["Errands"] [doneTask "t1", sampleTask "t2" "Errands"])).2.2.1⟩

/-- A conforming `sort` with a comparator that reports the order of keys returns a
rearrangement that is ascending in the keys and keeps elements with equal keys in their
relative order. -/
theorem sort_by_key {α κ : Type} [LinearOrder κ] (b : Builtins) (hs : SortConforms b)
    (c : α → α → Option JNum) (k : α → κ) (l : List α)
    (hk : ∀ x ∈ l, ∀ y ∈ l, outcome c x y = some (keySign (k x) (k y))) :
    ∃ r, b.sort c l = some r ∧ r.Perm l ∧ r.Pairwise (fun x y => k x ≤ k y) ∧
      ∀ x y, [x, y].Sublist l → k x = k y → [x, y].Sublist r := by
  have hcons := consistent_of_key c l k hk
  have hsome : (b.sort c l).isSome = true :=
    hs.2.1 _ _ _ (fun x hx y hy => outcome_isSome _ _ _ (hcons.1 x hx y hy))
  obtain ⟨r, hr⟩ := Option.isSome_iff_exists.1 hsome
  obtain ⟨h1, h2⟩ := hs.2.2 _ _ _ _ hcons hr
  have hperm := hs.1 _ _ _ _ hr
  refine ⟨r, hr, hperm, ?_, ?_⟩
  · refine h1.imp_of_mem ?_
    intro x y hx hy hxy
    have hx2 := (hperm.mem_iff).1 hx
    have hy2 := (hperm.mem_iff).1 hy
    exact (notAfter_of_key _ k x y (hk x hx2 y hy2)).1.1 hxy
  · intro x y hxy hkey
    have hx2 : x ∈ l := hxy.subset (by simp)
    have hy2 : y ∈ l := hxy.subset (by simp)
    exact h2 x y hxy ((notAfter_of_key _ k x y (hk x hx2 y hy2)).2.2 hkey)

theorem eventCompare_outcome (b : Builtins) (x y : Event)
    (hl : (b.localeCompare (startOrLast x) (startOrLast y) < 0 ↔ startNumber x < startNumber y) ∧
          (0 < b.localeCompare (startOrLast x) (startOrLast y) ↔
            startNumber y < startNumber x)) :
    outcome (eventCompare b) x y = some (keySign (startNumber x) (startNumber y)) := by
  obtain ⟨k1, k2, k3⟩ := keySign_cases (startNumber x) (startNumber y)
  unfold outcome eventCompare
  simp only [Option.some_bind, signOf_intCast]
  rcases lt_trichotomy (startNumber x) (startNumber y) with h | h | h
  · rw [k1.2 h, if_pos (hl.1.2 h)]
  · have h1 : ¬ b.localeCompare (startOrLast x) (startOrLast y) < 0 := by
      rw [hl.1, h]
      exact lt_irrefl _
    have h2 : ¬ 0 < b.localeCompare (startOrLast x) (startOrLast y) := by
      rw [hl.2, h]
      exact lt_irrefl _
    rw [k2.2 h, if_neg h1, if_pos (by omega)]
  · have h1 := hl.2.2 h
    rw [k3.2 h, if_neg (not_lt_of_lt h1), if_neg (ne_of_gt h1)]

theorem dueKey_lt (x y : Task) :
    dueKey x < dueKey y ↔
      (x.completed = false ∧ y.completed = true) ∨
      (x.completed = y.completed ∧ rankNum y < rankNum x) := by
  simp only [dueKey, Prod.Lex.lt_iff, Bool.lt_iff, neg_lt_neg_iff]

theorem dueKey_eq (x y : Task) :
    dueKey x = dueKey y ↔ x.completed = y.completed ∧ rankNum x = rankNum y := by
  simp only [dueKey, EmbeddingLike.apply_eq_iff_eq, Prod.mk.injEq, neg_inj]

theorem dueKey_le (x y : Task) :
    dueKey x ≤ dueKey y ↔
      (x.completed = false ∨ y.completed = true) ∧
      (x.completed = y.completed → rankNum y ≤ rankNum x) := by
  rw [le_iff_lt_or_eq, dueKey_lt, dueKey_eq]
  constructor
  · rintro ((⟨h1, h2⟩ | ⟨h1, h2⟩) | ⟨h1, h2⟩)
    · exact ⟨Or.inl h1, fun h => by rw [h1, h2] at h; exact absurd h (by decide)⟩
    · refine ⟨?_, fun _ => h2.le⟩
      cases hx : x.completed
      · exact Or.inl rfl
      · exact Or.inr (by rw [← h1, hx])
    · refine ⟨?_, fun _ => h2.symm.le⟩
      cases hx : x.completed
      · exact Or.inl rfl
      · exact Or.inr (by rw [← h1, hx])
  · rintro ⟨h1, h2⟩
    by_cases hc : x.completed = y.completed
    · rcases lt_or_eq_of_le (h2 hc) with h | h
      · exact Or.inl (Or.inr ⟨hc, h⟩)
      · exact Or.inr ⟨hc, h.symm⟩
    · left
      left
      rcases h1 with h1 | h1
      · refine ⟨h1, ?_⟩
        cases hy : y.completed
        · exact absurd (h1.trans hy.symm) hc
        · rfl
      · refine ⟨?_, h1⟩
        cases hx : x.completed
        · rfl
        · exact absurd (hx.trans h1.symm) hc

theorem dueCompare_outcome (x y : Task) (hx : x.priority ∈ ["low", "medium", "high"])
    (hy : y.priority ∈ ["low", "medium", "high"]) :
    outcome dueCompare x y = some (keySign (dueKey x) (dueKey y)) := by
  have hpx := prioRank_enum x hx
  have hpy := prioRank_enum y hy
  obtain ⟨k1, k2, k3⟩ := keySign_cases (dueKey x) (dueKey y)
  rw [dueKey_lt] at k1
  rw [dueKey_eq] at k2
  rw [dueKey_lt] at k3
  unfold outcome dueCompare
  by_cases hc : x.completed = y.completed
  · rw [if_neg (not_not.2 hc), hpx, hpy]
    simp only [Option.some_bind, rankSub, signOf_intSub]
    rcases lt_trichotomy (rankNum y) (rankNum x) with h | h | h
    · rw [k1.2 (Or.inr ⟨hc, h⟩), if_pos h]
    · rw [k2.2 ⟨hc, h.symm⟩, if_neg (by rw [h]; exact lt_irrefl _), if_pos h]
    · rw [k3.2 (Or.inr ⟨hc.symm, h⟩), if_neg (not_lt_of_lt h), if_neg (ne_of_gt h)]
  · rw [if_pos hc]
    cases hxc : x.completed <;> cases hyc : y.completed
    · exact absurd (hxc.trans hyc.symm) hc
    · rw [k1.2 (Or.inl ⟨hxc, hyc⟩)]
      simp [signOf]
    · rw [k3.2 (Or.inl ⟨hyc, hxc⟩)]
      simp [signOf]
    · exact absurd (hxc.trans hyc.symm) hc

theorem startNumber_valid (e : Event) (h : validTime e.startTime = true) :
    startNumber e < 9999 ∧ e.startTime ≠ "" := by
  have hne : e.startTime ≠ "" := by
    intro h0
    rw [h0] at h
    exact absurd h (by decide)
  refine ⟨?_, hne⟩
  unfold startNumber startOrLast
  rw [if_neg hne]
  unfold validTime at h
  cases ht : timeNumber e.startTime with
  | none => simp [ht] at h
  | some n =>
    simp only [ht, decide_eq_true_eq] at h
    simp only [Option.getD_some]
    omega

theorem startNumber_untimed (e : Event) (h : e.startTime = "") : startNumber e = 9999 := by
  unfold startNumber startOrLast
  rw [if_pos h]
  decide

/-- C14: for every store whose selected date is set and whose tasks have a priority of the
enum, under a conforming `sort` and a `localeCompare` that orders the start times of the
stored events by time of day, `renderDrawer` computes: a rearrangement of exactly the
events whose date is the selected date, ascending in the start time, no event without a
start time standing before an event with a valid HH:MM start time, events with the same
start time keeping their stored relative order; and a rearrangement of exactly the tasks
due on the selected date, incomplete before completed and, within equal completion, by
descending rank, tasks with the same completion and priority keeping their stored
relative order. -/
theorem renderDrawer_content (env : Env) (b : Builtins) (hs : SortConforms b) (s : State)
    (hsel : s.ui.calendar.selectedDate ≠ "")
    (hp : ∀ t ∈ s.tasks, t.priority ∈ ["low", "medium", "high"])
    (hl : OrdersStartTimes b.localeCompare s.events) :
    (∃ evs, drawerEvents env b s = some evs ∧
      evs.Perm (s.events.filter (fun e => e.date = s.ui.calendar.selectedDate)) ∧
      evs.Pairwise (fun x y => startNumber x ≤ startNumber y) ∧
      (∀ x y, x.startTime = "" → validTime y.startTime = true → ¬ [x, y].Sublist evs) ∧
      (∀ x y, [x, y].Sublist s.events → x.date = s.ui.calendar.selectedDate →
        y.date = s.ui.calendar.selectedDate → startNumber x = startNumber y →
        [x, y].Sublist evs)) ∧
    (∃ due, drawerTasks env b s = some due ∧
      due.Perm (s.tasks.filter (fun t => t.dueDate = s.ui.calendar.selectedDate)) ∧
      due.Pairwise (fun x y => (x.completed = false ∨ y.completed = true) ∧
        (x.completed = y.completed → rankNum y ≤ rankNum x)) ∧
      (∀ x y, [x, y].Sublist s.tasks → x.dueDate = s.ui.calendar.selectedDate →
        y.dueDate = s.ui.calendar.selectedDate → x.completed = y.completed →
        x.priority = y.priority → [x, y].Sublist due)) := by
  have hiso : drawerIso env s = s.ui.calendar.selectedDate := by
    unfold drawerIso
    rw [if_neg hsel]
  constructor
  · have hsub : ∀ x, x ∈ s.events.filter (fun e => e.date = drawerIso env s) → x ∈ s.events :=
      fun x hx => (List.mem_filter.1 hx).1
    obtain ⟨r, hr, hperm, hpw, hst⟩ := sort_by_key b hs (eventCompare b) startNumber
      (s.events.filter (fun e => e.date = drawerIso env s))
      (fun x hx y hy => eventCompare_outcome b x y (hl x (hsub x hx) y (hsub y hy)))
    refine ⟨r, hr, ?_, hpw, ?_, ?_⟩
    · rw [← hiso]
      exact hperm
    · intro x y hx hy hxy
      have h1 := pairwise_pair _ r hpw x y hxy
      rw [startNumber_untimed x hx] at h1
      exact absurd h1 (not_le.2 (startNumber_valid y hy).1)
    · intro x y hxy hdx hdy hk
      refine hst x y (pair_sublist_filter _ x y _ hxy ?_ ?_) hk
      · simp [hiso, hdx]
      · simp [hiso, hdy]
  · have hsub : ∀ x, x ∈ s.tasks.filter (fun t => t.dueDate = drawerIso env s) → x ∈ s.tasks :=
      fun x hx => (List.mem_filter.1 hx).1
    obtain ⟨r, hr, hperm, hpw, hst⟩ := sort_by_key b hs dueCompare dueKey
      (s.tasks.filter (fun t => t.dueDate = drawerIso env s))
      (fun x hx y hy => dueCompare_outcome x y (hp x (hsub x hx)) (hp y (hsub y hy)))
    refine ⟨r, hr, ?_, ?_, ?_⟩
    · rw [← hiso]
      exact hperm
    · exact hpw.imp (fun {x y} h => (dueKey_le x y).1 h)
    · intro x y hxy hdx hdy hc hpr
      refine hst x y (pair_sublist_filter _ x y _ hxy ?_ ?_) ?_
      · simp [hiso, hdx]
      · simp [hiso, hdy]
      · rw [dueKey_eq]
        exact ⟨hc, by simp only [rankNum, hpr]⟩

/-- Witness of `renderDrawer_content`: three events and three tasks of the selected day,
and one task of another day. -/
theorem renderDrawer_content_witness :
    SortConforms insertionBuiltins ∧
    OrdersStartTimes insertionBuiltins.localeCompare
      [timedEvent "e1" "", timedEvent "e2" "14:00", timedEvent "e3" "09:00"] ∧
    drawerEvents sampleEnv insertionBuiltins
      (drawerState
        [dueTask "t1" "low" true, sampleTask "t0" "Errands", dueTask "t2" "low" false,
          dueTask "t3" "high" false]
        [timedEvent "e1" "", timedEvent "e2" "14:00", timedEvent "e3" "09:00"])
      = some [timedEvent "e3" "09:00", timedEvent "e2" "14:00", timedEvent "e1" ""] ∧
    drawerTasks sampleEnv insertionBuiltins
      (drawerState
        [dueTask "t1" "low" true, sampleTask "t0" "Errands", dueTask "t2" "low" false,
          dueTask "t3" "high" false]
        [timedEvent "e1" "", timedEvent "e2" "14:00", timedEvent "e3" "09:00"])
      = some [dueTask "t3" "high" false, dueTask "t2" "low" false, dueTask "t1" "low" true] ∧
    ∃ evs, drawerEvents sampleEnv insertionBuiltins
      (drawerState
        [dueTask "t1" "low" true, sampleTask "t0" "Errands", dueTask "t2" "low" false,
          dueTask "t3" "high" false]
        [timedEvent "e1" "", timedEvent "e2" "14:00", timedEvent "e3" "09:00"]) = some evs ∧
      evs.Pairwise (fun x y => startNumber x ≤ startNumber y) :=
  ⟨insertionBuiltins_conforms, by decide, rfl, rfl,
   (renderDrawer_content sampleEnv insertionBuiltins insertionBuiltins_conforms
     (drawerState
        [dueTask "t1" "low" true, sampleTask "t0" "Errands", dueTask "t2" "low" false,
          dueTask "t3" "high" false]
        [timedEvent "e1" "", timedEvent "e2" "14:00", timedEvent "e3" "09:00"])
     (by decide) (by decide) (by decide)).1.imp (fun _ h => ⟨h.1, h.2.2.1⟩)⟩

theorem findIndex_some {α : Type} (p : α → Bool) (l : List α) (i : Nat)
    (h : findIndex p l = some i) : ∃ x, l[i]? = some x ∧ p x = true := by
  induction l generalizing i with
  | nil => simp [findIndex] at h
  | cons a t ih =>
    unfold findIndex at h
    by_cases hp : p a = true
    · rw [if_pos hp] at h
      simp only [Option.some.injEq] at h
      subst h
      exact ⟨a, by simp, hp⟩
    · rw [if_neg hp] at h
      cases hf : findIndex p t with
      | none => simp [hf] at h
      | some j =>
        simp only [hf, Option.map_some', Option.some.injEq] at h
        subst h
        obtain ⟨x, hx, hpx⟩ := ih j hf
        exact ⟨x, by simpa using hx, hpx⟩

theorem findIndex_of_mem {α : Type} (p : α → Bool) (l : List α) (x : α) (hx : x ∈ l)
    (hp : p x = true) : ∃ i, findIndex p l = some i := by
  induction l with
  | nil => simp at hx
  | cons a t ih =>
    unfold findIndex
    by_cases hpa : p a = true
    · exact ⟨0, by rw [if_pos hpa]⟩
    · rw [if_neg hpa]
      rcases List.mem_cons.1 hx with h | h
      · rw [h] at hp
        exact absurd hp hpa
      · obtain ⟨i, hi⟩ := ih h
        exact ⟨i + 1, by simp [hi]⟩

theorem spliceInsert_eraseIdx {α : Type} (l : List α) (i : Nat) (x : α)
    (h : l[i]? = some x) : spliceInsert i x (l.eraseIdx i) = l := by
  induction l generalizing i with
  | nil => simp at h
  | cons a t ih =>
    cases i with
    | zero =>
      simp only [List.getElem?_cons_zero, Option.some.injEq] at h
      subst h
      simp [spliceInsert]
    | succ j =>
      simp only [List.getElem?_cons_succ] at h
      have := ih j h
      simp only [spliceInsert] at this ⊢
      simp only [List.eraseIdx_cons_succ, List.take_succ_cons, List.drop_succ_cons,
        List.cons_append, this]

theorem spliceInsert_perm {α : Type} (l : List α) (i : Nat) (x : α) :
    (spliceInsert i x l).Perm (x :: l) := by
  unfold spliceInsert
  have h := List.take_append_drop i l
  calc (List.take i l ++ x :: List.drop i l).Perm (x :: (List.take i l ++ List.drop i l)) :=
        List.perm_middle
    _ = x :: l := by rw [h]

theorem eraseIdx_perm {α : Type} (l : List α) (i : Nat) (x : α) (h : l[i]? = some x) :
    l.Perm (x :: l.eraseIdx i) := by
  have h1 := spliceInsert_perm (l.eraseIdx i) i x
  rw [spliceInsert_eraseIdx l i x h] at h1
  exact h1

theorem deleteTask_present (id : String) (w : World)
    (h : ∃ t ∈ w.state.tasks, t.id = id) :
    ∃ idx removed, w.state.tasks[idx]? = some removed ∧ removed.id = id ∧
      deleteTask id w =
        { state := { w.state with tasks := w.state.tasks.eraseIdx idx },
          storage := persist { w.state with tasks := w.state.tasks.eraseIdx idx },
          listeners := w.listeners ++
            [{ handle := w.next, idx := idx, removed := .task removed, undone := false }],
          next := w.next + 1 } := by
  obtain ⟨t, ht, hid⟩ := h
  obtain ⟨idx, hidx⟩ := findIndex_of_mem (fun x => decide (x.id = id)) _ t ht (by simp [hid])
  obtain ⟨removed, hr, hp⟩ := findIndex_some _ _ _ hidx
  refine ⟨idx, removed, hr, by simpa using hp, ?_⟩
  unfold deleteTask
  simp only [hidx, hr]

theorem deleteEvent_present (id : String) (w : World)
    (h : ∃ t ∈ w.state.events, t.id = id) :
    ∃ idx removed, w.state.events[idx]? = some removed ∧ removed.id = id ∧
      deleteEvent id w =
        { state := { w.state with events := w.state.events.eraseIdx idx },
          storage := persist { w.state with events := w.state.events.eraseIdx idx },
          listeners := w.listeners ++
            [{ handle := w.next, idx := idx, removed := .event removed, undone := false }],
          next := w.next + 1 } := by
  obtain ⟨t, ht, hid⟩ := h
  obtain ⟨idx, hidx⟩ := findIndex_of_mem (fun x => decide (x.id = id)) _ t ht (by simp [hid])
  obtain ⟨removed, hr, hp⟩ := findIndex_some _ _ _ hidx
  refine ⟨idx, removed, hr, by simpa using hp, ?_⟩
  unfold deleteEvent
  simp only [hidx, hr]

theorem deleteTask_absent (id : String) (w : World)
    (h : ¬ ∃ t ∈ w.state.tasks, t.id = id) : deleteTask id w = w := by
  unfold deleteTask
  cases hf : findIndex (fun x => decide (x.id = id)) w.state.tasks with
  | none => rfl
  | some idx =>
    obtain ⟨x, hx, hp⟩ := findIndex_some _ _ _ hf
    exact absurd ⟨x, List.getElem?_mem hx, by simpa using hp⟩ h

theorem deleteEvent_absent (id : String) (w : World)
    (h : ¬ ∃ t ∈ w.state.events, t.id = id) : deleteEvent id w = w := by
  unfold deleteEvent
  cases hf : findIndex (fun x => decide (x.id = id)) w.state.events with
  | none => rfl
  | some idx =>
    obtain ⟨x, hx, hp⟩ := findIndex_some _ _ _ hf
    exact absurd ⟨x, List.getElem?_mem hx, by simpa using hp⟩ h

theorem onUndo_undone (e : KeyEvent) (l : UndoListener) (w : World) (h : l.undone = true) :
    onUndo e l w = w := by
  simp [onUndo, h]

theorem foldl_onUndo_undone (e : KeyEvent) (xs : List UndoListener) (w : World)
    (h : ∀ l ∈ xs, l.undone = true) : xs.foldl (fun acc l => onUndo e l acc) w = w := by
  induction xs generalizing w with
  | nil => rfl
  | cons a t ih =>
    rw [List.foldl_cons, onUndo_undone e a w (h a (List.mem_cons_self _ _))]
    exact ih w (fun l hl => h l (List.mem_cons_of_mem _ hl))

/-- After an undo signal the listeners still attached are those no handler detached. -/
theorem foldl_onUndo_listeners (e : KeyEvent) (he : isUndoKey e = true)
    (xs : List UndoListener) (w : World) :
    (xs.foldl (fun acc l => onUndo e l acc) w).listeners =
      w.listeners.filter (fun m => xs.all (fun l => l.undone || decide (m.handle ≠ l.handle))) := by
  induction xs generalizing w with
  | nil => simp
  | cons a t ih =>
    rw [List.foldl_cons, ih]
    cases hu : a.undone with
    | true =>
      rw [onUndo_undone e a w hu]
      simp [hu]
    | false =>
      simp only [onUndo, he, hu, Bool.not_true, Bool.or_false, Bool.false_eq_true, if_false,
        List.filter_filter, List.all_cons, Bool.false_or]
      apply List.filter_congr
      intro m _
      rw [Bool.and_comm]

theorem keydown_all_undone (e : KeyEvent) (he : isUndoKey e = true) (w : World) :
    ∀ l ∈ (keydown e w).listeners, l.undone = true := by
  intro l hl
  unfold keydown at hl
  rw [foldl_onUndo_listeners e he] at hl
  obtain ⟨h1, h2⟩ := List.mem_filter.1 hl
  have := List.all_eq_true.1 h2 l h1
  simpa using this

theorem restore_task_erased (s : State) (idx : Nat) (t : Task) (h : s.tasks[idx]? = some t) :
    restore idx (.task t) { s with tasks := s.tasks.eraseIdx idx } = s := by
  simp only [restore, spliceInsert_eraseIdx s.tasks idx t h]

theorem restore_event_erased (s : State) (idx : Nat) (x : Event)
    (h : s.events[idx]? = some x) :
    restore idx (.event x) { s with events := s.events.eraseIdx idx } = s := by
  simp only [restore, spliceInsert_eraseIdx s.events idx x h]

theorem keydown_single (e : KeyEvent) (he : isUndoKey e = true) (s : State) (st : Storage)
    (l : UndoListener) (n : Nat) (hu : l.undone = false) :
    keydown e { state := s, storage := st, listeners := [l], next := n } =
      { state := restore l.idx l.removed s, storage := persist (restore l.idx l.removed s),
        listeners := [], next := n } := by
  simp [keydown, onUndo, he, hu]

/-- C15 (amended): when no other undo window is pending, delete-then-undo is a round trip.
For every task list and every id present in it, `deleteTask(id)` removes exactly the first
task with that id and leaves the others in order, and the undo signal, arriving within the
window with nothing in between, reinserts the removed task, equal in all fields, at its
original index: the state is the one before the delete. The same holds for `deleteEvent`
on the event list. -/
theorem delete_undo_round_trip (w : World) (hw : w.listeners = []) (e : KeyEvent)
    (he : isUndoKey e = true) (id : String) :
    ((∃ t ∈ w.state.tasks, t.id = id) →
      ∃ idx removed, w.state.tasks[idx]? = some removed ∧ removed.id = id ∧
        (deleteTask id w).state.tasks = w.state.tasks.eraseIdx idx ∧
        (deleteTask id w).state.events = w.state.events ∧
        (keydown e (deleteTask id w)).state.tasks[idx]? = some removed ∧
        (keydown e (deleteTask id w)).state = w.state) ∧
    ((∃ x ∈ w.state.events, x.id = id) →
      ∃ idx removed, w.state.events[idx]? = some removed ∧ removed.id = id ∧
        (deleteEvent id w).state.events = w.state.events.eraseIdx idx ∧
        (deleteEvent id w).state.tasks = w.state.tasks ∧
        (keydown e (deleteEvent id w)).state.events[idx]? = some removed ∧
        (keydown e (deleteEvent id w)).state = w.state) := by
  constructor
  · intro h
    obtain ⟨idx, removed, hr, hid, hd⟩ := deleteTask_present id w h
    have hk : (keydown e (deleteTask id w)).state = w.state := by
      rw [hd, hw, List.nil_append, keydown_single e he _ _ _ _ rfl]
      exact restore_task_erased w.state idx removed hr
    refine ⟨idx, removed, hr, hid, ?_, ?_, ?_, hk⟩
    · rw [hd]
    · rw [hd]
    · rw [hk]
      exact hr
  · intro h
    obtain ⟨idx, removed, hr, hid, hd⟩ := deleteEvent_present id w h
    have hk : (keydown e (deleteEvent id w)).state = w.state := by
      rw [hd, hw, List.nil_append, keydown_single e he _ _ _ _ rfl]
      exact restore_event_erased w.state idx removed hr
    refine ⟨idx, removed, hr, hid, ?_, ?_, ?_, hk⟩
    · rw [hd]
    · rw [hd]
    · rw [hk]
      exact hr

/-- Witness of `delete_undo_round_trip`: task `b` and event `e2` of the sample store. -/
theorem delete_undo_round_trip_witness :
    (worldOf undoState).listeners = [] ∧ isUndoKey ctrlZ = true ∧
    (deleteTask "b" (worldOf undoState)).state.tasks
      = [sampleTask "a" "Errands", sampleTask "c" "Errands"] ∧
    (keydown ctrlZ (deleteTask "b" (worldOf undoState))).state.tasks = undoState.tasks ∧
    (keydown ctrlZ (deleteTask "b" (worldOf undoState))).state = (worldOf undoState).state :=
  ⟨rfl, rfl, rfl, rfl,
   by
     obtain ⟨_, _, _, _, _, _, _, h⟩ :=
       (delete_undo_round_trip (worldOf undoState) rfl ctrlZ rfl "b").1
         ⟨sampleTask "b" "Errands", by simp [worldOf, undoState], rfl⟩
     exact h⟩

/-- C15, counterexample: with the window of an earlier delete still pending, the undo
signal after a second delete does not give back the list before that delete: from
`[a, b, c]`, deleting `a` leaves `[b, c]`, deleting `b` leaves `[c]`, and Control+Z gives
`[b, a, c]`. -/
theorem delete_undo_with_pending_window :
    (deleteTask "a" (worldOf undoState)).state.tasks
      = [sampleTask "b" "Errands", sampleTask "c" "Errands"] ∧
    (deleteTask "b" (deleteTask "a" (worldOf undoState))).state.tasks
      = [sampleTask "c" "Errands"] ∧
    (keydown ctrlZ (deleteTask "b" (deleteTask "a" (worldOf undoState)))).state.tasks
      = [sampleTask "b" "Errands", sampleTask "a" "Errands", sampleTask "c" "Errands"] ∧
    (keydown ctrlZ (deleteTask "b" (deleteTask "a" (worldOf undoState)))).state.tasks
      ≠ (deleteTask "a" (worldOf undoState)).state.tasks := by
  refine ⟨rfl, rfl, rfl, ?_⟩
  intro h
  have := congrArg List.length h
  exact absurd this (by decide)

theorem expire_deleteTask (id : String) (w : World) (hf : ∀ l ∈ w.listeners, l.handle < w.next) :
    (expire w.next (deleteTask id w)).listeners = w.listeners ∧
    (expire w.next (deleteTask id w)).state = (deleteTask id w).state := by
  by_cases h : ∃ t ∈ w.state.tasks, t.id = id
  · obtain ⟨idx, removed, _, _, hd⟩ := deleteTask_present id w h
    rw [hd]
    have hne : ∀ a ∈ w.listeners, ¬ a.handle = w.next := fun a ha => Nat.ne_of_lt (hf a ha)
    simpa [expire, List.filter_append] using hne
  · rw [deleteTask_absent id w h]
    have hne : ∀ a ∈ w.listeners, ¬ a.handle = w.next := fun a ha => Nat.ne_of_lt (hf a ha)
    simpa [expire] using hne

theorem expire_deleteEvent (id : String) (w : World)
    (hf : ∀ l ∈ w.listeners, l.handle < w.next) :
    (expire w.next (deleteEvent id w)).listeners = w.listeners ∧
    (expire w.next (deleteEvent id w)).state = (deleteEvent id w).state := by
  by_cases h : ∃ t ∈ w.state.events, t.id = id
  · obtain ⟨idx, removed, _, _, hd⟩ := deleteEvent_present id w h
    rw [hd]
    have hne : ∀ a ∈ w.listeners, ¬ a.handle = w.next := fun a ha => Nat.ne_of_lt (hf a ha)
    simpa [expire, List.filter_append] using hne
  · rw [deleteEvent_absent id w h]
    have hne : ∀ a ∈ w.listeners, ¬ a.handle = w.next := fun a ha => Nat.ne_of_lt (hf a ha)
    simpa [expire] using hne

theorem keydown_no_listener (e : KeyEvent) (w : World) (h : w.listeners = []) :
    keydown e w = w := by
  simp [keydown, h]

/-- C16: undo is idempotent. After an undo signal, any further key event, before or after
a timer has fired, leaves the whole state unchanged, so no entity is inserted twice; and
once the timer of a delete has fired its listener is detached, so that an undo signal
delivered only then, no other window being pending, leaves the entity removed. The
listeners of the world carry numbers below the next one to be given. -/
theorem undo_idempotent (w : World) (hf : ∀ l ∈ w.listeners, l.handle < w.next)
    (e1 e2 : KeyEvent) (he : isUndoKey e1 = true) (id : String) :
    keydown e2 (keydown e1 w) = keydown e1 w ∧
    (∀ h, (keydown e2 (expire h (keydown e1 w))).state = (keydown e1 w).state) ∧
    (keydown e2 (keydown e1 (deleteTask id w))).state = (keydown e1 (deleteTask id w)).state ∧
    (keydown e2 (keydown e1 (deleteEvent id w))).state
      = (keydown e1 (deleteEvent id w)).state ∧
    (expire w.next (deleteTask id w)).listeners = w.listeners ∧
    (expire w.next (deleteEvent id w)).listeners = w.listeners ∧
    (w.listeners = [] →
      (keydown e1 (expire w.next (deleteTask id w))).state = (deleteTask id w).state ∧
      (keydown e1 (expire w.next (deleteEvent id w))).state = (deleteEvent id w).state) := by
  have hidem : ∀ v : World, keydown e2 (keydown e1 v) = keydown e1 v := by
    intro v
    have h := keydown_all_undone e1 he v
    conv_lhs => unfold keydown
    exact foldl_onUndo_undone e2 _ _ h
  refine ⟨hidem w, ?_, ?_, ?_, (expire_deleteTask id w hf).1, (expire_deleteEvent id w hf).1, ?_⟩
  · intro h
    have hall := keydown_all_undone e1 he w
    have : keydown e2 (expire h (keydown e1 w)) = expire h (keydown e1 w) := by
      conv_lhs => unfold keydown
      apply foldl_onUndo_undone
      intro l hl
      exact hall l (List.mem_filter.1 hl).1
    rw [this]
    rfl
  · rw [hidem]
  · rw [hidem]
  · intro hw
    constructor
    · rw [keydown_no_listener e1 _ (by rw [(expire_deleteTask id w hf).1, hw])]
      exact (expire_deleteTask id w hf).2
    · rw [keydown_no_listener e1 _ (by rw [(expire_deleteEvent id w hf).1, hw])]
      exact (expire_deleteEvent id w hf).2

/-- Witness of `undo_idempotent`: task `b` of the sample store, deleted, restored, and a
second Control+Z; and the same delete with the signal after the timer. -/
theorem undo_idempotent_witness :
    (∀ l ∈ (worldOf undoState).listeners, l.handle < (worldOf undoState).next) ∧
    isUndoKey ctrlZ = true ∧
    (keydown ctrlZ (keydown ctrlZ (deleteTask "b" (worldOf undoState)))).state.tasks
      = undoState.tasks ∧
    (keydown ctrlZ (expire 0 (deleteTask "b" (worldOf undoState)))).state.tasks
      = [sampleTask "a" "Errands", sampleTask "c" "Errands"] ∧
    (keydown ctrlZ (keydown ctrlZ (deleteTask "b" (worldOf undoState)))).state
      = (keydown ctrlZ (deleteTask "b" (worldOf undoState))).state :=
  ⟨by simp [worldOf], rfl, rfl, rfl,
   (undo_idempotent (worldOf undoState) (by simp [worldOf]) ctrlZ ctrlZ rfl "b").2.2.1⟩

theorem keydown_pair (e : KeyEvent) (he : isUndoKey e = true) (s : State) (st : Storage)
    (l1 l2 : UndoListener) (n : Nat) (h1 : l1.undone = false) (h2 : l2.undone = false)
    (hne : l1.handle ≠ l2.handle) :
    keydown e { state := s, storage := st, listeners := [l1, l2], next := n } =
      { state := restore l2.idx l2.removed (restore l1.idx l1.removed s),
        storage := persist (restore l2.idx l2.removed (restore l1.idx l1.removed s)),
        listeners := [], next := n } := by
  simp [keydown, onUndo, he, h1, h2, hne, Ne.symm hne]

theorem mem_eraseIdx_of_ne {α : Type} (l : List α) (i : Nat) (x y : α) (h : l[i]? = some x)
    (hy : y ∈ l) (hne : y ≠ x) : y ∈ l.eraseIdx i := by
  have hp := eraseIdx_perm l i x h
  rcases List.mem_cons.1 ((hp.mem_iff).1 hy) with h1 | h1
  · exact absurd h1 hne
  · exact h1

/-- C20 (amended): a new delete does not supersede a pending undo window. For every task
list with two tasks of distinct ids `a` and `b`, no window being pending before, after
`deleteTask(a)` followed by `deleteTask(b)` a single undo signal restores both: first the
task removed by the first delete at its recorded index, then the task removed by the
second delete at its recorded index, so that the task list is a rearrangement of the list
before the two deletes and no listener stays attached; the same for two event deletes. -/
theorem two_deletes_one_undo (w : World) (hw : w.listeners = []) (e : KeyEvent)
    (he : isUndoKey e = true) (a b : String) (hab : a ≠ b) :
    ((∃ t ∈ w.state.tasks, t.id = a) → (∃ t ∈ w.state.tasks, t.id = b) →
      ∃ ia ta ib tb, ta.id = a ∧ tb.id = b ∧
        (deleteTask b (deleteTask a w)).state.tasks = (w.state.tasks.eraseIdx ia).eraseIdx ib ∧
        (keydown e (deleteTask b (deleteTask a w))).state.tasks =
          spliceInsert ib tb (spliceInsert ia ta ((w.state.tasks.eraseIdx ia).eraseIdx ib)) ∧
        ta ∈ (keydown e (deleteTask b (deleteTask a w))).state.tasks ∧
        tb ∈ (keydown e (deleteTask b (deleteTask a w))).state.tasks ∧
        (keydown e (deleteTask b (deleteTask a w))).state.tasks.Perm w.state.tasks ∧
        (keydown e (deleteTask b (deleteTask a w))).listeners = []) ∧
    ((∃ x ∈ w.state.events, x.id = a) → (∃ x ∈ w.state.events, x.id = b) →
      ∃ ia xa ib xb, xa.id = a ∧ xb.id = b ∧
        (deleteEvent b (deleteEvent a w)).state.events
          = (w.state.events.eraseIdx ia).eraseIdx ib ∧
        (keydown e (deleteEvent b (deleteEvent a w))).state.events =
          spliceInsert ib xb (spliceInsert ia xa ((w.state.events.eraseIdx ia).eraseIdx ib)) ∧
        xa ∈ (keydown e (deleteEvent b (deleteEvent a w))).state.events ∧
        xb ∈ (keydown e (deleteEvent b (deleteEvent a w))).state.events ∧
        (keydown e (deleteEvent b (deleteEvent a w))).state.events.Perm w.state.events ∧
        (keydown e (deleteEvent b (deleteEvent a w))).listeners = []) := by
  constructor
  · intro ha hb
    obtain ⟨ia, ta, hra, hida, hda⟩ := deleteTask_present a w ha
    obtain ⟨t, ht, htb⟩ := hb
    have hne : t ≠ ta := by
      intro h
      rw [h, hida] at htb
      exact hab htb
    have hb2 : ∃ t ∈ (deleteTask a w).state.tasks, t.id = b := by
      rw [hda]
      exact ⟨t, mem_eraseIdx_of_ne _ ia ta t hra ht hne, htb⟩
    obtain ⟨ib, tb, hrb, hidb, hdb⟩ := deleteTask_present b (deleteTask a w) hb2
    rw [hda] at hrb
    simp only at hrb
    have hk : (keydown e (deleteTask b (deleteTask a w))).state.tasks =
        spliceInsert ib tb (spliceInsert ia ta ((w.state.tasks.eraseIdx ia).eraseIdx ib)) := by
      rw [hdb, hda, hw]
      simp only [List.nil_append, List.singleton_append]
      rw [keydown_pair e he _ _ _ _ _ rfl rfl (by simp)]
      rfl
    have hperm : (spliceInsert ib tb
        (spliceInsert ia ta ((w.state.tasks.eraseIdx ia).eraseIdx ib))).Perm w.state.tasks := by
      have h1 := spliceInsert_perm (spliceInsert ia ta ((w.state.tasks.eraseIdx ia).eraseIdx ib))
        ib tb
      have h2 := spliceInsert_perm ((w.state.tasks.eraseIdx ia).eraseIdx ib) ia ta
      have h3 := eraseIdx_perm _ ib tb hrb
      have h4 := eraseIdx_perm _ ia ta hra
      exact h1.trans (((h2.cons tb).trans (List.Perm.swap ta tb _)).trans
        ((h3.symm.cons ta).trans h4.symm))
    refine ⟨ia, ta, ib, tb, hida, hidb, ?_, hk, ?_, ?_, ?_, ?_⟩
    · rw [hdb, hda]
    · rw [hk]
      exact (hperm.mem_iff).2 (List.getElem?_mem hra)
    · rw [hk]
      exact ((spliceInsert_perm _ ib tb).mem_iff).2 (List.mem_cons_self _ _)
    · rw [hk]
      exact hperm
    · rw [hdb, hda, hw]
      simp only [List.nil_append, List.singleton_append]
      rw [keydown_pair e he _ _ _ _ _ rfl rfl (by simp)]
  · intro ha hb
    obtain ⟨ia, ta, hra, hida, hda⟩ := deleteEvent_present a w ha
    obtain ⟨t, ht, htb⟩ := hb
    have hne : t ≠ ta := by
      intro h
      rw [h, hida] at htb
      exact hab htb
    have hb2 : ∃ t ∈ (deleteEvent a w).state.events, t.id = b := by
      rw [hda]
      exact ⟨t, mem_eraseIdx_of_ne _ ia ta t hra ht hne, htb⟩
    obtain ⟨ib, tb, hrb, hidb, hdb⟩ := deleteEvent_present b (deleteEvent a w) hb2
    rw [hda] at hrb
    simp only at hrb
    have hk : (keydown e (deleteEvent b (deleteEvent a w))).state.events =
        spliceInsert ib tb (spliceInsert ia ta ((w.state.events.eraseIdx ia).eraseIdx ib)) := by
      rw [hdb, hda, hw]
      simp only [List.nil_append, List.singleton_append]
      rw [keydown_pair e he _ _ _ _ _ rfl rfl (by simp)]
      rfl
    have hperm : (spliceInsert ib tb
        (spliceInsert ia ta ((w.state.events.eraseIdx ia).eraseIdx ib))).Perm
          w.state.events := by
      have h1 := spliceInsert_perm
        (spliceInsert ia ta ((w.state.events.eraseIdx ia).eraseIdx ib)) ib tb
      have h2 := spliceInsert_perm ((w.state.events.eraseIdx ia).eraseIdx ib) ia ta
      have h3 := eraseIdx_perm _ ib tb hrb
      have h4 := eraseIdx_perm _ ia ta hra
      exact h1.trans (((h2.cons tb).trans (List.Perm.swap ta tb _)).trans
        ((h3.symm.cons ta).trans h4.symm))
    refine ⟨ia, ta, ib, tb, hida, hidb, ?_, hk, ?_, ?_, ?_, ?_⟩
    · rw [hdb, hda]
    · rw [hk]
      exact (hperm.mem_iff).2 (List.getElem?_mem hra)
    · rw [hk]
      exact ((spliceInsert_perm _ ib tb).mem_iff).2 (List.mem_cons_self _ _)
    · rw [hk]
      exact hperm
    · rw [hdb, hda, hw]
      simp only [List.nil_append, List.singleton_append]
      rw [keydown_pair e he _ _ _ _ _ rfl rfl (by simp)]

/-- Witness of `two_deletes_one_undo`: tasks `a` and `b` of the sample store. -/
theorem two_deletes_one_undo_witness :
    (worldOf undoState).listeners = [] ∧ isUndoKey ctrlZ = true ∧
    (keydown ctrlZ (deleteTask "b" (deleteTask "a" (worldOf undoState)))).listeners = [] ∧
    ∃ ia ta ib tb, ta.id = "a" ∧ tb.id = "b" ∧
      (keydown ctrlZ (deleteTask "b" (deleteTask "a" (worldOf undoState)))).state.tasks =
        spliceInsert ib tb (spliceInsert ia ta
          (((worldOf undoState).state.tasks.eraseIdx ia).eraseIdx ib)) :=
  ⟨rfl, rfl, rfl,
   by
     obtain ⟨ia, ta, ib, tb, h1, h2, _, h3, _⟩ :=
       (two_deletes_one_undo (worldOf undoState) rfl ctrlZ rfl "a" "b" (by decide)).1
         ⟨sampleTask "a" "Errands", by simp [worldOf, undoState], rfl⟩
         ⟨sampleTask "b" "Errands", by simp [worldOf, undoState], rfl⟩
     exact ⟨ia, ta, ib, tb, h1, h2, h3⟩⟩

/-- C20, counterexample: from the events `[e1, e2]`, after `deleteEvent(e1)` and
`deleteEvent(e2)` one Control+Z restores both events, the first one included; and from the
tasks `[a, b, c]`, after `deleteTask(b)` and `deleteTask(c)` one Control+Z gives
`[a, c, b]`, in which `b` is back. -/
theorem second_delete_keeps_first_window :
    (deleteEvent "e2" (deleteEvent "e1" (worldOf undoState))).state.events = [] ∧
    (keydown ctrlZ (deleteEvent "e2" (deleteEvent "e1" (worldOf undoState)))).state.events
      = [timedEvent "e2" "10:00", timedEvent "e1" "09:00"] ∧
    timedEvent "e1" "09:00" ∈
      (keydown ctrlZ (deleteEvent "e2" (deleteEvent "e1" (worldOf undoState)))).state.events ∧
    (deleteTask "c" (deleteTask "b" (worldOf undoState))).state.tasks
      = [sampleTask "a" "Errands"] ∧
    (keydown ctrlZ (deleteTask "c" (deleteTask "b" (worldOf undoState)))).state.tasks
      = [sampleTask "a" "Errands", sampleTask "c" "Errands", sampleTask "b" "Errands"] := by
  refine ⟨rfl, rfl, ?_, rfl, rfl⟩
  have h : (keydown ctrlZ (deleteEvent "e2" (deleteEvent "e1" (worldOf undoState)))).state.events
      = [timedEvent "e2" "10:00", timedEvent "e1" "09:00"] := rfl
  rw [h]
  simp

theorem modify_of_get {α : Type} (f : α → α) (l : List α) (i : Nat) (x : α)
    (h : l[i]? = some x) : (l.modify f i)[i]? = some (f x) ∧ f x ∈ l.modify f i := by
  have h1 : (l.modify f i)[i]? = some (f x) := by
    rw [List.getElem?_modify]
    simp [h]
  exact ⟨h1, List.getElem?_mem h1⟩

theorem modify_eq_set_of_get {α : Type} (f : α → α) (l : List α) (i : Nat) (x : α)
    (h : l[i]? = some x) : l.modify f i = l.set i (f x) := by
  rw [List.modify_eq_set_get?]
  simp [h]

/-- C17: event validation is atomic. For every world and form input, the checks being
read in the order of the claim, `upsertEventFromForm` returns `Title is required` when the
trimmed title is empty; `Date is required` when the title is not empty and the trimmed
date is; `End time must be after start time` when neither is empty, both trimmed times
are non-empty and `startTime > endTime` in the order of the code units; every rejected
call leaves the world, hence the event list, unchanged. Whenever it returns ok, the
event it created (appended to the list) or updated (in place) has a non-empty title and
date and, if both times are set, `startTime <= endTime`. -/
theorem upsertEventFromForm_atomic (env : Env) (k : Nat) (fd : FormData) (w : World) :
    (jsTrim (formValue fd "title" "") = "" →
      (upsertEventFromForm env k fd w).result = .rejected "Title is required") ∧
    (jsTrim (formValue fd "title" "") ≠ "" → jsTrim (formValue fd "date" "") = "" →
      (upsertEventFromForm env k fd w).result = .rejected "Date is required") ∧
    (jsTrim (formValue fd "title" "") ≠ "" → jsTrim (formValue fd "date" "") ≠ "" →
      jsTrim (formValue fd "startTime" "") ≠ "" → jsTrim (formValue fd "endTime" "") ≠ "" →
      jsStrLt (jsTrim (formValue fd "endTime" "")) (jsTrim (formValue fd "startTime" "")) = true →
      (upsertEventFromForm env k fd w).result = .rejected "End time must be after start time") ∧
    (∀ reason, (upsertEventFromForm env k fd w).result = .rejected reason →
      (upsertEventFromForm env k fd w).world = w) ∧
    (∀ mode, (upsertEventFromForm env k fd w).result = .ok mode →
      ∃ ev, ev ∈ (upsertEventFromForm env k fd w).world.state.events ∧
        ((mode = "created" ∧
            (upsertEventFromForm env k fd w).world.state.events = w.state.events ++ [ev]) ∨
         (mode = "updated" ∧ ∃ idx old, w.state.events[idx]? = some old ∧
            old.id = jsTrim (formValue fd "id" "") ∧ ev.id = old.id ∧
            (upsertEventFromForm env k fd w).world.state.events
              = w.state.events.set idx ev)) ∧
        ev.title = jsTrim (formValue fd "title" "") ∧ ev.title ≠ "" ∧
        ev.date = jsTrim (formValue fd "date" "") ∧ ev.date ≠ "" ∧
        (ev.startTime ≠ "" → ev.endTime ≠ "" → jsStrLt ev.endTime ev.startTime = false)) := by
  refine ⟨?_, ?_, ?_, ?_, ?_⟩
  · intro h
    simp [upsertEventFromForm, h]
  · intro h1 h2
    simp [upsertEventFromForm, h1, h2]
  · intro h1 h2 h3 h4 h5
    simp [upsertEventFromForm, h1, h2, h3, h4, h5]
  · intro reason
    unfold upsertEventFromForm
    simp only
    split_ifs with h1 h2 h3 h4
    · intro _; rfl
    · intro _; rfl
    · intro _; rfl
    · cases hf : findIndex (fun x => decide (x.id = jsTrim (formValue fd "id" "")))
          w.state.events with
      | none => intro _; rfl
      | some idx => simp
    · simp
  · intro mode
    unfold upsertEventFromForm
    simp only
    split_ifs with h1 h2 h3 h4
    · simp
    · simp
    · simp
    · cases hf : findIndex (fun x => decide (x.id = jsTrim (formValue fd "id" "")))
          w.state.events with
      | none => simp
      | some idx =>
        obtain ⟨old, hold, hp⟩ := findIndex_some _ _ _ hf
        simp only [FormResult.ok.injEq]
        intro hm
        have hmod := modify_of_get (fun e : Event => { e with
                title := jsTrim (formValue fd "title" ""),
                date := jsTrim (formValue fd "date" ""),
                startTime := jsTrim (formValue fd "startTime" ""),
                endTime := jsTrim (formValue fd "endTime" ""),
                location := jsTrim (formValue fd "location" ""),
                notes := jsTrim (formValue fd "notes" ""),
                color := colorOrBlue (jsTrim (formValue fd "color" "blue")),
                updatedAt := .num (.fin (env.now k)) }) w.state.events idx old hold
        refine ⟨_, hmod.2, Or.inr ⟨hm.symm, idx, old, hold, by simpa using hp, rfl, ?_⟩,
          rfl, h1, rfl, h2, ?_⟩
        · exact modify_eq_set_of_get _ _ _ _ hold
        · intro hs he
          by_contra hlt
          exact h3 ⟨hs, he, by simpa using hlt⟩
    · simp only [FormResult.ok.injEq]
      intro hm
      refine ⟨_, by simp, Or.inl ⟨hm.symm, rfl⟩, rfl, h1, rfl, h2, ?_⟩
      intro hs he
      by_contra hlt
      exact h3 ⟨hs, he, by simpa using hlt⟩

/-- Witness of `upsertEventFromForm_atomic`: a form whose end time is before its start
time is rejected and the world is unchanged; the same form with the times in order is
saved as a new event at the end of the list. -/
theorem upsertEventFromForm_atomic_witness :
    (upsertEventFromForm sampleEnv 0 (eventFormExample "Review" "2024-06-03" "10:00" "09:00")
      (worldOf undoState)).result = .rejected "End time must be after start time" ∧
    (upsertEventFromForm sampleEnv 0 (eventFormExample "Review" "2024-06-03" "10:00" "09:00")
      (worldOf undoState)).world = worldOf undoState ∧
    (upsertEventFromForm sampleEnv 0 (eventFormExample "Review" "2024-06-03" "09:00" "10:00")
      (worldOf undoState)).result = .ok "created" ∧
    ((upsertEventFromForm sampleEnv 0 (eventFormExample "Review" "2024-06-03" "09:00" "10:00")
      (worldOf undoState)).world.state.events.map (fun e => (e.id, e.title, e.startTime)))
      = [("e1", "Standup", "09:00"), ("e2", "Standup", "10:00"), ("id_0", "Review", "09:00")] :=
  ⟨(upsertEventFromForm_atomic sampleEnv 0
      (eventFormExample "Review" "2024-06-03" "10:00" "09:00") (worldOf undoState)).2.2.1
      (by decide) (by decide) (by decide) (by decide) (by decide),
   (upsertEventFromForm_atomic sampleEnv 0
      (eventFormExample "Review" "2024-06-03" "10:00" "09:00") (worldOf undoState)).2.2.2.1
      "End time must be after start time" (by decide),
   by decide, by decide⟩

theorem formValue_of_ne_empty (fd : FormData) (name dflt : String)
    (h : formValue fd name "" ≠ "") : formValue fd name dflt = formValue fd name "" := by
  unfold formValue at h ⊢
  split
  · rename_i p hp
    simp only [hp] at h
    split_ifs at h ⊢ with h1
    · exact absurd rfl h
    · rfl
  · rename_i hp
    simp only [hp] at h
    exact absurd rfl h

theorem formValue_of_empty (fd : FormData) (name dflt : String)
    (h : formValue fd name "" = "") : formValue fd name dflt = dflt := by
  unfold formValue at h ⊢
  split
  · rename_i p hp
    simp only [hp] at h
    split_ifs at h ⊢ with h1
    · rfl
    · exact absurd h h1
  · rfl

/-- The category a new task gets is the submitted one when it is in the category list and
the first category otherwise. -/
theorem categoryOrFirst_submitted (s : State) (fd : FormData) (he : "" ∉ s.categories) :
    categoryOrFirst s (formValue fd "category" (firstCategoryText s)) =
      if formValue fd "category" "" ∈ s.categories then some (formValue fd "category" "")
      else s.categories.head? := by
  by_cases h : formValue fd "category" "" = ""
  · rw [formValue_of_empty fd "category" _ h, h, if_neg he]
    unfold categoryOrFirst firstCategoryText
    cases hc : s.categories with
    | nil => simp
    | cons c r => simp
  · rw [formValue_of_ne_empty fd "category" _ h]
    rfl

theorem priorityOrMedium_submitted (fd : FormData) :
    priorityOrMedium (formValue fd "priority" "medium") =
      if formValue fd "priority" "" ∈ ["low", "medium", "high"] then formValue fd "priority" ""
      else "medium" := by
  by_cases h : formValue fd "priority" "" = ""
  · rw [formValue_of_empty fd "priority" _ h, h]
    decide
  · rw [formValue_of_ne_empty fd "priority" _ h]
    rfl

/-- C18: for every world whose category list is non-empty and holds no empty name, and
every form input with no id, `upsertTaskFromForm` returns `Title is required` and leaves
the world, hence the task list, unchanged when the trimmed title is empty; otherwise it
returns ok with mode `created` and appends exactly one task at the end of the list, the
existing tasks, the categories and the events being unchanged, with a fresh id, the
trimmed title, `completed = false`, the category submitted when it is in the category
list and the first category otherwise, and the priority submitted when it is low, medium
or high and `medium` otherwise. -/
theorem upsertTaskFromForm_creates (env : Env) (k : Nat) (fd : FormData) (w : World)
    (hc : w.state.categories ≠ []) (he : "" ∉ w.state.categories)
    (hid : jsTrim (formValue fd "id" "") = "") :
    (jsTrim (formValue fd "title" "") = "" →
      (upsertTaskFromForm env k fd w).result = .rejected "Title is required" ∧
      (upsertTaskFromForm env k fd w).world = w) ∧
    (jsTrim (formValue fd "title" "") ≠ "" →
      ∃ t first, w.state.categories.head? = some first ∧
        (upsertTaskFromForm env k fd w).result = .ok "created" ∧
        (upsertTaskFromForm env k fd w).world.state.tasks = w.state.tasks ++ [t] ∧
        (upsertTaskFromForm env k fd w).world.state.categories = w.state.categories ∧
        (upsertTaskFromForm env k fd w).world.state.events = w.state.events ∧
        t.id = env.uid k ∧
        t.title = jsTrim (formValue fd "title" "") ∧ t.completed = false ∧
        t.category = some (if formValue fd "category" "" ∈ w.state.categories
          then formValue fd "category" "" else first) ∧
        t.priority = (if formValue fd "priority" "" ∈ ["low", "medium", "high"]
          then formValue fd "priority" "" else "medium")) := by
  constructor
  · intro h
    simp [upsertTaskFromForm, h]
  · intro h
    obtain ⟨first, rest, hcat⟩ := List.exists_cons_of_ne_nil hc
    have hhead : w.state.categories.head? = some first := by rw [hcat]; rfl
    have hrun : upsertTaskFromForm env k fd w =
        { world := { w with
            state := { w.state with tasks := w.state.tasks ++
              [{ id := env.uid k, title := jsTrim (formValue fd "title" ""),
                 category := categoryOrFirst w.state
                   (formValue fd "category" (firstCategoryText w.state)),
                 priority := priorityOrMedium (formValue fd "priority" "medium"),
                 dueDate := formValue fd "dueDate" "",
                 notes := jsTrim (formValue fd "notes" ""), completed := false,
                 createdAt := .num (.fin (env.now (k + 1))),
                 updatedAt := .num (.fin (env.now (k + 2))) }] },
            storage := persist { w.state with tasks := w.state.tasks ++
              [{ id := env.uid k, title := jsTrim (formValue fd "title" ""),
                 category := categoryOrFirst w.state
                   (formValue fd "category" (firstCategoryText w.state)),
                 priority := priorityOrMedium (formValue fd "priority" "medium"),
                 dueDate := formValue fd "dueDate" "",
                 notes := jsTrim (formValue fd "notes" ""), completed := false,
                 createdAt := .num (.fin (env.now (k + 1))),
                 updatedAt := .num (.fin (env.now (k + 2))) }] } },
          result := .ok "created",
          toast := if formValue fd "category" (firstCategoryText w.state) ∈ w.state.categories
            then none else some "Category not found; using default" } := by
      simp only [upsertTaskFromForm, h, hid, if_false, ne_eq, not_true_eq_false]
    rw [hrun]
    refine ⟨_, first, hhead, rfl, rfl, rfl, rfl, rfl, rfl, rfl, ?_, ?_⟩
    · simp only [categoryOrFirst_submitted w.state fd he, hhead]
      split_ifs <;> rfl
    · exact priorityOrMedium_submitted fd

/-- Witness of `upsertTaskFromForm_creates`: a form with a title to trim, an unknown
category and an unknown priority. -/
theorem upsertTaskFromForm_creates_witness :
    (worldOf undoState).state.categories ≠ [] ∧ "" ∉ (worldOf undoState).state.categories ∧
    jsTrim (formValue (taskFormExample " Buy milk " "Nope" "urgent") "id" "") = "" ∧
    ((upsertTaskFromForm sampleEnv 0 (taskFormExample " Buy milk " "Nope" "urgent")
      (worldOf undoState)).world.state.tasks.map
        (fun t => (t.id, t.title, t.category, t.priority, t.completed)))
      = [("a", "Buy milk", some "Errands", "low", false),
         ("b", "Buy milk", some "Errands", "low", false),
         ("c", "Buy milk", some "Errands", "low", false),
         ("id_0", "Buy milk", some "Errands", "medium", false)] ∧
    (upsertTaskFromForm sampleEnv 0 (taskFormExample "  " "Errands" "low")
      (worldOf undoState)).result = .rejected "Title is required" ∧
    (upsertTaskFromForm sampleEnv 0 (taskFormExample "  " "Errands" "low")
      (worldOf undoState)).world = worldOf undoState :=
  ⟨by decide, by decide, by decide, by decide,
   ((upsertTaskFromForm_creates sampleEnv 0 (taskFormExample "  " "Errands" "low")
      (worldOf undoState) (by decide) (by decide) (by decide)).1 (by decide)).1,
   ((upsertTaskFromForm_creates sampleEnv 0 (taskFormExample "  " "Errands" "low")
      (worldOf undoState) (by decide) (by decide) (by decide)).1 (by decide)).2⟩

theorem importData_invalid (env : Env) (text : Slot) (w : World)
    (h : (!truthy (safeParse text .null) || !isObjectType (safeParse text .null)) = true) :
    importData env text w = (w, .toast "Invalid JSON") := by
  unfold importData
  simp only [h, if_true]

theorem importData_missing (env : Env) (text : Slot) (w : World)
    (h : (!truthy (safeParse text .null) || !isObjectType (safeParse text .null)) = false)
    (hm : ¬ (isArray ((safeParse text .null).get "categories") = true ∧
      isArray ((safeParse text .null).get "tasks") = true ∧
      isArray ((safeParse text .null).get "events") = true)) :
    importData env text w = (w, .toast "Import missing fields") := by
  unfold importData
  simp only [h, Bool.false_eq_true, if_false]
  have hcond : (!truthy (if isArray ((safeParse text .null).get "categories") = true
        then (safeParse text .null).get "categories" else .null) ||
      !truthy (if isArray ((safeParse text .null).get "tasks") = true
        then (safeParse text .null).get "tasks" else .null) ||
      !truthy (if isArray ((safeParse text .null).get "events") = true
        then (safeParse text .null).get "events" else .null)) = true := by
    by_cases h1 : isArray ((safeParse text .null).get "categories") = true
    · by_cases h2 : isArray ((safeParse text .null).get "tasks") = true
      · by_cases h3 : isArray ((safeParse text .null).get "events") = true
        · exact absurd ⟨h1, h2, h3⟩ hm
        · simp [h3, truthy]
      · simp [h2, truthy]
    · simp [h1, truthy]
  simp only [hcond, if_true]

/-- C19: import is all-or-nothing. For every world and every import text whose parsed
payload lacks one of `categories`, `tasks` and `events` or holds something that is not an
array there, `importData` rejects the import, with the toast `Invalid JSON` when the
payload is not an object and `Import missing fields` otherwise, and leaves the world as it
was: the categories, tasks, events and `ui` in memory and all four persisted slots. -/
theorem importData_rejects (env : Env) (text : Slot) (w : World)
    (hm : ¬ (isArray ((safeParse text .null).get "categories") = true ∧
      isArray ((safeParse text .null).get "tasks") = true ∧
      isArray ((safeParse text .null).get "events") = true)) :
    (importData env text w).1 = w ∧
    (importData env text w).1.state = w.state ∧
    (importData env text w).1.storage = w.storage ∧
    ((importData env text w).2 = .toast "Invalid JSON" ∨
      (importData env text w).2 = .toast "Import missing fields") := by
  cases h : (!truthy (safeParse text .null) || !isObjectType (safeParse text .null)) with
  | true =>
    rw [importData_invalid env text w h]
    exact ⟨rfl, rfl, rfl, Or.inl rfl⟩
  | false =>
    rw [importData_missing env text w h hm]
    exact ⟨rfl, rfl, rfl, Or.inr rfl⟩

/-- Witness of `importData_rejects`: a payload with categories and tasks and no events. -/
theorem importData_rejects_witness :
    ¬ (isArray ((safeParse (.json payloadWithoutEvents) .null).get "categories") = true ∧
      isArray ((safeParse (.json payloadWithoutEvents) .null).get "tasks") = true ∧
      isArray ((safeParse (.json payloadWithoutEvents) .null).get "events") = true) ∧
    (importData sampleEnv (.json payloadWithoutEvents) (worldOf undoState)).2
      = .toast "Import missing fields" ∧
    (importData sampleEnv (.json payloadWithoutEvents) (worldOf undoState)).1
      = worldOf undoState :=
  ⟨by decide, by decide,
   (importData_rejects sampleEnv (.json payloadWithoutEvents) (worldOf undoState)
     (by decide)).1⟩

/-- The success path on a closed example: a payload with the three arrays replaces the
categories, tasks and events of the state. -/
theorem importData_example :
    (importData sampleEnv
      (.json (.obj [("categories", .arr [.str "Home"]), ("tasks", .arr []),
                    ("events", .arr [])])) (worldOf undoState)).2
        = .toast "Imported successfully" ∧
    (importData sampleEnv
      (.json (.obj [("categories", .arr [.str "Home"]), ("tasks", .arr []),
                    ("events", .arr [])])) (worldOf undoState)).1.state.categories
        = ["Home"] ∧
    (importData sampleEnv
      (.json (.obj [("categories", .arr [.str "Home"]), ("tasks", .arr []),
                    ("events", .arr [])])) (worldOf undoState)).1.state.tasks.length = 0 :=
  ⟨rfl, rfl, rfl⟩

end TaskFlow
